import Mathlib

/-!
Pomodoro interval engine (`pomo/pomodoro/interval.go`).

A shallow embedding of the interval engine: the category selector
(`nextCategory`), the interval factory (`newInterval`, `GetInterval`), the
state machine (`Start`, `Pause`) and the tick loop (`tick`).

* The `Repository` interface is embedded as a record of state-passing
  handlers over an arbitrary store type; every handler returns its Go result
  tuple together with the successor store.
* Every repository call, timer creation and callback invocation made by the
  engine is appended to a trace, so that statements about which calls are
  made (and in which order) can be expressed.
* `time.Duration` and `time.Time` are signed 64-bit nanosecond counts; they
  are embedded as `Int`, with the wrap-around of `+=` and `-` made explicit.
* The `select` of the tick loop is embedded by an explicit schedule: the list
  of events (timer, deadline, cancellation) serviced by successive iterations.

Two smaller embeddings follow the engine: the validation of the arguments of
`run` in `colStats/main.go` (namespace `ColStats`) and the report written by
`printResults` in `pScan/cmd/scan.go` (namespace `PScan`).
-/

namespace Pomodoro

/-! ## Data model -/

def CategoryPomodoro : String := "Pomodoro"
def CategoryShortBreak : String := "ShortBreak"
def CategoryLongBreak : String := "LongBreak"

def StateNotStarted : Int := 0
def StateRunning : Int := 1
def StatePaused : Int := 2
def StateDone : Int := 3
def StateCancelled : Int := 4

/-- One nanosecond-resolution second, `time.Second`. -/
def Second : Int := 1000000000

/-- One minute, `time.Minute`. -/
def Minute : Int := 60 * Second

/-- Two's-complement reduction of an integer into the `int64` range. -/
def wrapInt64 (x : Int) : Int := (x + 2 ^ 63) % 2 ^ 64 - 2 ^ 63

structure Interval where
  ID : Int
  StartTime : Int
  PlannedDuration : Int
  ActualDuration : Int
  Category : String
  State : Int
deriving DecidableEq, Repr

/-- The zero value `Interval{}`. -/
def Interval.zero : Interval :=
  { ID := 0, StartTime := 0, PlannedDuration := 0, ActualDuration := 0,
    Category := "", State := 0 }

/-- Go `error` values: the five sentinels of the package, a `%w`-wrapped error
and any other error value a repository may return.  The nil error is `none`
of `Option Error`. -/
inductive Error where
  | ErrNoIntervals
  | ErrIntervalNotRunning
  | ErrIntervalCompleted
  | ErrInvalidState
  | ErrInvalidID
  | wrapped (base : Error) (detail : String)
  | other (msg : String)
deriving DecidableEq, Repr

/-- The `Repository` interface over a store of type `σ`. -/
structure Repository (σ : Type) where
  Create : Interval → σ → (Int × Option Error) × σ
  Update : Interval → σ → Option Error × σ
  ByID : Int → σ → (Interval × Option Error) × σ
  Last : σ → (Interval × Option Error) × σ
  Breaks : Int → σ → (List Interval × Option Error) × σ

/-- Observable actions of the engine, in the order they are performed. -/
inductive Event where
  | create (i : Interval)
  | update (i : Interval)
  | byID (id : Int)
  | last
  | breaks (n : Int)
  | newTicker (d : Int)
  | after (d : Int)
  | onStart (i : Interval)
  | onPeriodic (i : Interval)
  | onEnd (i : Interval)
deriving DecidableEq, Repr

/-- The store together with the trace of actions performed so far. -/
structure World (σ : Type) where
  store : σ
  trace : List Event

structure IntervalConfig (σ : Type) where
  repo : Repository σ
  PomodoroDuration : Int
  ShortBreakDuration : Int
  LongBreakDuration : Int

/-! ## Traced repository calls -/

def callCreate {σ : Type} (r : Repository σ) (i : Interval) (w : World σ) :
    (Int × Option Error) × World σ :=
  ((r.Create i w.store).1, ⟨(r.Create i w.store).2, w.trace ++ [Event.create i]⟩)

def callUpdate {σ : Type} (r : Repository σ) (i : Interval) (w : World σ) :
    Option Error × World σ :=
  ((r.Update i w.store).1, ⟨(r.Update i w.store).2, w.trace ++ [Event.update i]⟩)

def callByID {σ : Type} (r : Repository σ) (id : Int) (w : World σ) :
    (Interval × Option Error) × World σ :=
  ((r.ByID id w.store).1, ⟨(r.ByID id w.store).2, w.trace ++ [Event.byID id]⟩)

def callLast {σ : Type} (r : Repository σ) (w : World σ) :
    (Interval × Option Error) × World σ :=
  ((r.Last w.store).1, ⟨(r.Last w.store).2, w.trace ++ [Event.last]⟩)

def callBreaks {σ : Type} (r : Repository σ) (n : Int) (w : World σ) :
    (List Interval × Option Error) × World σ :=
  ((r.Breaks n w.store).1, ⟨(r.Breaks n w.store).2, w.trace ++ [Event.breaks n]⟩)

/-- Invocation of a callback: recorded in the trace. -/
def emit {σ : Type} (e : Event) (w : World σ) : World σ :=
  ⟨w.store, w.trace ++ [e]⟩

/-! ## Config -/

def NewConfig {σ : Type} (repo : Repository σ) (pomodoro shortBreak longBreak : Int) :
    IntervalConfig σ :=
  let c : IntervalConfig σ :=
    { repo := repo, PomodoroDuration := 25 * Minute, ShortBreakDuration := 5 * Minute,
      LongBreakDuration := 15 * Minute }
  let c := if pomodoro > 0 then { c with PomodoroDuration := pomodoro } else c
  let c := if shortBreak > 0 then { c with ShortBreakDuration := shortBreak } else c
  let c := if longBreak > 0 then { c with LongBreakDuration := longBreak } else c
  c

/-! ## Category selector -/

/-- The `for … range lastBreaks` loop of `nextCategory`: `true` when the loop
returns early because some element has category `LongBreak`. -/
def foundLongBreak : List Interval → Bool
  | [] => false
  | i :: rest => if i.Category = CategoryLongBreak then true else foundLongBreak rest

def nextCategory {σ : Type} (r : Repository σ) (w : World σ) :
    (String × Option Error) × World σ :=
  let res := callLast r w
  let li := res.1.1
  let err := res.1.2
  let w1 := res.2
  if err ≠ none ∧ err = some Error.ErrNoIntervals then
    ((CategoryPomodoro, none), w1)
  else if err ≠ none then
    (("", err), w1)
  else if li.Category = CategoryLongBreak ∨ li.Category = CategoryShortBreak then
    ((CategoryPomodoro, none), w1)
  else
    let res2 := callBreaks r 3 w1
    let lastBreaks := res2.1.1
    let err2 := res2.1.2
    let w2 := res2.2
    if err2 ≠ none then
      (("", err2), w2)
    else if lastBreaks.length < 3 then
      ((CategoryShortBreak, none), w2)
    else if foundLongBreak lastBreaks then
      ((CategoryShortBreak, none), w2)
    else
      ((CategoryLongBreak, none), w2)

/-! ## Interval factory -/

/-- The `switch category` of `newInterval`: the planned duration for a
category; an unmatched category leaves the zero value. -/
def plannedFor {σ : Type} (config : IntervalConfig σ) (category : String) : Int :=
  if category = CategoryPomodoro then config.PomodoroDuration
  else if category = CategoryShortBreak then config.ShortBreakDuration
  else if category = CategoryLongBreak then config.LongBreakDuration
  else 0

/-- The interval `newInterval` hands to `Create` when the selected category
is `category`: the zero value with `Category` set and `PlannedDuration` set by
the `switch`. -/
def draft {σ : Type} (config : IntervalConfig σ) (category : String) : Interval :=
  { Interval.zero with Category := category, PlannedDuration := plannedFor config category }

def newInterval {σ : Type} (config : IntervalConfig σ) (w : World σ) :
    (Interval × Option Error) × World σ :=
  let i := Interval.zero
  let res := nextCategory config.repo w
  let category := res.1.1
  let err := res.1.2
  let w1 := res.2
  if err ≠ none then
    ((i, err), w1)
  else
    let i := draft config category
    let res2 := callCreate config.repo i w1
    let i := { i with ID := res2.1.1 }
    if res2.1.2 ≠ none then
      ((i, res2.1.2), res2.2)
    else
      ((i, none), res2.2)

def GetInterval {σ : Type} (config : IntervalConfig σ) (w : World σ) :
    (Interval × Option Error) × World σ :=
  let res := callLast config.repo w
  let i := res.1.1
  let err := res.1.2
  let w1 := res.2
  if err ≠ none ∧ err ≠ some Error.ErrNoIntervals then
    ((i, err), w1)
  else if err = none ∧ i.State ≠ StateCancelled ∧ i.State ≠ StateDone then
    ((i, none), w1)
  else
    newInterval config w1

/-! ## Tick loop -/

/-- The three communications raced by the `select` of the tick loop. -/
inductive TickEvent where
  | timer
  | expire
  | cancel
deriving DecidableEq, Repr

/-- Result of running the loop against a schedule: it has returned an error
value, or the schedule is exhausted and the loop is blocked in `select`. -/
inductive Outcome where
  | returned (err : Option Error)
  | blocked
deriving DecidableEq, Repr

/-- One iteration of the `for { select { … } }` loop of `tick`, servicing the
event `ev`: `none` when the loop goes on, `some err` when `tick` returns. -/
def tickStep {σ : Type} (r : Repository σ) (id : Int) (ev : TickEvent) (w : World σ) :
    Option (Option Error) × World σ :=
  let res := callByID r id w
  let i := res.1.1
  let err := res.1.2
  let w1 := res.2
  match ev with
  | TickEvent.timer =>
    if err ≠ none then (some err, w1)
    else if i.State = StatePaused then (some none, w1)
    else
      let i := { i with ActualDuration := wrapInt64 (i.ActualDuration + Second) }
      let res2 := callUpdate r i w1
      if res2.1 ≠ none then (some res2.1, res2.2)
      else (none, emit (Event.onPeriodic i) res2.2)
  | TickEvent.expire =>
    if err ≠ none then (some err, w1)
    else
      let i := { i with State := StateDone }
      let w2 := emit (Event.onEnd i) w1
      let res2 := callUpdate r i w2
      (some res2.1, res2.2)
  | TickEvent.cancel =>
    if err ≠ none then (some err, w1)
    else
      let i := { i with State := StateCancelled }
      let res2 := callUpdate r i w1
      (some res2.1, res2.2)

/-- The `for` loop of `tick` run against a schedule of serviced events. -/
def tickLoop {σ : Type} (r : Repository σ) (id : Int) :
    List TickEvent → World σ → Outcome × World σ
  | [], w => (Outcome.blocked, w)
  | ev :: rest, w =>
    match (tickStep r id ev w).1 with
    | some err => (Outcome.returned err, (tickStep r id ev w).2)
    | none => tickLoop r id rest (tickStep r id ev w).2

def tick {σ : Type} (id : Int) (config : IntervalConfig σ) (schedule : List TickEvent)
    (w : World σ) : Outcome × World σ :=
  let w0 := emit (Event.newTicker Second) w
  let res := callByID config.repo id w0
  let i := res.1.1
  let err := res.1.2
  let w1 := res.2
  if err ≠ none then (Outcome.returned err, w1)
  else
    let w2 := emit (Event.after (wrapInt64 (i.PlannedDuration - i.ActualDuration))) w1
    let w3 := emit (Event.onStart i) w2
    tickLoop config.repo id schedule w3

/-! ## State machine -/

/-- The method `Start`: `now` is the value of `time.Now()` and `schedule` the
events serviced by the tick loop it runs. -/
def Interval.Start {σ : Type} (i : Interval) (now : Int) (config : IntervalConfig σ)
    (schedule : List TickEvent) (w : World σ) : Outcome × World σ :=
  if i.State = StateRunning then
    (Outcome.returned none, w)
  else if i.State = StateNotStarted ∨ i.State = StatePaused then
    let i := if i.State = StateNotStarted then { i with StartTime := now } else i
    let i := { i with State := StateRunning }
    let res := callUpdate config.repo i w
    if res.1 ≠ none then (Outcome.returned res.1, res.2)
    else tick i.ID config schedule res.2
  else if i.State = StateCancelled ∨ i.State = StateDone then
    (Outcome.returned (some (Error.wrapped Error.ErrIntervalCompleted "Cannot start")), w)
  else
    (Outcome.returned (some (Error.wrapped Error.ErrInvalidState (toString i.State))), w)

def Interval.Pause {σ : Type} (i : Interval) (config : IntervalConfig σ) (w : World σ) :
    Option Error × World σ :=
  if i.State ≠ StateRunning then
    (some Error.ErrIntervalNotRunning, w)
  else
    let i := { i with State := StatePaused }
    callUpdate config.repo i w

/-! ## In-memory store

The storage backend is an external collaborator of the engine.  The store
below follows the repository contract of the specification (section 6): an
ordered history, oldest record first. -/

/-- Modelled from the spec: the repository backend is not part of the engine
sources.  The history of persisted interval records, oldest first. -/
abbrev Store : Type := List Interval

/-- Modelled from the spec: a category is a break when it is `ShortBreak` or
`LongBreak`. -/
def isBreak (c : String) : Bool :=
  decide (c = CategoryShortBreak) || decide (c = CategoryLongBreak)

/-- Modelled from the spec: an identifier not carried by any stored record
(one more than the largest identifier in use, and at least 1). -/
def freshID (s : Store) : Int :=
  (s.map (fun x => x.ID)).foldl max 0 + 1

/-- Modelled from the spec: `ByID` on the store, the first record carrying the
identifier. -/
def lookup (id : Int) : Store → Option Interval
  | [] => none
  | x :: rest => if x.ID = id then some x else lookup id rest

/-- Modelled from the spec: `Update` overwrites the mutable fields
(`StartTime`, `ActualDuration`, `State`) of the record keyed by the
identifier of its argument; `none` when no record carries it. -/
def overwrite (i : Interval) : Store → Option Store
  | [] => none
  | x :: rest =>
    if x.ID = i.ID then
      some ({ x with StartTime := i.StartTime, ActualDuration := i.ActualDuration,
                     State := i.State } :: rest)
    else
      match overwrite i rest with
      | some rest2 => some (x :: rest2)
      | none => none

/-- Modelled from the spec: up to `n` most recent records whose category is a
break, most recent first. -/
def recentBreaks (n : Int) (s : Store) : List Interval :=
  (s.reverse.filter (fun x => isBreak x.Category)).take n.toNat

/-- Modelled from the spec: the repository contract of section 6 realised on
the ordered store.  `Create` appends the record under a fresh identifier and
returns it; `Update` overwrites the record keyed by the identifier and fails
with `ErrInvalidID` when it is absent; `ByID` fails with `ErrInvalidID` when
absent; `Last` returns the most recent record and fails with `ErrNoIntervals`
on the empty store; `Breaks n` returns the `n` most recent breaks. -/
def memRepo : Repository Store where
  Create := fun i s => ((freshID s, none), s ++ [{ i with ID := freshID s }])
  Update := fun i s =>
    match overwrite i s with
    | some s2 => (none, s2)
    | none => (some Error.ErrInvalidID, s)
  ByID := fun id s =>
    match lookup id s with
    | some x => ((x, none), s)
    | none => ((Interval.zero, some Error.ErrInvalidID), s)
  Last := fun s =>
    match s.getLast? with
    | some x => ((x, none), s)
    | none => ((Interval.zero, some Error.ErrNoIntervals), s)
  Breaks := fun n s => ((recentBreaks n s, none), s)

/-- A config over the in-memory store with the given three durations. -/
def memConfig (p sb lb : Int) : IntervalConfig Store :=
  { repo := memRepo, PomodoroDuration := p, ShortBreakDuration := sb, LongBreakDuration := lb }

/-- An interval is active when its state is neither `Done` nor `Cancelled`. -/
def isActive (i : Interval) : Bool :=
  decide (i.State ≠ StateDone) && decide (i.State ≠ StateCancelled)

/-- An interval is terminal when its state is `Done` or `Cancelled`. -/
def isTerminal (i : Interval) : Bool :=
  decide (i.State = StateDone) || decide (i.State = StateCancelled)

/-! ## Operations on the store

The operations of the engine as transitions of the persisted history, each
executed from its first to its last repository call with no call of another
task in between.  A blocking `Start` is split into its synchronous part (the
`Update` and the start of the tick loop, i.e. `Start` against the empty
schedule) and the iterations of its loop.  These serial transitions are used
for concrete runs; what holds under every interleaving of the repository calls
is stated on the single writes of the engine (`Write`, below). -/

inductive Op where
  | getInterval
  | start (i : Interval) (now : Int)
  | pause (i : Interval)
  | tickStep (id : Int) (ev : TickEvent)
deriving DecidableEq, Repr

/-- The world reached when one operation is executed alone, from its first to
its last repository call, on the history `s` (empty trace). -/
def opWorld (config : IntervalConfig Store) (op : Op) (s : Store) : World Store :=
  match op with
  | Op.getInterval => (GetInterval config ⟨s, []⟩).2
  | Op.start i now => (i.Start now config [] ⟨s, []⟩).2
  | Op.pause i => (i.Pause config ⟨s, []⟩).2
  | Op.tickStep id ev => (tickStep config.repo id ev ⟨s, []⟩).2

/-- The history after one operation executed alone. -/
def applyOp (config : IntervalConfig Store) (op : Op) (s : Store) : Store :=
  (opWorld config op s).store

/-- The history after a sequence of operations, executed one after the other,
left to right. -/
def runOps (config : IntervalConfig Store) : List Op → Store → Store
  | [], s => s
  | op :: rest, s => runOps config rest (applyOp config op s)

/-- The sequence of histories obtained by creating `k` intervals in a row with
`newInterval`, starting from the empty history. -/
def created (config : IntervalConfig Store) : Nat → Store
  | 0 => []
  | k + 1 => (newInterval config ⟨created config k, []⟩).2.store

/-! ## Trace observations -/

/-- The trace contains a call of `Repository.Create`. -/
def createCalled (t : List Event) : Bool :=
  t.any (fun e => match e with
    | Event.create _ => true
    | _ => false)

/-- The trace contains a repository write (`Create` or `Update`). -/
def writeCalled (t : List Event) : Bool :=
  t.any (fun e => match e with
    | Event.create _ => true
    | Event.update _ => true
    | _ => false)

/-- A repository over the ordered store whose `Breaks` always fails. -/
def brokenBreaksRepo : Repository Store :=
  { memRepo with Breaks := fun _ s => (([], some (Error.other "breaks unavailable")), s) }

/-! ## The long-break cycle -/

/-- Category of the `k`-th interval of the technique cycle (`k = 1, 2, …`):
work on odd positions, a long break on every eighth, a short break
otherwise. -/
def expectedCategory (k : Nat) : String :=
  if k % 2 = 1 then CategoryPomodoro
  else if k % 8 = 0 then CategoryLongBreak
  else CategoryShortBreak

/-- What `nextCategory` reads from a history: the category of the most recent
record and the categories of the three most recent breaks. -/
def summary (s : Store) : Option String × List String :=
  (s.getLast?.map (fun x => x.Category), (recentBreaks 3 s).map (fun x => x.Category))

/-- The decision of `nextCategory` as a function of the summary. -/
def decideNext (σ : Option String × List String) : String :=
  match σ.1 with
  | none => CategoryPomodoro
  | some c =>
    if c = CategoryLongBreak ∨ c = CategoryShortBreak then CategoryPomodoro
    else if σ.2.length < 3 then CategoryShortBreak
    else if CategoryLongBreak ∈ σ.2 then CategoryShortBreak
    else CategoryLongBreak

/-- The summary after a record of category `c` is appended. -/
def extendSummary (σ : Option String × List String) (c : String) :
    Option String × List String :=
  (some c, if isBreak c then c :: σ.2.take 2 else σ.2)

/-- One round of the cycle on summaries. -/
def cycleStep (σ : Option String × List String) : Option String × List String :=
  extendSummary σ (decideNext σ)

/-- The record `GetInterval` appends to the history `s` when it creates one:
the draft for the selected category under a fresh identifier. -/
def freshRecord (config : IntervalConfig Store) (s : Store) : Interval :=
  { draft config (decideNext (summary s)) with ID := freshID s }

/-- The most recent record of the history is active. -/
def lastActive (s : Store) : Bool :=
  match s.getLast? with
  | some l => isActive l
  | none => false

/-- The history after `Update` of the in-memory store: the overwritten
history, or the unchanged one when no record carries the identifier. -/
def persist (i : Interval) (s : Store) : Store :=
  (overwrite i s).getD s

/-- Number of stored intervals whose state is neither `Done` nor
`Cancelled`. -/
def activeCount (s : Store) : Nat :=
  (s.filter isActive).length

/-- Every record but the most recent one is terminal. -/
def onlyLastActive (s : Store) : Prop :=
  ∀ k x, s[k]? = some x → k + 1 < s.length → isTerminal x = true

/-- Number of invocations of the `end` callback recorded in the trace. -/
def endCount (t : List Event) : Nat :=
  (t.filter (fun e => match e with
    | Event.onEnd _ => true
    | _ => false)).length

/-! ## Further trace observations -/

/-- Number of `Repository.Create` calls recorded in the trace. -/
def createCount (t : List Event) : Nat :=
  (t.filter (fun e => match e with
    | Event.create _ => true
    | _ => false)).length

/-- Number of callback invocations (`start`, `periodic`, `end`) recorded in
the trace. -/
def callbackCount (t : List Event) : Nat :=
  (t.filter (fun e => match e with
    | Event.onStart _ => true
    | Event.onPeriodic _ => true
    | Event.onEnd _ => true
    | _ => false)).length

/-- The test `errors.Is(e, target)`: `e` is `target` or wraps it through a
chain of `%w`. -/
def errorsIs : Error → Error → Bool
  | Error.wrapped base detail, target =>
    decide (Error.wrapped base detail = target) || errorsIs base target
  | e, target => decide (e = target)

/-- A repository over the ordered store whose `Create` always fails. -/
def brokenCreateRepo : Repository Store :=
  { memRepo with Create := fun _ s => ((0, some (Error.other "disk full")), s) }

/-- A repository over the ordered store whose `Update` always fails. -/
def brokenUpdateRepo : Repository Store :=
  { memRepo with Update := fun _ s => (some (Error.other "disk full"), s) }

/-! ## Observations on runs of the tick loop -/

/-- The callback invocations of a trace, in order. -/
def callbacks (t : List Event) : List Event :=
  t.filter (fun e => match e with
    | Event.onStart _ => true
    | Event.onPeriodic _ => true
    | Event.onEnd _ => true
    | _ => false)

/-- Number of deadline timers (`time.After`) armed in the trace. -/
def afterCount (t : List Event) : Nat :=
  (t.filter (fun e => match e with
    | Event.after _ => true
    | _ => false)).length

/-- The records persisted by the timer steps of a run of the loop that went on
looping, in order: a step goes on exactly when it is a timer step whose fetch
and `Update` succeed on a record that is not `Paused`. -/
def persistedTicks {σ : Type} (r : Repository σ) (id : Int) :
    List TickEvent → World σ → List Interval
  | [], _ => []
  | ev :: rest, w =>
    match (tickStep r id ev w).1 with
    | some _ => []
    | none =>
      { (r.ByID id w.store).1.1 with
          ActualDuration := wrapInt64 ((r.ByID id w.store).1.1.ActualDuration + Second) } ::
        persistedTicks r id rest (tickStep r id ev w).2

/-- The snapshot handed to `end` by a run of the loop: the record fetched by
the deadline step that ends the run, with `State` `Done`; empty when the run
does not end by a deadline step whose fetch succeeds. -/
def endSnapshots {σ : Type} (r : Repository σ) (id : Int) :
    List TickEvent → World σ → List Interval
  | [], _ => []
  | ev :: rest, w =>
    match (tickStep r id ev w).1 with
    | some _ =>
      if ev = TickEvent.expire ∧ (r.ByID id w.store).1.2 = none then
        [{ (r.ByID id w.store).1.1 with State := StateDone }]
      else []
    | none => endSnapshots r id rest (tickStep r id ev w).2

/-- The part of the timer branch of `tick` that follows the re-fetch;
`fetched` is the result of that `ByID`. -/
def timerCommit {σ : Type} (r : Repository σ) (fetched : Interval × Option Error)
    (w1 : World σ) : Option (Option Error) × World σ :=
  let i := fetched.1
  let err := fetched.2
  if err ≠ none then (some err, w1)
  else if i.State = StatePaused then (some none, w1)
  else
    let i := { i with ActualDuration := wrapInt64 (i.ActualDuration + Second) }
    let res2 := callUpdate r i w1
    if res2.1 ≠ none then (some res2.1, res2.2)
    else (none, emit (Event.onPeriodic i) res2.2)

/-- A timer step of the loop of interval `id` during which another task calls
`Pause` on `pauser` after the re-fetch of the step and before the rest of the
step (repository calls are serialised). -/
def timerStepWithPause {σ : Type} (config : IntervalConfig σ) (id : Int) (pauser : Interval)
    (w : World σ) : Option (Option Error) × World σ :=
  timerCommit config.repo (callByID config.repo id w).1
    (pauser.Pause config (callByID config.repo id w).2).2

/-- The world in which the loop of `tick` starts when the initial fetch
succeeds: the ticker, the fetch, the deadline timer and the `start` callback
have been recorded. -/
def loopEntry {σ : Type} (config : IntervalConfig σ) (id : Int) (w : World σ) : World σ :=
  ⟨(config.repo.ByID id w.store).2,
    w.trace ++ [Event.newTicker Second, Event.byID id,
      Event.after (wrapInt64 ((config.repo.ByID id w.store).1.1.PlannedDuration -
        (config.repo.ByID id w.store).1.1.ActualDuration)),
      Event.onStart (config.repo.ByID id w.store).1.1]⟩

end Pomodoro

/-! ## Column statistics (`colStats/main.go`): validation of the arguments of `run` -/

namespace ColStats

/-- Go `error` values over a type `ε` of sentinel errors: a sentinel, or an
error built by `fmt.Errorf` with `%w` around another error. -/
inductive GoError (ε : Type) where
  | sentinel (e : ε)
  | wrapped (base : GoError ε) (detail : String)
deriving DecidableEq, Repr

/-- The sentinel errors `run` refers to.  Their declarations are not among the
sources, so they are parameters of the embedding. -/
structure Sentinels (ε : Type) where
  ErrNoFiles : GoError ε
  ErrInvalidColumn : GoError ε
  ErrInvalidOperation : GoError ε

/-- What `run` does to its environment: the text written to `out` and the
files opened, in order. -/
structure Effects where
  out : String
  opened : List String
deriving DecidableEq, Repr

/-- The test `errors.Is(e, target)`. -/
def wraps {ε : Type} [DecidableEq ε] : GoError ε → GoError ε → Bool
  | GoError.wrapped base detail, target =>
    decide (GoError.wrapped base detail = target) || wraps base target
  | e, target => decide (e = target)

/-- The function `run`.  The part that follows the validation of the
arguments (the worker goroutines that open and parse the files and the final
`select` loop that writes the result of the operation selected by `op`) is the
parameter `pipeline`; it is entered only with a valid `op`. -/
def run {ε : Type} (errs : Sentinels ε)
    (pipeline : List String → String → Int → Effects → Option (GoError ε) × Effects)
    (filenames : List String) (op : String) (column : Int) (w : Effects) :
    Option (GoError ε) × Effects :=
  if filenames.length = 0 then
    (some errs.ErrNoFiles, w)
  else if column < 1 then
    (some (GoError.wrapped errs.ErrInvalidColumn (toString column)), w)
  else if op = "sum" ∨ op = "avg" ∨ op = "min" ∨ op = "max" then
    pipeline filenames op column w
  else
    (some (GoError.wrapped errs.ErrInvalidOperation op), w)

end ColStats

/-! ## Port scanner (`pScan/cmd/scan.go`, `pScan/scan/scanHosts.go`): report of the results -/

namespace PScan

structure PortState where
  Port : Int
  Open : Bool
deriving DecidableEq, Repr

structure Results where
  Host : String
  NotFound : Bool
  PortStates : List PortState
deriving DecidableEq, Repr

/-- The method `String` of the type `state`. -/
def stateString (s : Bool) : String :=
  if s then "open" else "closed"

/-- The inner loop of `printResults` over the port states of one host:
`message` is the text accumulated so far. -/
def portLoop : List PortState → String → String
  | [], message => message
  | p :: rest, message =>
    portLoop rest (message ++ ("\t" ++ toString p.Port ++ ": " ++ stateString p.Open ++ "\n"))

/-- The outer loop of `printResults` over the results. -/
def resultsLoop : List Results → String → String
  | [], message => message
  | r :: rest, message =>
    if r.NotFound then
      resultsLoop rest (message ++ (r.Host ++ ": ") ++ "Host not found\n\n")
    else
      resultsLoop rest (portLoop r.PortStates (message ++ (r.Host ++ ": ") ++ "\n") ++ "\n")

/-- The function `printResults`: the writer `out` is embedded by its `Write`
method, `write`, applied once to the whole message. -/
def printResults {ω E : Type} (write : String → ω → Option E × ω) (out : ω)
    (results : List Results) : Option E × ω :=
  write (resultsLoop results "") out

/-- Concatenation of a list of texts, in order. -/
def concatAll (parts : List String) : String :=
  parts.foldr (fun part acc => part ++ acc) ""

/-- The line of one port state, as the report is described: a tab, the port,
a colon and a blank, `open` or `closed`, a newline. -/
def portLine (p : PortState) : String :=
  "\t" ++ toString p.Port ++ ": " ++ (if p.Open = true then "open" else "closed") ++ "\n"

/-- The text of one result, as the report is described: the host name and
`": "`, then either `Host not found` and an empty line, or a newline, the
lines of the port states in order and an empty line. -/
def resultBlock (r : Results) : String :=
  r.Host ++ ": " ++
    (if r.NotFound = true then "Host not found" ++ "\n" ++ "\n"
     else "\n" ++ concatAll (r.PortStates.map portLine) ++ "\n")

/-- The whole report, as it is described: the texts of the results in list
order and nothing else. -/
def describedReport (results : List Results) : String :=
  concatAll (results.map resultBlock)

end PScan

namespace Pomodoro

/-! ## The repository writes of the engine, one call each

Between the reads a task makes and the write that follows, other tasks may
write.  The history under every interleaving of serialised repository calls is
therefore a sequence of single writes, each made with values read earlier. -/

/-- The part of a step of the tick loop that follows its re-fetch; `fetched`
is the result of that `ByID`.  The timer branch is `timerCommit`. -/
def stepCommit {σ : Type} (r : Repository σ) (ev : TickEvent)
    (fetched : Interval × Option Error) (w1 : World σ) : Option (Option Error) × World σ :=
  match ev with
  | TickEvent.timer => timerCommit r fetched w1
  | TickEvent.expire =>
    if fetched.2 ≠ none then (some fetched.2, w1)
    else
      let i := { fetched.1 with State := StateDone }
      let w2 := emit (Event.onEnd i) w1
      let res2 := callUpdate r i w2
      (some res2.1, res2.2)
  | TickEvent.cancel =>
    if fetched.2 ≠ none then (some fetched.2, w1)
    else
      let i := { fetched.1 with State := StateCancelled }
      let res2 := callUpdate r i w1
      (some res2.1, res2.2)

/-- The writes the engine makes to the repository: the `Create` of
`newInterval`, for the category `nextCategory` returned; the `Update` of
`Start` and of `Pause` on a receiver; the `Update` of the step of a tick loop
that services `ev`, for the record `fetched` that the step re-fetched.  The
category, the receiver and the fetched record are values obtained earlier, so
they are arbitrary here. -/
inductive Write where
  | create (category : String)
  | start (i : Interval) (now : Int)
  | pause (i : Interval)
  | commit (ev : TickEvent) (fetched : Interval)
deriving DecidableEq, Repr

/-- The history after one write of the engine. -/
def applyWrite (config : IntervalConfig Store) (wr : Write) (s : Store) : Store :=
  match wr with
  | Write.create category => (callCreate config.repo (draft config category) ⟨s, []⟩).2.store
  | Write.start i now => (i.Start now config [] ⟨s, []⟩).2.store
  | Write.pause i => (i.Pause config ⟨s, []⟩).2.store
  | Write.commit ev fetched => (stepCommit config.repo ev (fetched, none) ⟨s, []⟩).2.store

/-- How one write may change a persisted record `x` of the history `s` into
the record `y` found at the same position afterwards. -/
def writeEffect (wr : Write) (s : Store) (x y : Interval) : Prop :=
  match wr with
  | Write.create _ => y = x
  | Write.start i now =>
    y = x ∨ (lookup i.ID s = some x ∧ (i.State = StateNotStarted ∨ i.State = StatePaused) ∧
      y = { x with StartTime := if i.State = StateNotStarted then now else i.StartTime,
                   ActualDuration := i.ActualDuration, State := StateRunning })
  | Write.pause i =>
    y = x ∨ (lookup i.ID s = some x ∧ i.State = StateRunning ∧
      y = { x with StartTime := i.StartTime, ActualDuration := i.ActualDuration,
                   State := StatePaused })
  | Write.commit TickEvent.timer f =>
    y = x ∨ (lookup f.ID s = some x ∧ f.State ≠ StatePaused ∧
      y = { x with StartTime := f.StartTime,
                   ActualDuration := wrapInt64 (f.ActualDuration + Second),
                   State := f.State })
  | Write.commit TickEvent.expire f =>
    y = x ∨ (lookup f.ID s = some x ∧
      y = { x with StartTime := f.StartTime, ActualDuration := f.ActualDuration,
                   State := StateDone })
  | Write.commit TickEvent.cancel f =>
    y = x ∨ (lookup f.ID s = some x ∧
      y = { x with StartTime := f.StartTime, ActualDuration := f.ActualDuration,
                   State := StateCancelled })

/-- The `State` on which a write is based is still the persisted one: when a
`Start` or a `Pause` reaches its `Update` (receiver `NotStarted` or `Paused`,
respectively `Running`) and when a timer step reaches its `Update` (re-fetched
record not `Paused`), the receiver, respectively the re-fetched record, agrees
in `State` with the record stored under its identifier at the time of the
write.  No condition on a `Create` nor on a deadline or cancellation step. -/
def stateCurrent (wr : Write) (s : Store) : Prop :=
  match wr with
  | Write.start i _ =>
    ∀ x, lookup i.ID s = some x → (i.State = StateNotStarted ∨ i.State = StatePaused) →
      x.State = i.State
  | Write.pause i => ∀ x, lookup i.ID s = some x → i.State = StateRunning → x.State = i.State
  | Write.commit TickEvent.timer f =>
    ∀ x, lookup f.ID s = some x → f.State ≠ StatePaused → x.State = f.State
  | _ => True

/-- A `Create` is made while the history is still as `GetInterval` read it:
empty, or with a terminal most recent record.  No condition on the other
writes. -/
def creationDue (wr : Write) (s : Store) : Prop :=
  match wr with
  | Write.create _ => lastActive s = false
  | _ => True

/-- The write is the `Update` of a deadline or cancellation step. -/
def isFinalCommit (wr : Write) : Bool :=
  match wr with
  | Write.commit TickEvent.expire _ => true
  | Write.commit TickEvent.cancel _ => true
  | _ => false

/-- The `ActualDuration` on which a write is based is not behind the
persisted one: when a `Start`, a `Pause` or a step of a tick loop reaches its
`Update`, the receiver, respectively the re-fetched record, carries at least
the `ActualDuration` stored under its identifier at the time of the write; and
the increment of a timer step stays within the `int64` range.  No condition on
a `Create`. -/
def progressCurrent (wr : Write) (s : Store) : Prop :=
  match wr with
  | Write.create _ => True
  | Write.start i _ =>
    ∀ x, lookup i.ID s = some x → (i.State = StateNotStarted ∨ i.State = StatePaused) →
      x.ActualDuration ≤ i.ActualDuration
  | Write.pause i =>
    ∀ x, lookup i.ID s = some x → i.State = StateRunning →
      x.ActualDuration ≤ i.ActualDuration
  | Write.commit TickEvent.timer f =>
    ∀ x, lookup f.ID s = some x → f.State ≠ StatePaused →
      x.ActualDuration ≤ f.ActualDuration ∧ -(2 ^ 63) ≤ f.ActualDuration ∧
        f.ActualDuration + Second < 2 ^ 63
  | Write.commit _ f => ∀ x, lookup f.ID s = some x → x.ActualDuration ≤ f.ActualDuration

/-- Histories reachable from the empty store by writes of the engine, in any
order and number, each made while the `State` it is based on is still the
persisted one and, for a `Create`, while the history is still as `GetInterval`
read it. -/
inductive ReachableCurrent (config : IntervalConfig Store) : Store → Prop where
  | init : ReachableCurrent config []
  | step (wr : Write) (s : Store) :
      ReachableCurrent config s → stateCurrent wr s → creationDue wr s →
      ReachableCurrent config (applyWrite config wr s)

/-! ## Category selector: properties -/

theorem foundLongBreak_iff (l : List Interval) :
    foundLongBreak l = true ↔ ∃ b ∈ l, b.Category = CategoryLongBreak := by
  induction l with
  | nil => simp [foundLongBreak]
  | cons x rest ih =>
    by_cases hx : x.Category = CategoryLongBreak
    · simp [foundLongBreak, hx]
    · simp [foundLongBreak, hx, ih]

/-- C1: when `Last` succeeds with an interval whose category is `ShortBreak`
or `LongBreak`, `nextCategory` returns `Pomodoro` with a nil error, and the
only repository call it makes is that `Last`: `Breaks` is not consulted, and
the store is the one `Last` left. -/
theorem nextCategory_after_break {σ : Type} (r : Repository σ) (w : World σ)
    (hok : (r.Last w.store).1.2 = none)
    (hcat : (r.Last w.store).1.1.Category = CategoryShortBreak ∨
      (r.Last w.store).1.1.Category = CategoryLongBreak) :
    (nextCategory r w).1 = (CategoryPomodoro, none) ∧
      (nextCategory r w).2.trace = w.trace ++ [Event.last] ∧
      (nextCategory r w).2.store = (r.Last w.store).2 := by
  have hcat2 : (r.Last w.store).1.1.Category = CategoryLongBreak ∨
      (r.Last w.store).1.1.Category = CategoryShortBreak := hcat.symm
  simp [nextCategory, callLast, hok, hcat2]

theorem nextCategory_after_break_witness :
    (memRepo.Last [⟨1, 0, 300, 0, "ShortBreak", 3⟩]).1.2 = none ∧
      (nextCategory memRepo ⟨[⟨1, 0, 300, 0, "ShortBreak", 3⟩], []⟩).1
        = (CategoryPomodoro, none) :=
  ⟨by decide,
   (nextCategory_after_break memRepo ⟨[⟨1, 0, 300, 0, "ShortBreak", 3⟩], []⟩
      (by decide) (by decide)).1⟩

/-- C2: when `Last` succeeds with an interval that is not a break and the
following `Breaks(3)` succeeds, `nextCategory` returns a nil error, and its
category is `LongBreak` exactly when `Breaks(3)` returned at least three
intervals none of which has category `LongBreak`; in every other case the
category is `ShortBreak`. -/
theorem nextCategory_after_work {σ : Type} (r : Repository σ) (w : World σ)
    (hok : (r.Last w.store).1.2 = none)
    (hshort : (r.Last w.store).1.1.Category ≠ CategoryShortBreak)
    (hlong : (r.Last w.store).1.1.Category ≠ CategoryLongBreak)
    (hbr : (r.Breaks 3 (r.Last w.store).2).1.2 = none) :
    (nextCategory r w).1.2 = none ∧
      ((nextCategory r w).1.1 = CategoryLongBreak ↔
        (3 ≤ (r.Breaks 3 (r.Last w.store).2).1.1.length ∧
          ∀ b ∈ (r.Breaks 3 (r.Last w.store).2).1.1, b.Category ≠ CategoryLongBreak)) ∧
      (¬ (3 ≤ (r.Breaks 3 (r.Last w.store).2).1.1.length ∧
          ∀ b ∈ (r.Breaks 3 (r.Last w.store).2).1.1, b.Category ≠ CategoryLongBreak) →
        (nextCategory r w).1.1 = CategoryShortBreak) := by
  have hne : CategoryShortBreak ≠ CategoryLongBreak := by decide
  by_cases hlen : (r.Breaks 3 (r.Last w.store).2).1.1.length < 3
  · have h3 : ¬ 3 ≤ (r.Breaks 3 (r.Last w.store).2).1.1.length := by omega
    simp [nextCategory, callLast, callBreaks, hok, hshort, hlong, hbr, hlen, h3, hne]
  · have h3 : 3 ≤ (r.Breaks 3 (r.Last w.store).2).1.1.length := by omega
    by_cases hf : foundLongBreak (r.Breaks 3 (r.Last w.store).2).1.1 = true
    · have hex := (foundLongBreak_iff _).1 hf
      have hnot : ¬ (3 ≤ (r.Breaks 3 (r.Last w.store).2).1.1.length ∧
          ∀ b ∈ (r.Breaks 3 (r.Last w.store).2).1.1,
            b.Category ≠ CategoryLongBreak) := by
        rintro ⟨_, hall⟩
        obtain ⟨b, hb, hc⟩ := hex
        exact hall b hb hc
      have hval : (nextCategory r w).1 = (CategoryShortBreak, none) := by
        simp [nextCategory, callLast, callBreaks, hok, hshort, hlong, hbr, hlen, hf]
      rw [hval]
      exact ⟨rfl, ⟨fun h => absurd h hne, fun h => absurd h hnot⟩, fun _ => rfl⟩
    · have hall : ∀ b ∈ (r.Breaks 3 (r.Last w.store).2).1.1,
          b.Category ≠ CategoryLongBreak := by
        intro b hb hc
        exact hf ((foundLongBreak_iff _).2 ⟨b, hb, hc⟩)
      simp only [Bool.not_eq_true] at hf
      have hval : (nextCategory r w).1 = (CategoryLongBreak, none) := by
        simp [nextCategory, callLast, callBreaks, hok, hshort, hlong, hbr, hlen, hf]
      rw [hval]
      exact ⟨rfl, ⟨fun _ => ⟨h3, hall⟩, fun _ => rfl⟩, fun h => absurd ⟨h3, hall⟩ h⟩

theorem nextCategory_after_work_witness :
    (memRepo.Last (created (memConfig 1500 300 900) 7)).1.2 = none ∧
      (nextCategory memRepo ⟨created (memConfig 1500 300 900) 7, []⟩).1.2 = none ∧
      ((nextCategory memRepo ⟨created (memConfig 1500 300 900) 7, []⟩).1.1 = CategoryLongBreak ↔
        (3 ≤ (memRepo.Breaks 3
            (memRepo.Last (created (memConfig 1500 300 900) 7)).2).1.1.length ∧
          ∀ b ∈ (memRepo.Breaks 3 (memRepo.Last (created (memConfig 1500 300 900) 7)).2).1.1,
            b.Category ≠ CategoryLongBreak)) :=
  ⟨by decide,
   (nextCategory_after_work memRepo ⟨created (memConfig 1500 300 900) 7, []⟩
      (by decide) (by decide) (by decide) (by decide)).1,
   (nextCategory_after_work memRepo ⟨created (memConfig 1500 300 900) 7, []⟩
      (by decide) (by decide) (by decide) (by decide)).2.1⟩

/-! ## Interval factory: properties -/

theorem nextCategory_trace {σ : Type} (r : Repository σ) (w : World σ) :
    (nextCategory r w).2.trace = w.trace ++ [Event.last] ∨
      (nextCategory r w).2.trace = w.trace ++ [Event.last, Event.breaks 3] := by
  unfold nextCategory
  simp only [callLast, callBreaks]
  split_ifs <;> simp

theorem nextCategory_no_create {σ : Type} (r : Repository σ) (w : World σ) :
    createCalled (nextCategory r w).2.trace = createCalled w.trace := by
  rcases nextCategory_trace r w with h | h <;> rw [h] <;> simp [createCalled]

theorem newInterval_createCalled {σ : Type} (config : IntervalConfig σ) (w : World σ) :
    createCalled (newInterval config w).2.trace =
      (createCalled w.trace || decide ((nextCategory config.repo w).1.2 = none)) := by
  unfold newInterval
  by_cases h : (nextCategory config.repo w).1.2 = none
  · rw [if_neg (by simp [h])]
    simp only []
    split_ifs <;> simp [callCreate, createCalled, h]
  · simp [h, nextCategory_no_create]

/-- C4: when the `Last` of `GetInterval` and the `Last` of the `nextCategory`
it runs both fail with `ErrNoIntervals` and the following `Create` succeeds,
`GetInterval` returns a nil error and an interval with category `Pomodoro`,
`ActualDuration` 0, state `NotStarted`, `PlannedDuration` the Pomodoro
duration of the config and `ID` the identifier returned by `Create`. -/
theorem GetInterval_empty {σ : Type} (config : IntervalConfig σ) (w : World σ)
    (h1 : (config.repo.Last w.store).1.2 = some Error.ErrNoIntervals)
    (h2 : (config.repo.Last (config.repo.Last w.store).2).1.2 = some Error.ErrNoIntervals)
    (h3 : (config.repo.Create (draft config CategoryPomodoro)
      (config.repo.Last (config.repo.Last w.store).2).2).1.2 = none) :
    (GetInterval config w).1.2 = none ∧
      (GetInterval config w).1.1.Category = CategoryPomodoro ∧
      (GetInterval config w).1.1.ActualDuration = 0 ∧
      (GetInterval config w).1.1.State = StateNotStarted ∧
      (GetInterval config w).1.1.PlannedDuration = config.PomodoroDuration ∧
      (GetInterval config w).1.1.ID = (config.repo.Create (draft config CategoryPomodoro)
        (config.repo.Last (config.repo.Last w.store).2).2).1.1 ∧
      (nextCategory config.repo (callLast config.repo w).2).1 = (CategoryPomodoro, none) := by
  have hcat : (nextCategory config.repo (callLast config.repo w).2).1
      = (CategoryPomodoro, none) := by
    simp [nextCategory, callLast, h2]
  have hst : (nextCategory config.repo (callLast config.repo w).2).2.store
      = (config.repo.Last (config.repo.Last w.store).2).2 := by
    simp [nextCategory, callLast, h2]
  have hnew : newInterval config (callLast config.repo w).2
      = (({ draft config CategoryPomodoro with
            ID := (config.repo.Create (draft config CategoryPomodoro)
              (config.repo.Last (config.repo.Last w.store).2).2).1.1 }, none),
          (callCreate config.repo (draft config CategoryPomodoro)
            (nextCategory config.repo (callLast config.repo w).2).2).2) := by
    unfold newInterval
    simp only [hcat]
    simp [callCreate, hst, h3]
  have hget : GetInterval config w = newInterval config (callLast config.repo w).2 := by
    unfold GetInterval
    simp [callLast, h1]
  rw [hget, hnew]
  refine ⟨rfl, rfl, rfl, rfl, ?_, rfl, hcat⟩
  simp [draft, plannedFor]

theorem GetInterval_empty_witness :
    (memRepo.Last ([] : Store)).1.2 = some Error.ErrNoIntervals ∧
      (GetInterval (memConfig 1500 300 900) ⟨[], []⟩).1.2 = none ∧
      (GetInterval (memConfig 1500 300 900) ⟨[], []⟩).1.1.Category = CategoryPomodoro :=
  ⟨by decide,
   (GetInterval_empty (memConfig 1500 300 900) ⟨[], []⟩
      (by decide) (by decide) (by decide)).1,
   (GetInterval_empty (memConfig 1500 300 900) ⟨[], []⟩
      (by decide) (by decide) (by decide)).2.1⟩

theorem GetInterval_trace_active {σ : Type} (config : IntervalConfig σ) (w : World σ)
    (hok : (config.repo.Last w.store).1.2 = none)
    (hdone : (config.repo.Last w.store).1.1.State ≠ StateDone)
    (hcanc : (config.repo.Last w.store).1.1.State ≠ StateCancelled) :
    GetInterval config w =
      (((config.repo.Last w.store).1.1, none),
        ⟨(config.repo.Last w.store).2, w.trace ++ [Event.last]⟩) := by
  unfold GetInterval
  simp [callLast, hok, hdone, hcanc]

theorem GetInterval_new {σ : Type} (config : IntervalConfig σ) (w : World σ)
    (h : (config.repo.Last w.store).1.2 = some Error.ErrNoIntervals ∨
      ((config.repo.Last w.store).1.2 = none ∧
        ((config.repo.Last w.store).1.1.State = StateDone ∨
          (config.repo.Last w.store).1.1.State = StateCancelled))) :
    GetInterval config w = newInterval config (callLast config.repo w).2 := by
  unfold GetInterval
  rcases h with h | ⟨h, hs | hs⟩
  · simp [callLast, h]
  · simp [callLast, h, hs]
  · simp [callLast, h, hs]

theorem GetInterval_error {σ : Type} (config : IntervalConfig σ) (w : World σ)
    (h1 : (config.repo.Last w.store).1.2 ≠ none)
    (h2 : (config.repo.Last w.store).1.2 ≠ some Error.ErrNoIntervals) :
    GetInterval config w =
      (((config.repo.Last w.store).1.1, (config.repo.Last w.store).1.2),
        ⟨(config.repo.Last w.store).2, w.trace ++ [Event.last]⟩) := by
  unfold GetInterval
  simp [callLast, h1, h2]

/-- C5 (as stated, refuted): over a repository whose `Last` returns a `Done`
work interval and whose `Breaks` fails, `GetInterval` does not call `Create`
although `Last` returned an interval in a terminal state. -/
theorem GetInterval_create_iff_last_refuted :
    ¬ (createCalled
          (GetInterval ⟨brokenBreaksRepo, 1500, 300, 900⟩
            ⟨[⟨1, 0, 1500, 1500, "Pomodoro", 3⟩], []⟩).2.trace = true ↔
        ((brokenBreaksRepo.Last [⟨1, 0, 1500, 1500, "Pomodoro", 3⟩]).1.2
            = some Error.ErrNoIntervals ∨
          ((brokenBreaksRepo.Last [⟨1, 0, 1500, 1500, "Pomodoro", 3⟩]).1.2 = none ∧
            ((brokenBreaksRepo.Last [⟨1, 0, 1500, 1500, "Pomodoro", 3⟩]).1.1.State = StateDone ∨
              (brokenBreaksRepo.Last [⟨1, 0, 1500, 1500, "Pomodoro", 3⟩]).1.1.State
                = StateCancelled)))) := by
  decide

/-- C5 (amended): started on an empty trace, `GetInterval` calls `Create`
exactly when `Last` fails with `ErrNoIntervals` or returns an interval whose
state is `Done` or `Cancelled`, and the `nextCategory` run that follows
succeeds; when `Last` returns an interval in any other state, `GetInterval`
returns that interval unchanged with a nil error, its only repository call is
that `Last`, and the store is the one `Last` left (no repository write). -/
theorem GetInterval_create_iff {σ : Type} (config : IntervalConfig σ) (s : σ) :
    (createCalled (GetInterval config ⟨s, []⟩).2.trace = true ↔
        (((config.repo.Last s).1.2 = some Error.ErrNoIntervals ∨
            ((config.repo.Last s).1.2 = none ∧
              ((config.repo.Last s).1.1.State = StateDone ∨
                (config.repo.Last s).1.1.State = StateCancelled))) ∧
          (nextCategory config.repo ⟨(config.repo.Last s).2, [Event.last]⟩).1.2 = none)) ∧
      (((config.repo.Last s).1.2 = none ∧ (config.repo.Last s).1.1.State ≠ StateDone ∧
          (config.repo.Last s).1.1.State ≠ StateCancelled) →
        (GetInterval config ⟨s, []⟩ =
            (((config.repo.Last s).1.1, none), ⟨(config.repo.Last s).2, [Event.last]⟩) ∧
          writeCalled (GetInterval config ⟨s, []⟩).2.trace = false)) := by
  constructor
  · by_cases hnew : (config.repo.Last s).1.2 = some Error.ErrNoIntervals ∨
        ((config.repo.Last s).1.2 = none ∧
          ((config.repo.Last s).1.1.State = StateDone ∨
            (config.repo.Last s).1.1.State = StateCancelled))
    · rw [GetInterval_new config ⟨s, []⟩ hnew, newInterval_createCalled]
      simp [callLast, createCalled, hnew]
    · have hfalse : createCalled (GetInterval config ⟨s, []⟩).2.trace = false := by
        by_cases hok : (config.repo.Last s).1.2 = none
        · have hst : (config.repo.Last s).1.1.State ≠ StateDone ∧
              (config.repo.Last s).1.1.State ≠ StateCancelled := by
            constructor
            · intro h; exact hnew (Or.inr ⟨hok, Or.inl h⟩)
            · intro h; exact hnew (Or.inr ⟨hok, Or.inr h⟩)
          rw [GetInterval_trace_active config ⟨s, []⟩ hok hst.1 hst.2]
          simp [createCalled]
        · have hne : (config.repo.Last s).1.2 ≠ some Error.ErrNoIntervals :=
            fun h => hnew (Or.inl h)
          rw [GetInterval_error config ⟨s, []⟩ hok hne]
          simp [createCalled]
      rw [hfalse]
      simp [hnew]
  · rintro ⟨hok, hdone, hcanc⟩
    rw [GetInterval_trace_active config ⟨s, []⟩ hok hdone hcanc]
    simp [writeCalled]

/-! ## The long-break cycle: properties -/

theorem memRepo_Create (i : Interval) (s : Store) :
    memRepo.Create i s = ((freshID s, none), s ++ [{ i with ID := freshID s }]) := rfl

theorem memRepo_Last (s : Store) :
    memRepo.Last s =
      match s.getLast? with
      | some x => ((x, none), s)
      | none => ((Interval.zero, some Error.ErrNoIntervals), s) := rfl

theorem memRepo_ByID (id : Int) (s : Store) :
    memRepo.ByID id s =
      match lookup id s with
      | some x => ((x, none), s)
      | none => ((Interval.zero, some Error.ErrInvalidID), s) := rfl

theorem memRepo_Update (i : Interval) (s : Store) :
    memRepo.Update i s =
      match overwrite i s with
      | some s2 => (none, s2)
      | none => (some Error.ErrInvalidID, s) := rfl

theorem memRepo_Breaks (n : Int) (s : Store) :
    memRepo.Breaks n s = ((recentBreaks n s, none), s) := rfl

theorem memConfig_repo (p sb lb : Int) : (memConfig p sb lb).repo = memRepo := rfl

theorem foundLongBreak_eq_mem (l : List Interval) :
    foundLongBreak l = decide (CategoryLongBreak ∈ l.map (fun x => x.Category)) := by
  induction l with
  | nil => simp [foundLongBreak]
  | cons x rest ih =>
    by_cases hx : x.Category = CategoryLongBreak
    · simp [foundLongBreak, hx]
    · have hx2 : ¬ CategoryLongBreak = x.Category := fun h => hx h.symm
      simp [foundLongBreak, hx, hx2, ih]

theorem nextCategory_mem (s : Store) (t : List Event) :
    (nextCategory memRepo ⟨s, t⟩).1 = (decideNext (summary s), none) ∧
      (nextCategory memRepo ⟨s, t⟩).2.store = s := by
  cases hl : s.getLast? with
  | none => simp [nextCategory, callLast, memRepo, hl, decideNext, summary]
  | some x =>
    by_cases hb : x.Category = CategoryLongBreak ∨ x.Category = CategoryShortBreak
    · simp [nextCategory, callLast, memRepo, hl, decideNext, summary, hb]
    · by_cases hlen : (recentBreaks 3 s).length < 3
      · simp [nextCategory, callLast, callBreaks, memRepo, hl, decideNext, summary, hb, hlen]
      · by_cases hf : CategoryLongBreak ∈ (recentBreaks 3 s).map (fun x => x.Category)
        · have hf2 : foundLongBreak (recentBreaks 3 s) = true := by
            rw [foundLongBreak_eq_mem]; exact decide_eq_true hf
          have hf3 : ∃ a ∈ recentBreaks 3 s, a.Category = CategoryLongBreak := by
            simpa using hf
          simp [nextCategory, callLast, callBreaks, memRepo, hl, decideNext, summary, hb, hlen,
            hf2, hf3]
        · have hf2 : foundLongBreak (recentBreaks 3 s) = false := by
            rw [foundLongBreak_eq_mem]; exact decide_eq_false hf
          have hf3 : ¬ ∃ a ∈ recentBreaks 3 s, a.Category = CategoryLongBreak := by
            simpa using hf
          simp [nextCategory, callLast, callBreaks, memRepo, hl, decideNext, summary, hb, hlen,
            hf2, hf3]

theorem newInterval_mem (p sb lb : Int) (s : Store) (t : List Event) :
    (newInterval (memConfig p sb lb) ⟨s, t⟩).1 =
        ({ draft (memConfig p sb lb) (decideNext (summary s)) with ID := freshID s }, none) ∧
      (newInterval (memConfig p sb lb) ⟨s, t⟩).2.store =
        s ++ [{ draft (memConfig p sb lb) (decideNext (summary s)) with ID := freshID s }] := by
  have h := nextCategory_mem s t
  have hr : (memConfig p sb lb).repo = memRepo := rfl
  unfold newInterval
  rw [hr]
  simp only [h.1]
  simp [callCreate, h.2, memRepo_Create]

theorem summary_append (s : Store) (x : Interval) :
    summary (s ++ [x]) = extendSummary (summary s) x.Category := by
  by_cases hb : isBreak x.Category = true
  · simp [summary, extendSummary, recentBreaks, hb, List.filter_cons, List.take_take,
      List.map_take]
  · simp [summary, extendSummary, recentBreaks, hb, List.filter_cons]

theorem created_succ (p sb lb : Int) (k : Nat) :
    created (memConfig p sb lb) (k + 1) =
      created (memConfig p sb lb) k ++
        [{ draft (memConfig p sb lb) (decideNext (summary (created (memConfig p sb lb) k)))
            with ID := freshID (created (memConfig p sb lb) k) }] := by
  show (newInterval (memConfig p sb lb) ⟨created (memConfig p sb lb) k, []⟩).2.store = _
  exact (newInterval_mem p sb lb _ []).2

theorem summary_created (p sb lb : Int) (k : Nat) :
    summary (created (memConfig p sb lb) k) = cycleStep^[k] (none, []) := by
  induction k with
  | zero => rfl
  | succ k ih =>
    rw [created_succ, summary_append, Function.iterate_succ_apply', ← ih]
    rfl

theorem cycleStep_period (k : Nat) :
    cycleStep^[k + 16] (none, []) = cycleStep^[k + 8] (none, []) := by
  rw [Function.iterate_add_apply, Function.iterate_add_apply cycleStep k 8]
  congr 1

theorem expectedCategory_period (k : Nat) :
    expectedCategory (k + 8) = expectedCategory k := by
  unfold expectedCategory
  have h2 : (k + 8) % 2 = k % 2 := by omega
  have h8 : (k + 8) % 8 = k % 8 := by omega
  rw [h2, h8]

theorem decideNext_cycle (k : Nat) :
    decideNext (cycleStep^[k] (none, [])) = expectedCategory (k + 1) := by
  induction k using Nat.strong_induction_on with
  | _ k ih =>
    by_cases hk : k < 16
    · interval_cases k <;> decide
    · have hk2 : k = (k - 16) + 16 := by omega
      have hk3 : k - 8 = (k - 16) + 8 := by omega
      have hk4 : k + 1 = (k - 8 + 1) + 8 := by omega
      rw [hk2, cycleStep_period, ← hk3, ih (k - 8) (by omega), ← hk2, hk4,
        expectedCategory_period]

theorem created_map_category (p sb lb : Int) (k : Nat) :
    (created (memConfig p sb lb) k).map (fun x => x.Category) =
      (List.range k).map (fun j => expectedCategory (j + 1)) := by
  induction k with
  | zero => rfl
  | succ k ih =>
    rw [created_succ, List.map_append, ih, List.range_succ, List.map_append,
      summary_created, decideNext_cycle]
    rfl

/-- C3: starting from the empty history and creating intervals one after the
other with `newInterval` (whose category is `nextCategory` of the history at
that point), every creation appends one record to the history; the `k`-th
record created has category `Pomodoro` when `k` is odd, `LongBreak` when `k`
is a multiple of 8 and `ShortBreak` otherwise, for every `k` and whatever the
configured durations.  In particular the sixth is a short break and the
eighth a long break. -/
theorem long_break_cycle (p sb lb : Int) (k : Nat) :
    (∃ x : Interval,
        created (memConfig p sb lb) (k + 1) = created (memConfig p sb lb) k ++ [x] ∧
        x.Category = (nextCategory memRepo ⟨created (memConfig p sb lb) k, []⟩).1.1 ∧
        x.Category = expectedCategory (k + 1)) ∧
      (created (memConfig p sb lb) k).map (fun x => x.Category) =
        (List.range k).map (fun j => expectedCategory (j + 1)) ∧
      (∀ j : Nat, j % 2 = 0 → expectedCategory (j + 1) = CategoryPomodoro) ∧
      (∀ j : Nat, (j + 1) % 8 = 0 → expectedCategory (j + 1) = CategoryLongBreak) ∧
      (∀ j : Nat, j % 2 = 1 → (j + 1) % 8 ≠ 0 →
        expectedCategory (j + 1) = CategoryShortBreak) ∧
      (nextCategory memRepo ⟨created (memConfig p sb lb) 5, []⟩).1
        = (CategoryShortBreak, none) ∧
      (nextCategory memRepo ⟨created (memConfig p sb lb) 7, []⟩).1
        = (CategoryLongBreak, none) := by
  refine ⟨⟨_, created_succ p sb lb k, ?_, ?_⟩, created_map_category p sb lb k, ?_, ?_, ?_,
    ?_, ?_⟩
  · rw [(nextCategory_mem _ []).1]
    rfl
  · show decideNext _ = _
    rw [summary_created, decideNext_cycle]
  · intro j hj
    have h : (j + 1) % 2 = 1 := by omega
    simp [expectedCategory, h]
  · intro j hj
    have h : (j + 1) % 2 ≠ 1 := by omega
    simp [expectedCategory, h, hj]
  · intro j hj h8
    have h : (j + 1) % 2 ≠ 1 := by omega
    simp [expectedCategory, h, h8]
  · rw [(nextCategory_mem _ []).1, summary_created, decideNext_cycle]
    rfl
  · rw [(nextCategory_mem _ []).1, summary_created, decideNext_cycle]
    rfl

/-! ## Idempotence of `GetInterval` -/

theorem GetInterval_mem_active (p sb lb : Int) (s : Store) (t : List Event) (l : Interval)
    (hl : s.getLast? = some l) (ha : isActive l = true) :
    GetInterval (memConfig p sb lb) ⟨s, t⟩ = ((l, none), ⟨s, t ++ [Event.last]⟩) := by
  have hd : l.State ≠ StateDone := by
    intro h; simp [isActive, h] at ha
  have hc : l.State ≠ StateCancelled := by
    intro h; simp [isActive, h] at ha
  have h := GetInterval_trace_active (memConfig p sb lb) ⟨s, t⟩
    (by simp [memConfig_repo, memRepo_Last, hl])
    (by simpa [memConfig_repo, memRepo_Last, hl] using hd)
    (by simpa [memConfig_repo, memRepo_Last, hl] using hc)
  rw [h]
  simp [memConfig_repo, memRepo_Last, hl]

theorem GetInterval_mem_new (p sb lb : Int) (s : Store) (t : List Event)
    (h : lastActive s = false) :
    (GetInterval (memConfig p sb lb) ⟨s, t⟩).1 = (freshRecord (memConfig p sb lb) s, none) ∧
      (GetInterval (memConfig p sb lb) ⟨s, t⟩).2.store =
        s ++ [freshRecord (memConfig p sb lb) s] := by
  have hnew : GetInterval (memConfig p sb lb) ⟨s, t⟩ =
      newInterval (memConfig p sb lb) (callLast (memConfig p sb lb).repo ⟨s, t⟩).2 := by
    apply GetInterval_new
    cases hl : s.getLast? with
    | none => left; simp [memConfig_repo, memRepo_Last, hl]
    | some l =>
      right
      have ha : isActive l = false := by simpa [lastActive, hl] using h
      simp only [memConfig_repo, memRepo_Last, hl, true_and]
      by_cases hd : l.State = StateDone
      · exact Or.inl hd
      · right
        by_contra hc
        simp [isActive, hd, hc] at ha
  have hw : (callLast (memConfig p sb lb).repo ⟨s, t⟩).2 = ⟨s, t ++ [Event.last]⟩ := by
    cases hl : s.getLast? <;> simp [callLast, memConfig_repo, memRepo_Last, hl]
  rw [hnew, hw]
  exact newInterval_mem p sb lb s _

theorem freshRecord_active (config : IntervalConfig Store) (s : Store) :
    isActive (freshRecord config s) = true := by
  simp [freshRecord, draft, Interval.zero, isActive, StateDone, StateCancelled]

/-- C6: on the ordered store (where `Create` appends the record under a fresh
identifier and `Last` returns the most recent record), from every history two
consecutive `GetInterval` calls both succeed, the second returns the interval
the first returned (in particular the same `ID`), makes no `Create` call and
leaves the history as the first call left it. -/
theorem GetInterval_idempotent (p sb lb : Int) (s : Store) :
    (GetInterval (memConfig p sb lb) ⟨s, []⟩).1.2 = none ∧
      (GetInterval (memConfig p sb lb)
        ⟨(GetInterval (memConfig p sb lb) ⟨s, []⟩).2.store, []⟩).1.2 = none ∧
      (GetInterval (memConfig p sb lb)
        ⟨(GetInterval (memConfig p sb lb) ⟨s, []⟩).2.store, []⟩).1.1.ID =
          (GetInterval (memConfig p sb lb) ⟨s, []⟩).1.1.ID ∧
      (GetInterval (memConfig p sb lb)
        ⟨(GetInterval (memConfig p sb lb) ⟨s, []⟩).2.store, []⟩).1.1 =
          (GetInterval (memConfig p sb lb) ⟨s, []⟩).1.1 ∧
      createCalled (GetInterval (memConfig p sb lb)
        ⟨(GetInterval (memConfig p sb lb) ⟨s, []⟩).2.store, []⟩).2.trace = false ∧
      (GetInterval (memConfig p sb lb)
        ⟨(GetInterval (memConfig p sb lb) ⟨s, []⟩).2.store, []⟩).2.store =
          (GetInterval (memConfig p sb lb) ⟨s, []⟩).2.store := by
  by_cases ha : lastActive s = true
  · cases hl : s.getLast? with
    | none => simp [lastActive, hl] at ha
    | some l =>
      have hact : isActive l = true := by simpa [lastActive, hl] using ha
      have h1 := GetInterval_mem_active p sb lb s [] l hl hact
      rw [h1]
      simp only []
      rw [h1]
      simp [createCalled]
  · simp only [Bool.not_eq_true] at ha
    obtain ⟨h1, h2⟩ := GetInterval_mem_new p sb lb s [] ha
    have h3 := GetInterval_mem_active p sb lb (s ++ [freshRecord (memConfig p sb lb) s]) []
      (freshRecord (memConfig p sb lb) s) (by simp) (freshRecord_active _ _)
    rw [h2, h3, h1]
    simp [createCalled]

/-! ## Operations on the in-memory history -/

theorem overwrite_pointwise (i : Interval) (s : Store) (k : Nat) (x : Interval)
    (hx : s[k]? = some x) :
    ∃ y, (persist i s)[k]? = some y ∧
      (y = x ∨ (lookup i.ID s = some x ∧
        y = { x with StartTime := i.StartTime, ActualDuration := i.ActualDuration,
                     State := i.State })) := by
  induction s generalizing k with
  | nil => simp at hx
  | cons a rest ih =>
    by_cases ha : a.ID = i.ID
    · cases k with
      | zero =>
        simp only [List.getElem?_cons_zero, Option.some.injEq] at hx
        subst hx
        exact ⟨_, by simp [persist, overwrite, ha], Or.inr ⟨by simp [lookup, ha], rfl⟩⟩
      | succ k =>
        simp only [List.getElem?_cons_succ] at hx
        exact ⟨x, by simp [persist, overwrite, ha, hx], Or.inl rfl⟩
    · cases k with
      | zero =>
        simp only [List.getElem?_cons_zero, Option.some.injEq] at hx
        subst hx
        refine ⟨a, ?_, Or.inl rfl⟩
        cases ho : overwrite i rest <;> simp [persist, overwrite, ha, ho]
      | succ k =>
        simp only [List.getElem?_cons_succ] at hx
        obtain ⟨y, hy, hrel⟩ := ih k hx
        refine ⟨y, ?_, ?_⟩
        · cases ho : overwrite i rest with
          | none =>
            simp only [persist, ho, Option.getD_none] at hy
            simp [persist, overwrite, ha, ho, hy]
          | some r2 =>
            simp only [persist, ho, Option.getD_some] at hy
            simp [persist, overwrite, ha, ho, hy]
        · rcases hrel with h | ⟨h1, h2⟩
          · exact Or.inl h
          · exact Or.inr ⟨by simp [lookup, ha, h1], h2⟩

theorem persist_length (i : Interval) (s : Store) : (persist i s).length = s.length := by
  induction s with
  | nil => simp [persist, overwrite]
  | cons a rest ih =>
    by_cases ha : a.ID = i.ID
    · simp [persist, overwrite, ha]
    · cases ho : overwrite i rest with
      | none => simp [persist, overwrite, ha, ho]
      | some r2 =>
        simp only [persist, ho, Option.getD_some] at ih
        simp [persist, overwrite, ha, ho, ih]

theorem callUpdate_mem_store (i : Interval) (w : World Store) :
    (callUpdate memRepo i w).2.store = persist i w.store := by
  cases ho : overwrite i w.store <;> simp [callUpdate, memRepo_Update, persist, ho]

theorem callByID_mem (id : Int) (w : World Store) :
    (callByID memRepo id w).2.store = w.store ∧
      ((callByID memRepo id w).1.2 = none →
        lookup id w.store = some (callByID memRepo id w).1.1) := by
  cases ho : lookup id w.store <;> simp [callByID, memRepo_ByID, ho]

theorem tick_mem_store (p sb lb : Int) (id : Int) (w : World Store) :
    (tick id (memConfig p sb lb) [] w).2.store = w.store := by
  unfold tick
  simp only [memConfig_repo]
  split_ifs
  · exact (callByID_mem id _).1
  · simp only [tickLoop, emit]
    exact (callByID_mem id _).1

theorem lookup_id (id : Int) (s : Store) (x : Interval) (h : lookup id s = some x) :
    x.ID = id := by
  induction s with
  | nil => simp [lookup] at h
  | cons a rest ih =>
    by_cases ha : a.ID = id
    · simp only [lookup, ha, if_true, Option.some.injEq] at h
      rw [← h]; exact ha
    · simp only [lookup, ha, if_false] at h
      exact ih h

theorem applyOp_getInterval (p sb lb : Int) (s : Store) :
    applyOp (memConfig p sb lb) Op.getInterval s =
      if lastActive s = true then s else s ++ [freshRecord (memConfig p sb lb) s] := by
  show (GetInterval (memConfig p sb lb) ⟨s, []⟩).2.store = _
  by_cases ha : lastActive s = true
  · cases hl : s.getLast? with
    | none => simp [lastActive, hl] at ha
    | some l =>
      have hact : isActive l = true := by simpa [lastActive, hl] using ha
      rw [GetInterval_mem_active p sb lb s [] l hl hact]
      simp [ha]
  · simp only [Bool.not_eq_true] at ha
    rw [(GetInterval_mem_new p sb lb s [] ha).2]
    simp [ha]

theorem applyOp_start (p sb lb : Int) (i : Interval) (now : Int) (s : Store) :
    applyOp (memConfig p sb lb) (Op.start i now) s =
      if i.State = StateNotStarted ∨ i.State = StatePaused then
        persist { i with StartTime := if i.State = StateNotStarted then now else i.StartTime,
                         State := StateRunning } s
      else s := by
  show (i.Start now (memConfig p sb lb) [] ⟨s, []⟩).2.store = _
  unfold Interval.Start
  by_cases hr : i.State = StateRunning
  · have h1 : ¬ (StateRunning = StateNotStarted ∨ StateRunning = StatePaused) := by
      decide
    simp [hr, h1]
  · by_cases h1 : i.State = StateNotStarted ∨ i.State = StatePaused
    · simp only [hr, h1, if_true, if_false, memConfig_repo]
      by_cases h0 : i.State = StateNotStarted
      · simp only [h0, if_true]
        split_ifs
        · exact callUpdate_mem_store _ _
        · rw [tick_mem_store]; exact callUpdate_mem_store _ _
      · simp only [h0, if_false]
        split_ifs
        · exact callUpdate_mem_store _ _
        · rw [tick_mem_store]; exact callUpdate_mem_store _ _
    · simp only [hr, h1, if_false]
      split_ifs <;> rfl

theorem applyOp_pause (p sb lb : Int) (i : Interval) (s : Store) :
    applyOp (memConfig p sb lb) (Op.pause i) s =
      if i.State = StateRunning then persist { i with State := StatePaused } s else s := by
  show (i.Pause (memConfig p sb lb) ⟨s, []⟩).2.store = _
  unfold Interval.Pause
  by_cases hr : i.State = StateRunning
  · simp only [hr, ne_eq, not_true_eq_false, if_false, if_true, memConfig_repo]
    exact callUpdate_mem_store _ _
  · simp [hr]

theorem applyOp_tickStep (p sb lb : Int) (id : Int) (ev : TickEvent) (s : Store) :
    applyOp (memConfig p sb lb) (Op.tickStep id ev) s =
      match lookup id s with
      | none => s
      | some x =>
        match ev with
        | TickEvent.timer =>
          if x.State = StatePaused then s
          else persist { x with ActualDuration := wrapInt64 (x.ActualDuration + Second) } s
        | TickEvent.expire => persist { x with State := StateDone } s
        | TickEvent.cancel => persist { x with State := StateCancelled } s := by
  show (tickStep (memConfig p sb lb).repo id ev ⟨s, []⟩).2.store = _
  rw [memConfig_repo]
  unfold tickStep
  cases hl : lookup id s with
  | none =>
    cases ev <;> simp [callByID, memRepo_ByID, hl]
  | some x =>
    cases ev with
    | timer =>
      by_cases hp : x.State = StatePaused
      · simp [callByID, memRepo_ByID, hl, hp]
      · simp only [callByID, memRepo_ByID, hl, hp, if_false, ne_eq, not_true_eq_false]
        split_ifs
        · exact callUpdate_mem_store _ _
        · simp only [emit]
          exact callUpdate_mem_store _ _
    | expire =>
      simp only [callByID, memRepo_ByID, hl, ne_eq, not_true_eq_false, if_false]
      exact callUpdate_mem_store _ _
    | cancel =>
      simp only [callByID, memRepo_ByID, hl, ne_eq, not_true_eq_false, if_false]
      exact callUpdate_mem_store _ _

theorem wrapInt64_id (a : Int) (hlo : -(2 ^ 63) ≤ a) (hhi : a < 2 ^ 63) : wrapInt64 a = a := by
  unfold wrapInt64
  have h : (a + 2 ^ 63) % 2 ^ 64 = a + 2 ^ 63 :=
    Int.emod_eq_of_lt (by omega) (by omega)
  omega

/-! ## At most one active interval -/

theorem isActive_eq_not_terminal (x : Interval) : isActive x = !isTerminal x := by
  by_cases h1 : x.State = StateDone <;> by_cases h2 : x.State = StateCancelled <;>
    simp [isActive, isTerminal, h1, h2]

theorem lastActive_false_terminal (s : Store) (h : lastActive s = false) (k : Nat)
    (x : Interval) (hx : s[k]? = some x) (hk : k + 1 = s.length) : isTerminal x = true := by
  have hl : s.getLast? = some x := by
    rw [List.getLast?_eq_getElem?, ← hk]
    simpa using hx
  have ha : isActive x = false := by simpa [lastActive, hl] using h
  rw [isActive_eq_not_terminal] at ha
  simpa using ha

theorem activeCount_le_one (s : Store) (h : onlyLastActive s) : activeCount s ≤ 1 := by
  induction s with
  | nil => simp [activeCount]
  | cons a rest ih =>
    cases rest with
    | nil =>
      unfold activeCount
      exact le_trans (List.length_filter_le _ _) (by simp)
    | cons b rest2 =>
      have ha : isTerminal a = true := h 0 a (by simp) (by simp)
      have hrest : onlyLastActive (b :: rest2) := by
        intro k x hx hk
        exact h (k + 1) x (by simpa using hx) (by simpa using hk)
      have hna : isActive a = false := by
        rw [isActive_eq_not_terminal, ha]; rfl
      have := ih hrest
      simpa [activeCount, List.filter_cons, hna] using this

theorem activeCount_zero (s : Store) (hinv : onlyLastActive s) (hla : lastActive s = false) :
    activeCount s = 0 := by
  have hall : ∀ x ∈ s, isActive x = false := by
    intro x hx
    obtain ⟨k, hk, hkx⟩ := List.getElem_of_mem hx
    have hx2 : s[k]? = some x := by rw [List.getElem?_eq_getElem hk, hkx]
    have ht : isTerminal x = true := by
      by_cases hlast : k + 1 = s.length
      · exact lastActive_false_terminal s hla k x hx2 hlast
      · exact hinv k x hx2 (by omega)
    rw [isActive_eq_not_terminal, ht]; rfl
  unfold activeCount
  rw [List.length_eq_zero, List.filter_eq_nil_iff]
  intro x hx
  simp [hall x hx]

/-! ## The tick loop on the in-memory history -/

theorem overwrite_lookup (i : Interval) (s : Store) (x : Interval)
    (h : lookup i.ID s = some x) :
    ∃ s2, overwrite i s = some s2 ∧
      lookup i.ID s2 = some { x with StartTime := i.StartTime,
                                     ActualDuration := i.ActualDuration, State := i.State } := by
  induction s with
  | nil => simp [lookup] at h
  | cons a rest ih =>
    by_cases ha : a.ID = i.ID
    · simp only [lookup, ha, if_true, Option.some.injEq] at h
      subst h
      refine ⟨{ a with StartTime := i.StartTime, ActualDuration := i.ActualDuration,
                       State := i.State } :: rest, ?_, ?_⟩
      · simp [overwrite, ha]
      · simp [lookup, ha]
    · simp only [lookup, ha, if_false] at h
      obtain ⟨s2, h1, h2⟩ := ih h
      exact ⟨a :: s2, by simp [overwrite, ha, h1], by simp [lookup, ha, h2]⟩

theorem tickStep_mem_timer (id : Int) (s : Store) (t : List Event) (x : Interval)
    (hx : lookup id s = some x) (hrun : x.State ≠ StatePaused) :
    ∃ s2, tickStep memRepo id TickEvent.timer ⟨s, t⟩ =
        (none, ⟨s2, t ++ [Event.byID id,
          Event.update { x with ActualDuration := wrapInt64 (x.ActualDuration + Second) },
          Event.onPeriodic { x with ActualDuration := wrapInt64 (x.ActualDuration + Second) }]⟩) ∧
      lookup id s2 =
        some { x with ActualDuration := wrapInt64 (x.ActualDuration + Second) } := by
  have hid : x.ID = id := lookup_id id s x hx
  obtain ⟨s2, h1, h2⟩ := overwrite_lookup
    { x with ActualDuration := wrapInt64 (x.ActualDuration + Second) } s x
    (by simpa [hid] using hx)
  refine ⟨s2, ?_, ?_⟩
  · unfold tickStep
    simp [callByID, callUpdate, memRepo_ByID, memRepo_Update, hx, hrun, h1, emit]
  · simpa [hid] using h2

theorem tickStep_mem_expire (id : Int) (s : Store) (t : List Event) (x : Interval)
    (hx : lookup id s = some x) :
    ∃ s2, tickStep memRepo id TickEvent.expire ⟨s, t⟩ =
        (some none, ⟨s2, t ++ [Event.byID id, Event.onEnd { x with State := StateDone },
          Event.update { x with State := StateDone }]⟩) ∧
      lookup id s2 = some { x with State := StateDone } := by
  have hid : x.ID = id := lookup_id id s x hx
  obtain ⟨s2, h1, h2⟩ := overwrite_lookup { x with State := StateDone } s x
    (by simpa [hid] using hx)
  refine ⟨s2, ?_, ?_⟩
  · unfold tickStep
    simp [callByID, callUpdate, memRepo_ByID, memRepo_Update, hx, h1, emit]
  · simpa [hid] using h2

theorem tickLoop_mem_timers (id : Int) (rest : List TickEvent) (j : Nat) :
    ∀ (s : Store) (t : List Event) (x : Interval),
      lookup id s = some x → x.State ≠ StatePaused → -(2 ^ 63) ≤ x.ActualDuration →
      x.ActualDuration + j * Second < 2 ^ 63 →
      ∃ s2 t2, tickLoop memRepo id (List.replicate j TickEvent.timer ++ rest) ⟨s, t⟩ =
          tickLoop memRepo id rest ⟨s2, t2⟩ ∧
        lookup id s2 = some { x with ActualDuration := x.ActualDuration + j * Second } ∧
        endCount t2 = endCount t := by
  induction j with
  | zero =>
    intro s t x hx _ _ _
    exact ⟨s, t, by simp, by simpa using hx, rfl⟩
  | succ j ih =>
    intro s t x hx hrun hlo hhi
    have hs : (0 : Int) < Second := by decide
    have hj : (0 : Int) ≤ (j : Int) * Second := by positivity
    have hcast : ((j + 1 : Nat) : Int) * Second = (j : Int) * Second + Second := by
      push_cast; ring
    rw [hcast] at hhi
    obtain ⟨s1, hstep, hl1⟩ := tickStep_mem_timer id s t x hx hrun
    rw [wrapInt64_id _ (by omega) (by omega)] at hstep hl1
    obtain ⟨s2, t2, hloop, hl2, hend⟩ := ih s1 _ _ hl1 hrun (by simpa using by omega)
      (by simpa using by omega)
    refine ⟨s2, t2, ?_, ?_, ?_⟩
    · rw [List.replicate_succ, List.cons_append]
      simp only [tickLoop, hstep]
      exact hloop
    · rw [hl2, hcast]
      simp only [Option.some.injEq]
      congr 1
      show x.ActualDuration + Second + (j : Int) * Second = _
      ring
    · rw [hend]
      simp [endCount, List.filter_append, List.filter_cons]

/-- C9 (as stated, refuted): with a planned duration of one second, interval 1
is created and started; the first timer step persists an `ActualDuration`
equal to `PlannedDuration` while the persisted state stays `Running` and `end`
is not invoked; a further timer step (the loop compares nothing with
`PlannedDuration`) persists an `ActualDuration` of two seconds, exceeding
`PlannedDuration`. -/
theorem actual_exceeds_planned :
    runOps (memConfig Second 300 900)
        [Op.getInterval, Op.start ⟨1, 0, Second, 0, "Pomodoro", 0⟩ 77,
          Op.tickStep 1 TickEvent.timer] []
        = [⟨1, 77, Second, Second, "Pomodoro", 1⟩] ∧
      endCount (opWorld (memConfig Second 300 900) (Op.tickStep 1 TickEvent.timer)
        [⟨1, 77, Second, 0, "Pomodoro", 1⟩]).trace = 0 ∧
      runOps (memConfig Second 300 900)
        [Op.getInterval, Op.start ⟨1, 0, Second, 0, "Pomodoro", 0⟩ 77,
          Op.tickStep 1 TickEvent.timer, Op.tickStep 1 TickEvent.timer] []
        = [⟨1, 77, Second, 2 * Second, "Pomodoro", 1⟩] ∧
      Second < 2 * Second := by
  decide

/-- C9 (amended): in a tick loop over the in-memory history that services `n`
timer steps and then the deadline, started on a record that is not `Paused`
and whose remaining duration holds the `n` seconds
(`ActualDuration + n s ≤ PlannedDuration`, within the `int64` range), after
each of the first `j ≤ n` timer steps the loop is still running, the persisted
`ActualDuration` is the initial one plus `j` seconds, hence at most
`PlannedDuration`, and `end` has not been invoked; the deadline step then
makes the loop return a nil error, persists state `Done` with the accumulated
`ActualDuration` unchanged, and `end` has been invoked exactly once. -/
theorem tick_loop_within_deadline (id : Int) (s : Store) (t : List Event) (x : Interval)
    (n : Nat) (hx : lookup id s = some x) (hrun : x.State ≠ StatePaused)
    (hlo : -(2 ^ 63) ≤ x.ActualDuration) (hhi : x.PlannedDuration < 2 ^ 63)
    (hfit : x.ActualDuration + n * Second ≤ x.PlannedDuration) :
    (∀ j : Nat, j ≤ n →
        (tickLoop memRepo id (List.replicate j TickEvent.timer) ⟨s, t⟩).1 = Outcome.blocked ∧
        lookup id (tickLoop memRepo id (List.replicate j TickEvent.timer) ⟨s, t⟩).2.store =
          some { x with ActualDuration := x.ActualDuration + j * Second } ∧
        x.ActualDuration + j * Second ≤ x.PlannedDuration ∧
        endCount (tickLoop memRepo id (List.replicate j TickEvent.timer) ⟨s, t⟩).2.trace
          = endCount t) ∧
      (tickLoop memRepo id (List.replicate n TickEvent.timer ++ [TickEvent.expire]) ⟨s, t⟩).1
        = Outcome.returned none ∧
      lookup id (tickLoop memRepo id
          (List.replicate n TickEvent.timer ++ [TickEvent.expire]) ⟨s, t⟩).2.store =
        some { x with ActualDuration := x.ActualDuration + n * Second, State := StateDone } ∧
      endCount (tickLoop memRepo id
          (List.replicate n TickEvent.timer ++ [TickEvent.expire]) ⟨s, t⟩).2.trace
        = endCount t + 1 := by
  have hs : (0 : Int) < Second := by decide
  refine ⟨?_, ?_⟩
  · intro j hj
    have hjn : (j : Int) * Second ≤ (n : Int) * Second := by
      have : (j : Int) ≤ (n : Int) := by exact_mod_cast hj
      exact mul_le_mul_of_nonneg_right this (le_of_lt hs)
    obtain ⟨s2, t2, hloop, hl, hend⟩ :=
      tickLoop_mem_timers id [] j s t x hx hrun hlo (by omega)
    rw [List.append_nil] at hloop
    rw [hloop]
    exact ⟨rfl, hl, by omega, hend⟩
  · obtain ⟨s2, t2, hloop, hl, hend⟩ :=
      tickLoop_mem_timers id [TickEvent.expire] n s t x hx hrun hlo (by omega)
    obtain ⟨s3, hstep, hl3⟩ := tickStep_mem_expire id s2 t2 _ hl
    have hfin : tickLoop memRepo id [TickEvent.expire] ⟨s2, t2⟩ =
        (Outcome.returned none, ⟨s3, t2 ++ [Event.byID id,
          Event.onEnd { x with ActualDuration := x.ActualDuration + n * Second,
                               State := StateDone },
          Event.update { x with ActualDuration := x.ActualDuration + n * Second,
                                State := StateDone }]⟩) := by
      simp only [tickLoop, hstep]
    rw [hloop, hfin]
    refine ⟨rfl, hl3, ?_⟩
    rw [← hend]
    simp [endCount, List.filter_append, List.filter_cons]

theorem tick_loop_within_deadline_witness :
    (tickLoop memRepo 1 (List.replicate 2 TickEvent.timer ++ [TickEvent.expire])
        ⟨[⟨1, 77, 2 * Second, 0, "Pomodoro", 1⟩], []⟩).1 = Outcome.returned none ∧
      lookup 1 (tickLoop memRepo 1 (List.replicate 2 TickEvent.timer ++ [TickEvent.expire])
        ⟨[⟨1, 77, 2 * Second, 0, "Pomodoro", 1⟩], []⟩).2.store =
        some { (⟨1, 77, 2 * Second, 0, "Pomodoro", 1⟩ : Interval) with
          ActualDuration := (⟨1, 77, 2 * Second, 0, "Pomodoro", 1⟩ : Interval).ActualDuration
            + (2 : Nat) * Second,
          State := StateDone } :=
  ⟨(tick_loop_within_deadline 1 [⟨1, 77, 2 * Second, 0, "Pomodoro", 1⟩] []
      ⟨1, 77, 2 * Second, 0, "Pomodoro", 1⟩ 2 (by decide) (by decide) (by decide) (by decide)
      (by decide)).2.1,
   (tick_loop_within_deadline 1 [⟨1, 77, 2 * Second, 0, "Pomodoro", 1⟩] []
      ⟨1, 77, 2 * Second, 0, "Pomodoro", 1⟩ 2 (by decide) (by decide) (by decide) (by decide)
      (by decide)).2.2.1⟩

/-! ## Interval factory: results and error propagation -/

theorem nextCategory_ok_cases {σ : Type} (r : Repository σ) (w : World σ)
    (h : (nextCategory r w).1.2 = none) :
    (nextCategory r w).1.1 = CategoryPomodoro ∨ (nextCategory r w).1.1 = CategoryShortBreak ∨
      (nextCategory r w).1.1 = CategoryLongBreak := by
  unfold nextCategory at h ⊢
  simp only [] at h ⊢
  split_ifs at h ⊢ <;> simp_all

theorem newInterval_of_ok {σ : Type} (config : IntervalConfig σ) (w : World σ)
    (hcat : (nextCategory config.repo w).1.2 = none) :
    newInterval config w =
      (({ draft config (nextCategory config.repo w).1.1 with
            ID := (config.repo.Create (draft config (nextCategory config.repo w).1.1)
              (nextCategory config.repo w).2.store).1.1 },
          (config.repo.Create (draft config (nextCategory config.repo w).1.1)
            (nextCategory config.repo w).2.store).1.2),
        ⟨(config.repo.Create (draft config (nextCategory config.repo w).1.1)
            (nextCategory config.repo w).2.store).2,
          (nextCategory config.repo w).2.trace ++
            [Event.create (draft config (nextCategory config.repo w).1.1)]⟩) := by
  unfold newInterval
  rw [if_neg (by simp [hcat])]
  simp only []
  split_ifs with h
  · rfl
  · simp only [ne_eq, not_not] at h
    simp only [callCreate] at h ⊢
    rw [h]

theorem newInterval_of_error {σ : Type} (config : IntervalConfig σ) (w : World σ)
    (hcat : (nextCategory config.repo w).1.2 ≠ none) :
    newInterval config w =
      ((Interval.zero, (nextCategory config.repo w).1.2), (nextCategory config.repo w).2) := by
  unfold newInterval
  rw [if_pos hcat]

/-- C11: when `nextCategory` and the following `Create` succeed, `newInterval`
makes exactly one further repository call, a `Create` of an interval whose
`Category` is the result of `nextCategory`, whose `PlannedDuration` is the
config duration of that category (`PomodoroDuration`, `ShortBreakDuration` or
`LongBreakDuration`), with `State` `NotStarted` and `ActualDuration` 0; it
returns a nil error and that same interval with its `ID` set to the identifier
`Create` returned. -/
theorem newInterval_success {σ : Type} (config : IntervalConfig σ) (w : World σ)
    (hcat : (nextCategory config.repo w).1.2 = none)
    (hcreate : (config.repo.Create (draft config (nextCategory config.repo w).1.1)
      (nextCategory config.repo w).2.store).1.2 = none) :
    ∃ passed : Interval,
      (newInterval config w).2.trace =
        (nextCategory config.repo w).2.trace ++ [Event.create passed] ∧
      (newInterval config w).1.2 = none ∧
      (newInterval config w).1.1 =
        { passed with ID := (config.repo.Create passed (nextCategory config.repo w).2.store).1.1 } ∧
      (newInterval config w).2.store =
        (config.repo.Create passed (nextCategory config.repo w).2.store).2 ∧
      passed.Category = (nextCategory config.repo w).1.1 ∧
      passed.State = StateNotStarted ∧ passed.ActualDuration = 0 ∧
      ((passed.Category = CategoryPomodoro ∧ passed.PlannedDuration = config.PomodoroDuration) ∨
        (passed.Category = CategoryShortBreak ∧
          passed.PlannedDuration = config.ShortBreakDuration) ∨
        (passed.Category = CategoryLongBreak ∧
          passed.PlannedDuration = config.LongBreakDuration)) ∧
      (newInterval config w).1.1.Category = passed.Category ∧
      (newInterval config w).1.1.PlannedDuration = passed.PlannedDuration ∧
      (newInterval config w).1.1.State = StateNotStarted ∧
      (newInterval config w).1.1.ActualDuration = 0 := by
  refine ⟨draft config (nextCategory config.repo w).1.1, ?_⟩
  rw [newInterval_of_ok config w hcat, hcreate]
  refine ⟨rfl, rfl, rfl, rfl, rfl, rfl, rfl, ?_, rfl, rfl, rfl, rfl⟩
  have hS : CategoryShortBreak ≠ CategoryPomodoro := by decide
  have hL : CategoryLongBreak ≠ CategoryPomodoro := by decide
  have hLS : CategoryLongBreak ≠ CategoryShortBreak := by decide
  rcases nextCategory_ok_cases config.repo w hcat with h | h | h
  · left; simp [draft, plannedFor, h]
  · right; left; simp [draft, plannedFor, h, hS]
  · right; right; simp [draft, plannedFor, h, hL, hLS]

theorem newInterval_success_witness :
    ∃ passed : Interval,
      (newInterval (memConfig 1500 300 900) ⟨created (memConfig 1500 300 900) 7, []⟩).2.trace =
        (nextCategory (memConfig 1500 300 900).repo
          ⟨created (memConfig 1500 300 900) 7, []⟩).2.trace ++ [Event.create passed] ∧
      (newInterval (memConfig 1500 300 900) ⟨created (memConfig 1500 300 900) 7, []⟩).1.2
        = none :=
  (newInterval_success (memConfig 1500 300 900) ⟨created (memConfig 1500 300 900) 7, []⟩
    (by decide) (by decide)).imp (fun _ h => ⟨h.1, h.2.1⟩)

theorem createCount_append (t u : List Event) :
    createCount (t ++ u) = createCount t + createCount u := by
  simp [createCount, List.filter_append]

theorem nextCategory_createCount {σ : Type} (r : Repository σ) (w : World σ) :
    createCount (nextCategory r w).2.trace = createCount w.trace := by
  rcases nextCategory_trace r w with h | h <;> rw [h, createCount_append] <;>
    simp [createCount]

theorem nextCategory_last_error {σ : Type} (r : Repository σ) (w : World σ) (e : Error)
    (h : (r.Last w.store).1.2 = some e) (hne : e ≠ Error.ErrNoIntervals) :
    nextCategory r w = (("", some e), ⟨(r.Last w.store).2, w.trace ++ [Event.last]⟩) := by
  unfold nextCategory
  simp [callLast, h, hne]

theorem nextCategory_breaks_error {σ : Type} (r : Repository σ) (w : World σ) (e : Error)
    (hok : (r.Last w.store).1.2 = none)
    (hshort : (r.Last w.store).1.1.Category ≠ CategoryShortBreak)
    (hlong : (r.Last w.store).1.1.Category ≠ CategoryLongBreak)
    (hbr : (r.Breaks 3 (r.Last w.store).2).1.2 = some e) :
    nextCategory r w =
      (("", some e), ⟨(r.Breaks 3 (r.Last w.store).2).2,
        w.trace ++ [Event.last, Event.breaks 3]⟩) := by
  unfold nextCategory
  simp [callLast, callBreaks, hok, hshort, hlong, hbr]

/-- C12: repository errors on the creation path are returned unchanged and no
call is repeated.  (1) If `Last` fails with an error other than
`ErrNoIntervals`, then `nextCategory`, `newInterval` and `GetInterval` return
that error and their only repository call is that `Last`.  (2) If `Last`
succeeds with a work interval and `Breaks(3)` fails, `nextCategory` and
`newInterval` return that error after exactly the calls `Last`, `Breaks(3)`.
(3) When `GetInterval` reaches `newInterval`, it returns the error of
`nextCategory` without any `Create` call, or, when `nextCategory` succeeds and
`Create` fails, the error of `Create` after exactly one `Create` call.
(4) Likewise `newInterval` returns the error of a failing `Create`, which it
has called exactly once. -/
theorem creation_errors_propagate {σ : Type} (config : IntervalConfig σ) (w : World σ)
    (e : Error) :
    ((config.repo.Last w.store).1.2 = some e → e ≠ Error.ErrNoIntervals →
        ((nextCategory config.repo w).1.2 = some e ∧
          (nextCategory config.repo w).2.trace = w.trace ++ [Event.last] ∧
          (newInterval config w).1.2 = some e ∧
          (newInterval config w).2.trace = w.trace ++ [Event.last] ∧
          (GetInterval config w).1.2 = some e ∧
          (GetInterval config w).2.trace = w.trace ++ [Event.last])) ∧
      ((config.repo.Last w.store).1.2 = none →
        (config.repo.Last w.store).1.1.Category ≠ CategoryShortBreak →
        (config.repo.Last w.store).1.1.Category ≠ CategoryLongBreak →
        (config.repo.Breaks 3 (config.repo.Last w.store).2).1.2 = some e →
        ((nextCategory config.repo w).1.2 = some e ∧
          (nextCategory config.repo w).2.trace = w.trace ++ [Event.last, Event.breaks 3] ∧
          (newInterval config w).1.2 = some e ∧
          (newInterval config w).2.trace = w.trace ++ [Event.last, Event.breaks 3])) ∧
      (((config.repo.Last w.store).1.2 = some Error.ErrNoIntervals ∨
          ((config.repo.Last w.store).1.2 = none ∧
            ((config.repo.Last w.store).1.1.State = StateDone ∨
              (config.repo.Last w.store).1.1.State = StateCancelled))) →
        (((nextCategory config.repo (callLast config.repo w).2).1.2 = some e →
            ((GetInterval config w).1.2 = some e ∧
              createCount (GetInterval config w).2.trace = createCount w.trace)) ∧
          ((nextCategory config.repo (callLast config.repo w).2).1.2 = none →
            (config.repo.Create
              (draft config (nextCategory config.repo (callLast config.repo w).2).1.1)
              (nextCategory config.repo (callLast config.repo w).2).2.store).1.2 = some e →
            ((GetInterval config w).1.2 = some e ∧
              createCount (GetInterval config w).2.trace = createCount w.trace + 1)))) ∧
      ((nextCategory config.repo w).1.2 = none →
        (config.repo.Create (draft config (nextCategory config.repo w).1.1)
          (nextCategory config.repo w).2.store).1.2 = some e →
        ((newInterval config w).1.2 = some e ∧
          (newInterval config w).2.trace = (nextCategory config.repo w).2.trace ++
            [Event.create (draft config (nextCategory config.repo w).1.1)] ∧
          createCount (newInterval config w).2.trace = createCount w.trace + 1)) := by
  refine ⟨?_, ?_, ?_, ?_⟩
  · intro h hne
    have hn := nextCategory_last_error config.repo w e h hne
    have hnew := newInterval_of_error config w (by rw [hn]; simp)
    have hget := GetInterval_error config w (by rw [h]; simp) (by rw [h]; simpa using hne)
    rw [hnew, hget, hn, h]
    exact ⟨rfl, rfl, rfl, rfl, rfl, rfl⟩
  · intro hok hs hl hbr
    have hn := nextCategory_breaks_error config.repo w e hok hs hl hbr
    have hnew := newInterval_of_error config w (by rw [hn]; simp)
    rw [hnew, hn]
    exact ⟨rfl, rfl, rfl, rfl⟩
  · intro hlast
    rw [GetInterval_new config w hlast]
    have hw : createCount (callLast config.repo w).2.trace = createCount w.trace := by
      simp [callLast, createCount_append, createCount]
    constructor
    · intro herr
      rw [newInterval_of_error config _ (by rw [herr]; simp), nextCategory_createCount, hw]
      exact ⟨herr, rfl⟩
    · intro hok hcr
      rw [newInterval_of_ok config _ hok, hcr]
      refine ⟨rfl, ?_⟩
      show createCount (_ ++ _) = _
      rw [createCount_append, nextCategory_createCount, hw]
      simp [createCount]
  · intro hok hcr
    rw [newInterval_of_ok config _ hok, hcr]
    refine ⟨rfl, rfl, ?_⟩
    show createCount (_ ++ _) = _
    rw [createCount_append, nextCategory_createCount]
    simp [createCount]

theorem creation_errors_propagate_witness :
    (GetInterval ⟨brokenCreateRepo, 1500, 300, 900⟩ ⟨[], []⟩).1.2
        = some (Error.other "disk full") ∧
      createCount (GetInterval ⟨brokenCreateRepo, 1500, 300, 900⟩ ⟨[], []⟩).2.trace
        = createCount [] + 1 :=
  ((creation_errors_propagate ⟨brokenCreateRepo, 1500, 300, 900⟩ ⟨[], []⟩
    (Error.other "disk full")).2.2.1 (Or.inl (by decide))).2 (by decide) (by decide)

/-! ## Config -/

/-- C13: for every triple of durations, each category duration of the config
built by `NewConfig` is the supplied value when that value is positive and the
default otherwise (25, 5 and 15 minutes, in nanoseconds); each field depends
on its own argument only, and the repository is the one supplied. -/
theorem NewConfig_durations {σ : Type} (repo : Repository σ) (p sb lb : Int) :
    (NewConfig repo p sb lb).PomodoroDuration = (if p > 0 then p else 25 * Minute) ∧
      (NewConfig repo p sb lb).ShortBreakDuration = (if sb > 0 then sb else 5 * Minute) ∧
      (NewConfig repo p sb lb).LongBreakDuration = (if lb > 0 then lb else 15 * Minute) ∧
      (∀ sb2 lb2 : Int,
        (NewConfig repo p sb2 lb2).PomodoroDuration = (NewConfig repo p sb lb).PomodoroDuration) ∧
      (∀ p2 lb2 : Int,
        (NewConfig repo p2 sb lb2).ShortBreakDuration
          = (NewConfig repo p sb lb).ShortBreakDuration) ∧
      (∀ p2 sb2 : Int,
        (NewConfig repo p2 sb2 lb).LongBreakDuration
          = (NewConfig repo p sb lb).LongBreakDuration) ∧
      (25 * Minute = 1500000000000 ∧ 5 * Minute = 300000000000 ∧
        15 * Minute = 900000000000) ∧
      (NewConfig repo p sb lb).repo = repo := by
  have key : ∀ a b c : Int,
      (NewConfig repo a b c).PomodoroDuration = (if a > 0 then a else 25 * Minute) ∧
      (NewConfig repo a b c).ShortBreakDuration = (if b > 0 then b else 5 * Minute) ∧
      (NewConfig repo a b c).LongBreakDuration = (if c > 0 then c else 15 * Minute) ∧
      (NewConfig repo a b c).repo = repo := by
    intro a b c
    unfold NewConfig
    by_cases ha : a > 0 <;> by_cases hb : b > 0 <;> by_cases hc : c > 0 <;>
      simp [ha, hb, hc]
  refine ⟨(key p sb lb).1, (key p sb lb).2.1, (key p sb lb).2.2.1, ?_, ?_, ?_, ?_,
    (key p sb lb).2.2.2⟩
  · intro sb2 lb2
    rw [(key p sb2 lb2).1, (key p sb lb).1]
  · intro p2 lb2
    rw [(key p2 sb lb2).2.1, (key p sb lb).2.1]
  · intro p2 sb2
    rw [(key p2 sb2 lb).2.2.1, (key p sb lb).2.2.1]
  · decide

/-! ## State machine: `Start` and `Pause` -/

/-- C14: `Start` on an interval whose state is `Done` or `Cancelled` returns an
error wrapping `ErrIntervalCompleted`, whatever the schedule, and leaves the
world untouched: no repository call, no timer and no callback is recorded. -/
theorem Start_completed {σ : Type} (i : Interval) (now : Int) (config : IntervalConfig σ)
    (schedule : List TickEvent) (w : World σ)
    (h : i.State = StateDone ∨ i.State = StateCancelled) :
    i.Start now config schedule w =
        (Outcome.returned (some (Error.wrapped Error.ErrIntervalCompleted "Cannot start")), w) ∧
      errorsIs (Error.wrapped Error.ErrIntervalCompleted "Cannot start")
        Error.ErrIntervalCompleted = true := by
  refine ⟨?_, by decide⟩
  unfold Interval.Start
  rcases h with h | h
  · have h1 : ¬ StateDone = StateRunning := by decide
    have h2 : ¬ (StateDone = StateNotStarted ∨ StateDone = StatePaused) := by decide
    simp [h, h1, h2]
  · have h1 : ¬ StateCancelled = StateRunning := by decide
    have h2 : ¬ (StateCancelled = StateNotStarted ∨ StateCancelled = StatePaused) := by decide
    simp [h, h1, h2]

theorem Start_completed_witness :
    (⟨1, 7, 1500, 1500, "Pomodoro", 3⟩ : Interval).Start 99 (memConfig 1500 300 900)
        [TickEvent.timer, TickEvent.expire] ⟨[⟨1, 7, 1500, 1500, "Pomodoro", 3⟩], []⟩ =
      (Outcome.returned (some (Error.wrapped Error.ErrIntervalCompleted "Cannot start")),
        ⟨[⟨1, 7, 1500, 1500, "Pomodoro", 3⟩], []⟩) :=
  (Start_completed ⟨1, 7, 1500, 1500, "Pomodoro", 3⟩ 99 (memConfig 1500 300 900)
    [TickEvent.timer, TickEvent.expire] ⟨[⟨1, 7, 1500, 1500, "Pomodoro", 3⟩], []⟩
    (Or.inl (by decide))).1

/-- C15: `Start` on an interval whose state is `Running` returns a nil error,
whatever the schedule, and leaves the world untouched: no repository call, no
timer of the tick loop and no callback is recorded. -/
theorem Start_running {σ : Type} (i : Interval) (now : Int) (config : IntervalConfig σ)
    (schedule : List TickEvent) (w : World σ) (h : i.State = StateRunning) :
    i.Start now config schedule w = (Outcome.returned none, w) := by
  unfold Interval.Start
  simp [h]

theorem Start_running_witness :
    (⟨1, 7, 1500, 20, "Pomodoro", 1⟩ : Interval).Start 99 (memConfig 1500 300 900)
        [TickEvent.timer, TickEvent.expire] ⟨[⟨1, 7, 1500, 20, "Pomodoro", 1⟩], []⟩ =
      (Outcome.returned none, ⟨[⟨1, 7, 1500, 20, "Pomodoro", 1⟩], []⟩) :=
  Start_running ⟨1, 7, 1500, 20, "Pomodoro", 1⟩ 99 (memConfig 1500 300 900)
    [TickEvent.timer, TickEvent.expire] ⟨[⟨1, 7, 1500, 20, "Pomodoro", 1⟩], []⟩ (by decide)

theorem tickStep_trace_extends {σ : Type} (r : Repository σ) (id : Int) (ev : TickEvent)
    (w : World σ) :
    ∃ rest, (tickStep r id ev w).2.trace = w.trace ++ Event.byID id :: rest := by
  unfold tickStep
  cases ev <;> simp only [callByID, callUpdate, emit] <;> split_ifs <;> simp

theorem tickLoop_trace_extends {σ : Type} (r : Repository σ) (id : Int)
    (schedule : List TickEvent) :
    ∀ w : World σ, ∃ rest, (tickLoop r id schedule w).2.trace = w.trace ++ rest := by
  induction schedule with
  | nil => intro w; exact ⟨[], by simp [tickLoop]⟩
  | cons ev rest ih =>
    intro w
    obtain ⟨r1, h1⟩ := tickStep_trace_extends r id ev w
    cases hs : (tickStep r id ev w).1 with
    | some err => exact ⟨_, by simp only [tickLoop, hs]; exact h1⟩
    | none =>
      obtain ⟨r2, h2⟩ := ih (tickStep r id ev w).2
      refine ⟨Event.byID id :: r1 ++ r2, ?_⟩
      simp only [tickLoop, hs]
      rw [h2, h1]
      simp

theorem tick_trace_extends {σ : Type} (id : Int) (config : IntervalConfig σ)
    (schedule : List TickEvent) (w : World σ) :
    ∃ rest, (tick id config schedule w).2.trace =
      w.trace ++ Event.newTicker Second :: Event.byID id :: rest := by
  unfold tick
  simp only []
  split_ifs
  · exact ⟨[], by simp [callByID, emit]⟩
  · obtain ⟨r2, h2⟩ := tickLoop_trace_extends config.repo id schedule
      (emit (Event.onStart (callByID config.repo id (emit (Event.newTicker Second) w)).1.1)
        (emit (Event.after (wrapInt64
          ((callByID config.repo id (emit (Event.newTicker Second) w)).1.1.PlannedDuration -
            (callByID config.repo id (emit (Event.newTicker Second) w)).1.1.ActualDuration)))
          (callByID config.repo id (emit (Event.newTicker Second) w)).2))
    exact ⟨_, by rw [h2]; simp [callByID, emit]; rfl⟩

theorem Start_of_startable {σ : Type} (i : Interval) (now : Int) (config : IntervalConfig σ)
    (schedule : List TickEvent) (w : World σ)
    (h : i.State = StateNotStarted ∨ i.State = StatePaused) :
    i.Start now config schedule w =
      if (config.repo.Update
          { i with StartTime := if i.State = StateNotStarted then now else i.StartTime,
                   State := StateRunning } w.store).1 ≠ none then
        (Outcome.returned (config.repo.Update
            { i with StartTime := if i.State = StateNotStarted then now else i.StartTime,
                     State := StateRunning } w.store).1,
          ⟨(config.repo.Update
              { i with StartTime := if i.State = StateNotStarted then now else i.StartTime,
                       State := StateRunning } w.store).2,
            w.trace ++ [Event.update
              { i with StartTime := if i.State = StateNotStarted then now else i.StartTime,
                       State := StateRunning }]⟩)
      else
        tick i.ID config schedule
          ⟨(config.repo.Update
              { i with StartTime := if i.State = StateNotStarted then now else i.StartTime,
                       State := StateRunning } w.store).2,
            w.trace ++ [Event.update
              { i with StartTime := if i.State = StateNotStarted then now else i.StartTime,
                       State := StateRunning }]⟩ := by
  have hr : i.State ≠ StateRunning := by
    rcases h with h | h <;> rw [h] <;> decide
  unfold Interval.Start
  rw [if_neg hr, if_pos h]
  by_cases h0 : i.State = StateNotStarted <;> simp [h0, callUpdate]

/-- C16: `Start` on a `NotStarted` or `Paused` interval first calls `Update`
with a record whose `State` is `Running`, whose `StartTime` is the current
time when the receiver is `NotStarted` and the receiver's `StartTime` when it
is `Paused`, and whose other fields are the receiver's; this `Update` is
recorded before anything of the tick loop.  If it fails, `Start` returns its
error and nothing else is recorded (no tick loop, no callback); if it
succeeds, `Start` continues as the tick loop of the receiver's `ID`, which
begins after the `Update`. -/
theorem Start_persists_running {σ : Type} (i : Interval) (now : Int)
    (config : IntervalConfig σ) (schedule : List TickEvent) (w : World σ)
    (h : i.State = StateNotStarted ∨ i.State = StatePaused) :
    ∃ (persisted : Interval) (rest : List Event),
      (i.Start now config schedule w).2.trace = w.trace ++ Event.update persisted :: rest ∧
      persisted.State = StateRunning ∧
      (i.State = StateNotStarted → persisted.StartTime = now) ∧
      (i.State = StatePaused → persisted.StartTime = i.StartTime) ∧
      persisted.ID = i.ID ∧ persisted.PlannedDuration = i.PlannedDuration ∧
      persisted.ActualDuration = i.ActualDuration ∧ persisted.Category = i.Category ∧
      ((config.repo.Update persisted w.store).1 ≠ none →
        (i.Start now config schedule w =
            (Outcome.returned (config.repo.Update persisted w.store).1,
              ⟨(config.repo.Update persisted w.store).2,
                w.trace ++ [Event.update persisted]⟩) ∧
          rest = [])) ∧
      ((config.repo.Update persisted w.store).1 = none →
        (i.Start now config schedule w =
            tick i.ID config schedule
              ⟨(config.repo.Update persisted w.store).2,
                w.trace ++ [Event.update persisted]⟩ ∧
          ∃ rest2, rest = Event.newTicker Second :: Event.byID i.ID :: rest2)) := by
  have hstart := Start_of_startable i now config schedule w h
  have hps : StatePaused ≠ StateNotStarted := by decide
  by_cases hup : (config.repo.Update
      { i with StartTime := if i.State = StateNotStarted then now else i.StartTime,
               State := StateRunning } w.store).1 ≠ none
  · rw [if_pos hup] at hstart
    refine ⟨{ i with StartTime := if i.State = StateNotStarted then now else i.StartTime,
                     State := StateRunning }, [], ?_, rfl, ?_, ?_, rfl, rfl, rfl, rfl, ?_, ?_⟩
    · rw [hstart]
    · intro h0; simp [h0]
    · intro h2; simp [h2, hps]
    · intro _; exact ⟨hstart, rfl⟩
    · intro hok; exact absurd hok hup
  · rw [if_neg hup] at hstart
    obtain ⟨rest2, hrest⟩ := tick_trace_extends i.ID config schedule
      ⟨(config.repo.Update
          { i with StartTime := if i.State = StateNotStarted then now else i.StartTime,
                   State := StateRunning } w.store).2,
        w.trace ++ [Event.update
          { i with StartTime := if i.State = StateNotStarted then now else i.StartTime,
                   State := StateRunning }]⟩
    refine ⟨{ i with StartTime := if i.State = StateNotStarted then now else i.StartTime,
                     State := StateRunning },
      Event.newTicker Second :: Event.byID i.ID :: rest2,
      ?_, rfl, ?_, ?_, rfl, rfl, rfl, rfl, ?_, ?_⟩
    · rw [hstart, hrest]; simp
    · intro h0; simp [h0]
    · intro h2; simp [h2, hps]
    · intro hne; exact absurd hne hup
    · intro _; exact ⟨hstart, rest2, rfl⟩

theorem Start_persists_running_witness :
    ∃ (persisted : Interval) (rest : List Event),
      ((⟨1, 7, 1500, 20, "Pomodoro", 2⟩ : Interval).Start 99
          ⟨brokenUpdateRepo, 1500, 300, 900⟩ [TickEvent.timer]
          ⟨[⟨1, 7, 1500, 20, "Pomodoro", 2⟩], []⟩).2.trace
        = [] ++ Event.update persisted :: rest ∧
      persisted.State = StateRunning :=
  (Start_persists_running ⟨1, 7, 1500, 20, "Pomodoro", 2⟩ 99
    ⟨brokenUpdateRepo, 1500, 300, 900⟩ [TickEvent.timer]
    ⟨[⟨1, 7, 1500, 20, "Pomodoro", 2⟩], []⟩ (Or.inr (by decide))).imp
      (fun _ h => h.imp (fun _ h2 => ⟨h2.1, h2.2.1⟩))

/-- C17: `Pause` returns `ErrIntervalNotRunning` without recording any
repository call exactly when the receiver's `State` is not `Running`, for
every value of `State`; in that case the world is untouched.  In particular
`Pause` on a `NotStarted` interval fails with `ErrIntervalNotRunning`. -/
theorem Pause_not_running_iff {σ : Type} (i : Interval) (config : IntervalConfig σ)
    (w : World σ) :
    (((i.Pause config w).1 = some Error.ErrIntervalNotRunning ∧
          (i.Pause config w).2.trace = w.trace) ↔ i.State ≠ StateRunning) ∧
      (i.State ≠ StateRunning → i.Pause config w = (some Error.ErrIntervalNotRunning, w)) ∧
      (i.State = StateNotStarted → i.Pause config w = (some Error.ErrIntervalNotRunning, w)) := by
  have hno : i.State ≠ StateRunning →
      i.Pause config w = (some Error.ErrIntervalNotRunning, w) := by
    intro h
    unfold Interval.Pause
    simp [h]
  refine ⟨⟨?_, fun h => by rw [hno h]; exact ⟨rfl, rfl⟩⟩, hno, ?_⟩
  · rintro ⟨_, htrace⟩ hrun
    unfold Interval.Pause at htrace
    simp [hrun, callUpdate] at htrace
  · intro h0
    exact hno (by rw [h0]; decide)

/-- C18: `Pause` on a `Running` interval records exactly one action, an
`Update` of the receiver with `State` set to `Paused` and every other field
unchanged; it returns the result of that `Update` and leaves the store that
`Update` left; no callback and no other call is recorded. -/
theorem Pause_running {σ : Type} (i : Interval) (config : IntervalConfig σ) (w : World σ)
    (h : i.State = StateRunning) :
    i.Pause config w =
        ((config.repo.Update { i with State := StatePaused } w.store).1,
          ⟨(config.repo.Update { i with State := StatePaused } w.store).2,
            w.trace ++ [Event.update { i with State := StatePaused }]⟩) ∧
      callbackCount (i.Pause config w).2.trace = callbackCount w.trace ∧
      ({ i with State := StatePaused } : Interval) =
        ⟨i.ID, i.StartTime, i.PlannedDuration, i.ActualDuration, i.Category, StatePaused⟩ := by
  have hp : i.Pause config w =
      ((config.repo.Update { i with State := StatePaused } w.store).1,
        ⟨(config.repo.Update { i with State := StatePaused } w.store).2,
          w.trace ++ [Event.update { i with State := StatePaused }]⟩) := by
    unfold Interval.Pause
    simp [h, callUpdate]
  refine ⟨hp, ?_, rfl⟩
  rw [hp]
  simp [callbackCount, List.filter_append]

theorem Pause_running_witness :
    (⟨1, 7, 1500, 20, "Pomodoro", 1⟩ : Interval).Pause (memConfig 1500 300 900)
        ⟨[⟨1, 7, 1500, 20, "Pomodoro", 1⟩], []⟩ =
      ((memRepo.Update { (⟨1, 7, 1500, 20, "Pomodoro", 1⟩ : Interval) with
            State := StatePaused } [⟨1, 7, 1500, 20, "Pomodoro", 1⟩]).1,
        ⟨(memRepo.Update { (⟨1, 7, 1500, 20, "Pomodoro", 1⟩ : Interval) with
            State := StatePaused } [⟨1, 7, 1500, 20, "Pomodoro", 1⟩]).2,
          [] ++ [Event.update { (⟨1, 7, 1500, 20, "Pomodoro", 1⟩ : Interval) with
            State := StatePaused }]⟩) :=
  (Pause_running ⟨1, 7, 1500, 20, "Pomodoro", 1⟩ (memConfig 1500 300 900)
    ⟨[⟨1, 7, 1500, 20, "Pomodoro", 1⟩], []⟩ (by decide)).1

/-! ## Tick loop: deadline and cancellation branches -/

theorem endCount_append (t u : List Event) : endCount (t ++ u) = endCount t + endCount u := by
  simp [endCount, List.filter_append]

theorem callbackCount_append (t u : List Event) :
    callbackCount (t ++ u) = callbackCount t + callbackCount u := by
  simp [callbackCount, List.filter_append]

theorem tickStep_expire_of_ok {σ : Type} (r : Repository σ) (id : Int) (w : World σ)
    (hby : (r.ByID id w.store).1.2 = none) :
    tickStep r id TickEvent.expire w =
      (some (r.Update { (r.ByID id w.store).1.1 with State := StateDone }
          (r.ByID id w.store).2).1,
        ⟨(r.Update { (r.ByID id w.store).1.1 with State := StateDone }
            (r.ByID id w.store).2).2,
          w.trace ++ [Event.byID id,
            Event.onEnd { (r.ByID id w.store).1.1 with State := StateDone },
            Event.update { (r.ByID id w.store).1.1 with State := StateDone }]⟩) := by
  unfold tickStep
  simp [callByID, callUpdate, emit, hby]

theorem tickStep_cancel_of_ok {σ : Type} (r : Repository σ) (id : Int) (w : World σ)
    (hby : (r.ByID id w.store).1.2 = none) :
    tickStep r id TickEvent.cancel w =
      (some (r.Update { (r.ByID id w.store).1.1 with State := StateCancelled }
          (r.ByID id w.store).2).1,
        ⟨(r.Update { (r.ByID id w.store).1.1 with State := StateCancelled }
            (r.ByID id w.store).2).2,
          w.trace ++ [Event.byID id,
            Event.update { (r.ByID id w.store).1.1 with State := StateCancelled }]⟩) := by
  unfold tickStep
  simp [callByID, callUpdate, hby]

theorem tickStep_endCount_other {σ : Type} (r : Repository σ) (id : Int) (ev : TickEvent)
    (w : World σ) (hev : ev ≠ TickEvent.expire) :
    endCount (tickStep r id ev w).2.trace = endCount w.trace := by
  unfold tickStep
  cases ev with
  | expire => exact absurd rfl hev
  | timer =>
    simp only [callByID, callUpdate, emit]
    split_ifs <;> simp [endCount, List.filter_append]
  | cancel =>
    simp only [callByID, callUpdate, emit]
    split_ifs <;> simp [endCount, List.filter_append]

theorem tickStep_expire_error {σ : Type} (r : Repository σ) (id : Int) (w : World σ)
    (hby : (r.ByID id w.store).1.2 ≠ none) :
    tickStep r id TickEvent.expire w =
      (some (r.ByID id w.store).1.2, ⟨(r.ByID id w.store).2, w.trace ++ [Event.byID id]⟩) := by
  unfold tickStep
  simp [callByID, hby]

theorem tick_init_endCount {σ : Type} (id : Int) (config : IntervalConfig σ) (w : World σ) :
    endCount (tick id config [] w).2.trace = endCount w.trace := by
  unfold tick
  simp only [callByID, emit, tickLoop]
  split_ifs <;> simp [endCount, List.filter_append]

/-- C19: when the tick loop services the deadline and the `ByID` and `Update`
it makes succeed, the step records exactly: the re-fetch by `ID`, one `end`
invocation with the fetched record with `State` `Done`, and the `Update` of
that same record (every other field, `ActualDuration` included, as fetched);
the loop then returns a nil error, whatever events would follow.  `end` is
invoked nowhere else: not by a timer or cancellation step, not by a deadline
step whose fetch fails, and not before the loop starts. -/
theorem tick_deadline {σ : Type} (r : Repository σ) (id : Int) (w : World σ)
    (rest : List TickEvent)
    (hby : (r.ByID id w.store).1.2 = none)
    (hup : (r.Update { (r.ByID id w.store).1.1 with State := StateDone }
      (r.ByID id w.store).2).1 = none) :
    tickLoop r id (TickEvent.expire :: rest) w =
        (Outcome.returned none,
          ⟨(r.Update { (r.ByID id w.store).1.1 with State := StateDone }
              (r.ByID id w.store).2).2,
            w.trace ++ [Event.byID id,
              Event.onEnd { (r.ByID id w.store).1.1 with State := StateDone },
              Event.update { (r.ByID id w.store).1.1 with State := StateDone }]⟩) ∧
      ({ (r.ByID id w.store).1.1 with State := StateDone } : Interval) =
        ⟨(r.ByID id w.store).1.1.ID, (r.ByID id w.store).1.1.StartTime,
          (r.ByID id w.store).1.1.PlannedDuration, (r.ByID id w.store).1.1.ActualDuration,
          (r.ByID id w.store).1.1.Category, StateDone⟩ ∧
      endCount (tickLoop r id (TickEvent.expire :: rest) w).2.trace = endCount w.trace + 1 ∧
      (∀ (r2 : Repository σ) (id2 : Int) (w2 : World σ),
        endCount (tickStep r2 id2 TickEvent.timer w2).2.trace = endCount w2.trace ∧
        endCount (tickStep r2 id2 TickEvent.cancel w2).2.trace = endCount w2.trace ∧
        ((r2.ByID id2 w2.store).1.2 ≠ none →
          endCount (tickStep r2 id2 TickEvent.expire w2).2.trace = endCount w2.trace)) ∧
      (∀ (config : IntervalConfig σ) (id2 : Int) (w2 : World σ),
        endCount (tick id2 config [] w2).2.trace = endCount w2.trace) := by
  have hloop : tickLoop r id (TickEvent.expire :: rest) w =
      (Outcome.returned none,
        ⟨(r.Update { (r.ByID id w.store).1.1 with State := StateDone }
            (r.ByID id w.store).2).2,
          w.trace ++ [Event.byID id,
            Event.onEnd { (r.ByID id w.store).1.1 with State := StateDone },
            Event.update { (r.ByID id w.store).1.1 with State := StateDone }]⟩) := by
    simp only [tickLoop, tickStep_expire_of_ok r id w hby, hup]
  refine ⟨hloop, rfl, ?_, ?_, ?_⟩
  · rw [hloop, endCount_append]
    simp [endCount]
  · intro r2 id2 w2
    refine ⟨tickStep_endCount_other r2 id2 _ w2 (by decide),
      tickStep_endCount_other r2 id2 _ w2 (by decide), ?_⟩
    intro hne
    rw [tickStep_expire_error r2 id2 w2 hne, endCount_append]
    simp [endCount]
  · intro config id2 w2
    exact tick_init_endCount id2 config w2

theorem tick_deadline_witness :
    tickLoop memRepo 1 (TickEvent.expire :: [TickEvent.timer])
        ⟨[⟨1, 7, 1500, 1400, "Pomodoro", 1⟩], []⟩ =
      (Outcome.returned none,
        ⟨(memRepo.Update { (memRepo.ByID 1 [⟨1, 7, 1500, 1400, "Pomodoro", 1⟩]).1.1 with
              State := StateDone }
            (memRepo.ByID 1 [⟨1, 7, 1500, 1400, "Pomodoro", 1⟩]).2).2,
          [] ++ [Event.byID 1,
            Event.onEnd { (memRepo.ByID 1 [⟨1, 7, 1500, 1400, "Pomodoro", 1⟩]).1.1 with
              State := StateDone },
            Event.update { (memRepo.ByID 1 [⟨1, 7, 1500, 1400, "Pomodoro", 1⟩]).1.1 with
              State := StateDone }]⟩) :=
  (tick_deadline memRepo 1 ⟨[⟨1, 7, 1500, 1400, "Pomodoro", 1⟩], []⟩ [TickEvent.timer]
    (by decide) (by decide)).1

theorem tickStep_mem_cancel (id : Int) (s : Store) (t : List Event) (x : Interval)
    (hx : lookup id s = some x) :
    ∃ s2, tickStep memRepo id TickEvent.cancel ⟨s, t⟩ =
        (some none, ⟨s2, t ++ [Event.byID id,
          Event.update { x with State := StateCancelled }]⟩) ∧
      lookup id s2 = some { x with State := StateCancelled } := by
  have hid : x.ID = id := lookup_id id s x hx
  obtain ⟨s2, h1, h2⟩ := overwrite_lookup { x with State := StateCancelled } s x
    (by simpa [hid] using hx)
  refine ⟨s2, ?_, ?_⟩
  · unfold tickStep
    simp [callByID, callUpdate, memRepo_ByID, memRepo_Update, hx, h1]
  · simpa [hid] using h2

/-- C20: when the tick loop services the cancellation and the `ByID` and
`Update` it makes succeed, the step records exactly the re-fetch by `ID` and
the `Update` of the fetched record with `State` `Cancelled` (every other field
as fetched), invokes no callback, and the loop returns after that `Update`
(with its nil result), whatever events would follow.  On the in-memory history, a loop that has
completed `j` timer steps on a record that is not `Paused` (within the `int64`
range) and then services the cancellation leaves the record persisted with
state `Cancelled` and the initial `ActualDuration` plus exactly `j` seconds. -/
theorem tick_cancel {σ : Type} (r : Repository σ) (id : Int) (w : World σ)
    (rest : List TickEvent)
    (hby : (r.ByID id w.store).1.2 = none)
    (hup : (r.Update { (r.ByID id w.store).1.1 with State := StateCancelled }
      (r.ByID id w.store).2).1 = none)
    (s : Store) (t : List Event) (x : Interval) (j : Nat)
    (hx : lookup id s = some x) (hrun : x.State ≠ StatePaused)
    (hlo : -(2 ^ 63) ≤ x.ActualDuration) (hhi : x.ActualDuration + j * Second < 2 ^ 63) :
    tickLoop r id (TickEvent.cancel :: rest) w =
        (Outcome.returned none,
          ⟨(r.Update { (r.ByID id w.store).1.1 with State := StateCancelled }
              (r.ByID id w.store).2).2,
            w.trace ++ [Event.byID id,
              Event.update { (r.ByID id w.store).1.1 with State := StateCancelled }]⟩) ∧
      ({ (r.ByID id w.store).1.1 with State := StateCancelled } : Interval) =
        ⟨(r.ByID id w.store).1.1.ID, (r.ByID id w.store).1.1.StartTime,
          (r.ByID id w.store).1.1.PlannedDuration, (r.ByID id w.store).1.1.ActualDuration,
          (r.ByID id w.store).1.1.Category, StateCancelled⟩ ∧
      callbackCount (tickLoop r id (TickEvent.cancel :: rest) w).2.trace
        = callbackCount w.trace ∧
      (∃ err, (tickLoop memRepo id
          (List.replicate j TickEvent.timer ++ TickEvent.cancel :: rest) ⟨s, t⟩).1
            = Outcome.returned err) ∧
      lookup id (tickLoop memRepo id
          (List.replicate j TickEvent.timer ++ TickEvent.cancel :: rest) ⟨s, t⟩).2.store =
        some { x with ActualDuration := x.ActualDuration + j * Second,
                      State := StateCancelled } := by
  have hloop : tickLoop r id (TickEvent.cancel :: rest) w =
      (Outcome.returned none,
        ⟨(r.Update { (r.ByID id w.store).1.1 with State := StateCancelled }
            (r.ByID id w.store).2).2,
          w.trace ++ [Event.byID id,
            Event.update { (r.ByID id w.store).1.1 with State := StateCancelled }]⟩) := by
    simp only [tickLoop, tickStep_cancel_of_ok r id w hby, hup]
  obtain ⟨s2, t2, hmem, hl, _⟩ :=
    tickLoop_mem_timers id (TickEvent.cancel :: rest) j s t x hx hrun hlo hhi
  obtain ⟨s3, hstep, hl3⟩ := tickStep_mem_cancel id s2 t2 _ hl
  have hfin : tickLoop memRepo id (TickEvent.cancel :: rest) ⟨s2, t2⟩ =
      (Outcome.returned none, ⟨s3, t2 ++ [Event.byID id,
        Event.update { x with ActualDuration := x.ActualDuration + j * Second,
                              State := StateCancelled }]⟩) := by
    simp only [tickLoop, hstep]
  refine ⟨hloop, rfl, ?_, ?_, ?_⟩
  · rw [hloop, callbackCount_append]
    simp [callbackCount]
  · rw [hmem, hfin]
    exact ⟨none, rfl⟩
  · rw [hmem, hfin]
    exact hl3

theorem tick_cancel_witness :
    lookup 1 (tickLoop memRepo 1
        (List.replicate 3 TickEvent.timer ++ TickEvent.cancel :: [TickEvent.timer])
        ⟨[⟨1, 7, 25 * Second, 5 * Second, "Pomodoro", 1⟩], []⟩).2.store =
      some { (⟨1, 7, 25 * Second, 5 * Second, "Pomodoro", 1⟩ : Interval) with
        ActualDuration :=
          (⟨1, 7, 25 * Second, 5 * Second, "Pomodoro", 1⟩ : Interval).ActualDuration
            + (3 : Nat) * Second,
        State := StateCancelled } :=
  (tick_cancel memRepo 1 ⟨[⟨1, 7, 25 * Second, 5 * Second, "Pomodoro", 1⟩], []⟩
    [TickEvent.timer] (by decide) (by decide)
    [⟨1, 7, 25 * Second, 5 * Second, "Pomodoro", 1⟩] [] ⟨1, 7, 25 * Second, 5 * Second,
      "Pomodoro", 1⟩ 3 (by decide) (by decide) (by decide) (by decide)).2.2.2.2

/-! ## Tick loop: results and failures -/

theorem tickLoop_of_returned {σ : Type} (r : Repository σ) (id : Int) (ev : TickEvent)
    (rest : List TickEvent) (w : World σ) (err : Option Error)
    (h : (tickStep r id ev w).1 = some err) :
    tickLoop r id (ev :: rest) w = (Outcome.returned err, (tickStep r id ev w).2) := by
  simp only [tickLoop, h]

theorem tickLoop_of_continue {σ : Type} (r : Repository σ) (id : Int) (ev : TickEvent)
    (rest : List TickEvent) (w : World σ) (h : (tickStep r id ev w).1 = none) :
    tickLoop r id (ev :: rest) w = tickLoop r id rest (tickStep r id ev w).2 := by
  simp only [tickLoop, h]

theorem tick_of_fetch_ok {σ : Type} (id : Int) (config : IntervalConfig σ)
    (schedule : List TickEvent) (w : World σ) (hby : (config.repo.ByID id w.store).1.2 = none) :
    tick id config schedule w =
      tickLoop config.repo id schedule
        ⟨(config.repo.ByID id w.store).2,
          w.trace ++ [Event.newTicker Second, Event.byID id,
            Event.after (wrapInt64 ((config.repo.ByID id w.store).1.1.PlannedDuration -
              (config.repo.ByID id w.store).1.1.ActualDuration)),
            Event.onStart (config.repo.ByID id w.store).1.1]⟩ := by
  unfold tick
  simp [callByID, emit, hby]

theorem tick_of_fetch_error {σ : Type} (id : Int) (config : IntervalConfig σ)
    (schedule : List TickEvent) (w : World σ) (hby : (config.repo.ByID id w.store).1.2 ≠ none) :
    tick id config schedule w =
      (Outcome.returned (config.repo.ByID id w.store).1.2,
        ⟨(config.repo.ByID id w.store).2,
          w.trace ++ [Event.newTicker Second, Event.byID id]⟩) := by
  unfold tick
  simp [callByID, emit, hby]

theorem tickStep_fetch_error {σ : Type} (r : Repository σ) (id : Int) (ev : TickEvent)
    (w : World σ) (hby : (r.ByID id w.store).1.2 ≠ none) :
    tickStep r id ev w =
      (some (r.ByID id w.store).1.2, ⟨(r.ByID id w.store).2, w.trace ++ [Event.byID id]⟩) := by
  unfold tickStep
  cases ev <;> simp [callByID, hby]

theorem tickStep_timer_paused {σ : Type} (r : Repository σ) (id : Int) (w : World σ)
    (hby : (r.ByID id w.store).1.2 = none)
    (hp : (r.ByID id w.store).1.1.State = StatePaused) :
    tickStep r id TickEvent.timer w =
      (some none, ⟨(r.ByID id w.store).2, w.trace ++ [Event.byID id]⟩) := by
  unfold tickStep
  simp [callByID, hby, hp]

theorem tickStep_timer_of_ok {σ : Type} (r : Repository σ) (id : Int) (w : World σ)
    (hby : (r.ByID id w.store).1.2 = none)
    (hp : (r.ByID id w.store).1.1.State ≠ StatePaused) :
    tickStep r id TickEvent.timer w =
      if (r.Update { (r.ByID id w.store).1.1 with
            ActualDuration := wrapInt64 ((r.ByID id w.store).1.1.ActualDuration + Second) }
          (r.ByID id w.store).2).1 ≠ none then
        (some (r.Update { (r.ByID id w.store).1.1 with
              ActualDuration := wrapInt64 ((r.ByID id w.store).1.1.ActualDuration + Second) }
            (r.ByID id w.store).2).1,
          ⟨(r.Update { (r.ByID id w.store).1.1 with
                ActualDuration := wrapInt64 ((r.ByID id w.store).1.1.ActualDuration + Second) }
              (r.ByID id w.store).2).2,
            w.trace ++ [Event.byID id,
              Event.update { (r.ByID id w.store).1.1 with
                ActualDuration :=
                  wrapInt64 ((r.ByID id w.store).1.1.ActualDuration + Second) }]⟩)
      else
        (none,
          ⟨(r.Update { (r.ByID id w.store).1.1 with
                ActualDuration := wrapInt64 ((r.ByID id w.store).1.1.ActualDuration + Second) }
              (r.ByID id w.store).2).2,
            w.trace ++ [Event.byID id,
              Event.update { (r.ByID id w.store).1.1 with
                ActualDuration :=
                  wrapInt64 ((r.ByID id w.store).1.1.ActualDuration + Second) },
              Event.onPeriodic { (r.ByID id w.store).1.1 with
                ActualDuration :=
                  wrapInt64 ((r.ByID id w.store).1.1.ActualDuration + Second) }]⟩) := by
  unfold tickStep
  simp only [callByID, callUpdate, emit, hby, hp]
  split_ifs <;> simp_all

theorem Start_mem_tickLoop (p sb lb : Int) (i : Interval) (now : Int)
    (schedule : List TickEvent) (s : Store) (t : List Event) (x : Interval)
    (h : i.State = StateNotStarted ∨ i.State = StatePaused)
    (hx : lookup i.ID s = some x) :
    ∃ s2, overwrite
          { i with StartTime := if i.State = StateNotStarted then now else i.StartTime,
                   State := StateRunning } s = some s2 ∧
      lookup i.ID s2 =
        some { x with StartTime := if i.State = StateNotStarted then now else i.StartTime,
                      ActualDuration := i.ActualDuration, State := StateRunning } ∧
      i.Start now (memConfig p sb lb) schedule ⟨s, t⟩ =
        tickLoop memRepo i.ID schedule
          ⟨s2, t ++ [Event.update
              { i with StartTime := if i.State = StateNotStarted then now else i.StartTime,
                       State := StateRunning },
            Event.newTicker Second, Event.byID i.ID,
            Event.after (wrapInt64 (x.PlannedDuration - i.ActualDuration)),
            Event.onStart
              { x with StartTime := if i.State = StateNotStarted then now else i.StartTime,
                       ActualDuration := i.ActualDuration, State := StateRunning }]⟩ := by
  obtain ⟨s2, h1, h2⟩ := overwrite_lookup
    { i with StartTime := if i.State = StateNotStarted then now else i.StartTime,
             State := StateRunning } s x hx
  refine ⟨s2, h1, h2, ?_⟩
  have hup : memRepo.Update
      { i with StartTime := if i.State = StateNotStarted then now else i.StartTime,
               State := StateRunning } s = (none, s2) := by
    rw [memRepo_Update]
    simp only [h1]
  have hby : memRepo.ByID i.ID s2 =
      (({ x with StartTime := if i.State = StateNotStarted then now else i.StartTime,
                 ActualDuration := i.ActualDuration, State := StateRunning }, none), s2) := by
    rw [memRepo_ByID]
    simp only [] at h2
    simp only [h2]
  rw [Start_of_startable i now (memConfig p sb lb) schedule ⟨s, t⟩ h]
  simp only [memConfig_repo, hup]
  rw [if_neg (by simp), tick_of_fetch_ok _ _ _ _ (by simp [memConfig_repo, hby])]
  simp [memConfig_repo, hby]

/-- C21 (as stated, refuted): interval 1 is started and its loop services the
cancellation with every repository call succeeding; the record is persisted
as `Cancelled`, but the result of `Start` is the nil error, the very result of
a run that ends by the deadline. -/
theorem cancellation_returns_nil :
    ((⟨1, 0, 1500, 0, "Pomodoro", 0⟩ : Interval).Start 77 (memConfig 1500 300 900)
        [TickEvent.cancel] ⟨[⟨1, 0, 1500, 0, "Pomodoro", 0⟩], []⟩).1 = Outcome.returned none ∧
      ((⟨1, 0, 1500, 0, "Pomodoro", 0⟩ : Interval).Start 77 (memConfig 1500 300 900)
        [TickEvent.cancel] ⟨[⟨1, 0, 1500, 0, "Pomodoro", 0⟩], []⟩).2.store
        = [⟨1, 77, 1500, 0, "Pomodoro", 4⟩] ∧
      ((⟨1, 0, 1500, 0, "Pomodoro", 0⟩ : Interval).Start 77 (memConfig 1500 300 900)
        [TickEvent.expire] ⟨[⟨1, 0, 1500, 0, "Pomodoro", 0⟩], []⟩).1 = Outcome.returned none := by
  decide

/-- C21 (amended): when the tick loop services the cancellation and its
re-fetch and `Update` succeed, the result of the loop is the result of that
`Update`, the nil error, exactly as for a deadline step whose calls succeed;
and on the in-memory history `Start` on a `NotStarted` or `Paused` receiver
whose record is stored returns that nil error both when its loop services the
cancellation and when it services the deadline, the two runs differing only in
the persisted `State`. -/
theorem cancel_result_is_nil {σ : Type} (r : Repository σ) (id : Int) (w : World σ)
    (rest : List TickEvent)
    (hby : (r.ByID id w.store).1.2 = none)
    (hup : (r.Update { (r.ByID id w.store).1.1 with State := StateCancelled }
      (r.ByID id w.store).2).1 = none)
    (p sb lb : Int) (i : Interval) (now : Int) (s : Store) (t : List Event) (x : Interval)
    (h : i.State = StateNotStarted ∨ i.State = StatePaused)
    (hx : lookup i.ID s = some x) :
    (tickLoop r id (TickEvent.cancel :: rest) w).1 = Outcome.returned none ∧
      ((r.Update { (r.ByID id w.store).1.1 with State := StateDone }
          (r.ByID id w.store).2).1 = none →
        (tickLoop r id (TickEvent.expire :: rest) w).1 = Outcome.returned none) ∧
      (i.Start now (memConfig p sb lb) (TickEvent.cancel :: rest) ⟨s, t⟩).1
        = Outcome.returned none ∧
      (i.Start now (memConfig p sb lb) (TickEvent.expire :: rest) ⟨s, t⟩).1
        = Outcome.returned none ∧
      (∃ y, lookup i.ID
          (i.Start now (memConfig p sb lb) (TickEvent.cancel :: rest) ⟨s, t⟩).2.store = some y ∧
        y.State = StateCancelled) ∧
      (∃ y, lookup i.ID
          (i.Start now (memConfig p sb lb) (TickEvent.expire :: rest) ⟨s, t⟩).2.store = some y ∧
        y.State = StateDone) := by
  obtain ⟨s2, _, hl2, hc⟩ := Start_mem_tickLoop p sb lb i now (TickEvent.cancel :: rest) s t x h hx
  obtain ⟨s2e, hov, _, he⟩ := Start_mem_tickLoop p sb lb i now (TickEvent.expire :: rest) s t x h hx
  have hs : s2e = s2 := by
    have := hov
    simp_all
  subst hs
  obtain ⟨s3, hcs, hcl⟩ := tickStep_mem_cancel i.ID s2e
    (t ++ [Event.update
        { i with StartTime := if i.State = StateNotStarted then now else i.StartTime,
                 State := StateRunning },
      Event.newTicker Second, Event.byID i.ID,
      Event.after (wrapInt64 (x.PlannedDuration - i.ActualDuration)),
      Event.onStart
        { x with StartTime := if i.State = StateNotStarted then now else i.StartTime,
                 ActualDuration := i.ActualDuration, State := StateRunning }]) _ hl2
  obtain ⟨s4, hes, hel⟩ := tickStep_mem_expire i.ID s2e
    (t ++ [Event.update
        { i with StartTime := if i.State = StateNotStarted then now else i.StartTime,
                 State := StateRunning },
      Event.newTicker Second, Event.byID i.ID,
      Event.after (wrapInt64 (x.PlannedDuration - i.ActualDuration)),
      Event.onStart
        { x with StartTime := if i.State = StateNotStarted then now else i.StartTime,
                 ActualDuration := i.ActualDuration, State := StateRunning }]) _ hl2
  refine ⟨?_, ?_, ?_, ?_, ?_, ?_⟩
  · rw [tickLoop_of_returned r id _ rest w none
      (by rw [tickStep_cancel_of_ok r id w hby, hup])]
  · intro hd
    rw [tickLoop_of_returned r id _ rest w none
      (by rw [tickStep_expire_of_ok r id w hby, hd])]
  · rw [hc, tickLoop_of_returned memRepo i.ID _ rest _ none (by rw [hcs])]
  · rw [he, tickLoop_of_returned memRepo i.ID _ rest _ none (by rw [hes])]
  · rw [hc, tickLoop_of_returned memRepo i.ID _ rest _ none (by rw [hcs]), hcs]
    exact ⟨_, hcl, rfl⟩
  · rw [he, tickLoop_of_returned memRepo i.ID _ rest _ none (by rw [hes]), hes]
    exact ⟨_, hel, rfl⟩

theorem cancel_result_is_nil_witness :
    (tickLoop memRepo 1 (TickEvent.cancel :: [TickEvent.timer])
        ⟨[⟨1, 7, 1500, 20, "Pomodoro", 1⟩], []⟩).1 = Outcome.returned none ∧
      ((⟨1, 7, 1500, 20, "Pomodoro", 2⟩ : Interval).Start 99 (memConfig 1500 300 900)
        (TickEvent.cancel :: [TickEvent.timer]) ⟨[⟨1, 7, 1500, 20, "Pomodoro", 2⟩], []⟩).1
        = Outcome.returned none :=
  ⟨(cancel_result_is_nil memRepo 1 ⟨[⟨1, 7, 1500, 20, "Pomodoro", 1⟩], []⟩ [TickEvent.timer]
      (by decide) (by decide) 1500 300 900 ⟨1, 7, 1500, 20, "Pomodoro", 2⟩ 99
      [⟨1, 7, 1500, 20, "Pomodoro", 2⟩] [] ⟨1, 7, 1500, 20, "Pomodoro", 2⟩
      (Or.inr (by decide)) (by decide)).1,
   (cancel_result_is_nil memRepo 1 ⟨[⟨1, 7, 1500, 20, "Pomodoro", 1⟩], []⟩ [TickEvent.timer]
      (by decide) (by decide) 1500 300 900 ⟨1, 7, 1500, 20, "Pomodoro", 2⟩ 99
      [⟨1, 7, 1500, 20, "Pomodoro", 2⟩] [] ⟨1, 7, 1500, 20, "Pomodoro", 2⟩
      (Or.inr (by decide)) (by decide)).2.2.1⟩

/-- C22: every repository error inside the tick loop ends it at once, for any
events that would follow.  (1) If the initial `ByID` fails, `tick` returns that
error having recorded only the ticker and that `ByID`: `start` is not invoked.
(2) If the re-fetch of a step fails, the loop returns that error and the
`ByID` is the last action recorded.  (3) If the `Update` of a timer step
fails, the loop returns that error and the `Update` is the last action
recorded: `periodic` is not invoked.  (4), (5) If the `Update` of a deadline
or cancellation step fails, the loop returns that error and the `Update` is
the last action recorded. -/
theorem tick_errors_fatal {σ : Type} (config : IntervalConfig σ) (id : Int) (w : World σ)
    (ev : TickEvent) (rest : List TickEvent) :
    ((config.repo.ByID id w.store).1.2 ≠ none →
        tick id config (ev :: rest) w =
          (Outcome.returned (config.repo.ByID id w.store).1.2,
            ⟨(config.repo.ByID id w.store).2,
              w.trace ++ [Event.newTicker Second, Event.byID id]⟩)) ∧
      ((config.repo.ByID id w.store).1.2 ≠ none →
        tickLoop config.repo id (ev :: rest) w =
          (Outcome.returned (config.repo.ByID id w.store).1.2,
            ⟨(config.repo.ByID id w.store).2, w.trace ++ [Event.byID id]⟩)) ∧
      ((config.repo.ByID id w.store).1.2 = none →
        (config.repo.ByID id w.store).1.1.State ≠ StatePaused →
        (config.repo.Update { (config.repo.ByID id w.store).1.1 with
            ActualDuration :=
              wrapInt64 ((config.repo.ByID id w.store).1.1.ActualDuration + Second) }
          (config.repo.ByID id w.store).2).1 ≠ none →
        tickLoop config.repo id (TickEvent.timer :: rest) w =
          (Outcome.returned (config.repo.Update { (config.repo.ByID id w.store).1.1 with
              ActualDuration :=
                wrapInt64 ((config.repo.ByID id w.store).1.1.ActualDuration + Second) }
            (config.repo.ByID id w.store).2).1,
            ⟨(config.repo.Update { (config.repo.ByID id w.store).1.1 with
                ActualDuration :=
                  wrapInt64 ((config.repo.ByID id w.store).1.1.ActualDuration + Second) }
              (config.repo.ByID id w.store).2).2,
              w.trace ++ [Event.byID id,
                Event.update { (config.repo.ByID id w.store).1.1 with
                  ActualDuration :=
                    wrapInt64 ((config.repo.ByID id w.store).1.1.ActualDuration + Second) }]⟩)) ∧
      ((config.repo.ByID id w.store).1.2 = none →
        (config.repo.Update { (config.repo.ByID id w.store).1.1 with State := StateDone }
          (config.repo.ByID id w.store).2).1 ≠ none →
        tickLoop config.repo id (TickEvent.expire :: rest) w =
          (Outcome.returned
            (config.repo.Update { (config.repo.ByID id w.store).1.1 with State := StateDone }
              (config.repo.ByID id w.store).2).1,
            ⟨(config.repo.Update { (config.repo.ByID id w.store).1.1 with State := StateDone }
                (config.repo.ByID id w.store).2).2,
              w.trace ++ [Event.byID id,
                Event.onEnd { (config.repo.ByID id w.store).1.1 with State := StateDone },
                Event.update { (config.repo.ByID id w.store).1.1 with
                  State := StateDone }]⟩)) ∧
      ((config.repo.ByID id w.store).1.2 = none →
        (config.repo.Update { (config.repo.ByID id w.store).1.1 with State := StateCancelled }
          (config.repo.ByID id w.store).2).1 ≠ none →
        tickLoop config.repo id (TickEvent.cancel :: rest) w =
          (Outcome.returned
            (config.repo.Update { (config.repo.ByID id w.store).1.1 with
                State := StateCancelled }
              (config.repo.ByID id w.store).2).1,
            ⟨(config.repo.Update { (config.repo.ByID id w.store).1.1 with
                  State := StateCancelled }
                (config.repo.ByID id w.store).2).2,
              w.trace ++ [Event.byID id,
                Event.update { (config.repo.ByID id w.store).1.1 with
                  State := StateCancelled }]⟩)) := by
  refine ⟨?_, ?_, ?_, ?_, ?_⟩
  · intro hby
    exact tick_of_fetch_error id config _ w hby
  · intro hby
    rw [tickLoop_of_returned config.repo id ev rest w (config.repo.ByID id w.store).1.2
      (by rw [tickStep_fetch_error config.repo id ev w hby])]
    rw [tickStep_fetch_error config.repo id ev w hby]
  · intro hby hp hup
    have hstep := tickStep_timer_of_ok config.repo id w hby hp
    rw [if_pos hup] at hstep
    rw [tickLoop_of_returned config.repo id _ rest w _ (by rw [hstep]), hstep]
  · intro hby _
    have hstep := tickStep_expire_of_ok config.repo id w hby
    rw [tickLoop_of_returned config.repo id _ rest w _ (by rw [hstep]), hstep]
  · intro hby _
    have hstep := tickStep_cancel_of_ok config.repo id w hby
    rw [tickLoop_of_returned config.repo id _ rest w _ (by rw [hstep]), hstep]

theorem tick_errors_fatal_witness :
    (tickLoop (⟨brokenUpdateRepo, 1500, 300, 900⟩ : IntervalConfig Store).repo 1
        (TickEvent.timer :: [TickEvent.timer, TickEvent.expire])
        ⟨[⟨1, 7, 1500, 20, "Pomodoro", 1⟩], []⟩).1 =
      Outcome.returned (some (Error.other "disk full")) :=
  congrArg Prod.fst
    ((tick_errors_fatal ⟨brokenUpdateRepo, 1500, 300, 900⟩ 1
      ⟨[⟨1, 7, 1500, 20, "Pomodoro", 1⟩], []⟩ TickEvent.timer
      [TickEvent.timer, TickEvent.expire]).2.2.1 (by decide) (by decide) (by decide))

/-! ## Tick loop: the completion deadline -/

theorem afterCount_append (t u : List Event) :
    afterCount (t ++ u) = afterCount t + afterCount u := by
  simp [afterCount, List.filter_append]

theorem tickStep_afterCount {σ : Type} (r : Repository σ) (id : Int) (ev : TickEvent)
    (w : World σ) : afterCount (tickStep r id ev w).2.trace = afterCount w.trace := by
  unfold tickStep
  cases ev <;> simp only [callByID, callUpdate, emit] <;> split_ifs <;>
    simp [afterCount, List.filter_append]

theorem tickLoop_afterCount {σ : Type} (r : Repository σ) (id : Int)
    (schedule : List TickEvent) :
    ∀ w : World σ, afterCount (tickLoop r id schedule w).2.trace = afterCount w.trace := by
  induction schedule with
  | nil => intro w; rfl
  | cons ev rest ih =>
    intro w
    cases hs : (tickStep r id ev w).1 with
    | some err =>
      rw [tickLoop_of_returned r id ev rest w err hs]
      exact tickStep_afterCount r id ev w
    | none =>
      rw [tickLoop_of_continue r id ev rest w hs, ih]
      exact tickStep_afterCount r id ev w

theorem tickLoop_no_after {σ : Type} (r : Repository σ) (id : Int)
    (schedule : List TickEvent) (w : World σ) :
    ∃ rest, (tickLoop r id schedule w).2.trace = w.trace ++ rest ∧ afterCount rest = 0 := by
  obtain ⟨rest, h⟩ := tickLoop_trace_extends r id schedule w
  refine ⟨rest, h, ?_⟩
  have h2 := tickLoop_afterCount r id schedule w
  rw [h, afterCount_append] at h2
  omega

/-- C23: in a run of `tick` whose initial fetch succeeds, exactly one deadline
timer is armed, right after that fetch and before `start` and every step of
the loop, for the (`int64`) difference `PlannedDuration - ActualDuration` of
the fetched record; no step of the loop arms another one.  On the in-memory
history, `Start` on a `Paused` receiver whose record is stored arms the
deadline for the stored `PlannedDuration` minus the accumulated
`ActualDuration` carried by the receiver, which is less than the full
`PlannedDuration` as soon as some duration has accumulated. -/
theorem deadline_fixed_at_start {σ : Type} (id : Int) (config : IntervalConfig σ)
    (schedule : List TickEvent) (w : World σ)
    (hby : (config.repo.ByID id w.store).1.2 = none)
    (p sb lb : Int) (i : Interval) (now : Int) (s : Store) (t : List Event) (x : Interval)
    (hpaused : i.State = StatePaused) (hx : lookup i.ID s = some x) :
    (∃ rest, (tick id config schedule w).2.trace =
        w.trace ++ [Event.newTicker Second, Event.byID id,
          Event.after (wrapInt64 ((config.repo.ByID id w.store).1.1.PlannedDuration -
            (config.repo.ByID id w.store).1.1.ActualDuration)),
          Event.onStart (config.repo.ByID id w.store).1.1] ++ rest ∧
        afterCount rest = 0) ∧
      (-(2 ^ 63) ≤ (config.repo.ByID id w.store).1.1.PlannedDuration -
          (config.repo.ByID id w.store).1.1.ActualDuration →
        (config.repo.ByID id w.store).1.1.PlannedDuration -
          (config.repo.ByID id w.store).1.1.ActualDuration < 2 ^ 63 →
        wrapInt64 ((config.repo.ByID id w.store).1.1.PlannedDuration -
            (config.repo.ByID id w.store).1.1.ActualDuration) =
          (config.repo.ByID id w.store).1.1.PlannedDuration -
            (config.repo.ByID id w.store).1.1.ActualDuration) ∧
      (∃ rest, (i.Start now (memConfig p sb lb) schedule ⟨s, t⟩).2.trace =
        t ++ [Event.update { i with State := StateRunning },
          Event.newTicker Second, Event.byID i.ID,
          Event.after (wrapInt64 (x.PlannedDuration - i.ActualDuration)),
          Event.onStart { x with StartTime := i.StartTime, ActualDuration := i.ActualDuration,
                                 State := StateRunning }] ++ rest ∧
        afterCount rest = 0) ∧
      (0 < i.ActualDuration → i.ActualDuration ≤ x.PlannedDuration →
        x.PlannedDuration < 2 ^ 63 →
        (wrapInt64 (x.PlannedDuration - i.ActualDuration) =
            x.PlannedDuration - i.ActualDuration ∧
          wrapInt64 (x.PlannedDuration - i.ActualDuration) < x.PlannedDuration)) := by
  refine ⟨?_, ?_, ?_, ?_⟩
  · rw [tick_of_fetch_ok id config schedule w hby]
    exact tickLoop_no_after config.repo id schedule _
  · intro hlo hhi
    exact wrapInt64_id _ hlo hhi
  · have hns : ¬ i.State = StateNotStarted := by rw [hpaused]; decide
    obtain ⟨s2, _, _, hstart⟩ :=
      Start_mem_tickLoop p sb lb i now schedule s t x (Or.inr hpaused) hx
    simp only [hns, if_false] at hstart
    rw [hstart]
    obtain ⟨rest, hrest, hcount⟩ := tickLoop_no_after memRepo i.ID schedule
      ⟨s2, t ++ [Event.update { i with State := StateRunning },
        Event.newTicker Second, Event.byID i.ID,
        Event.after (wrapInt64 (x.PlannedDuration - i.ActualDuration)),
        Event.onStart { x with StartTime := i.StartTime, ActualDuration := i.ActualDuration,
                               State := StateRunning }]⟩
    exact ⟨rest, hrest, hcount⟩
  · intro hpos hle hmax
    have hw := wrapInt64_id (x.PlannedDuration - i.ActualDuration) (by omega) (by omega)
    rw [hw]
    exact ⟨rfl, by omega⟩

theorem deadline_fixed_at_start_witness :
    ∃ rest, ((⟨1, 7, 25 * Second, 10 * Second, "Pomodoro", 2⟩ : Interval).Start 99
        (memConfig 1500 300 900) [TickEvent.timer]
        ⟨[⟨1, 7, 25 * Second, 10 * Second, "Pomodoro", 2⟩], []⟩).2.trace =
      [] ++ [Event.update { (⟨1, 7, 25 * Second, 10 * Second, "Pomodoro", 2⟩ : Interval) with
            State := StateRunning },
          Event.newTicker Second, Event.byID 1,
          Event.after (wrapInt64 (25 * Second - 10 * Second)),
          Event.onStart { (⟨1, 7, 25 * Second, 10 * Second, "Pomodoro", 2⟩ : Interval) with
            StartTime := 7, ActualDuration := 10 * Second, State := StateRunning }] ++ rest ∧
      afterCount rest = 0 :=
  (deadline_fixed_at_start 1 (memConfig 1500 300 900) [TickEvent.timer]
    ⟨[⟨1, 7, 25 * Second, 10 * Second, "Pomodoro", 2⟩], []⟩ (by decide)
    1500 300 900 ⟨1, 7, 25 * Second, 10 * Second, "Pomodoro", 2⟩ 99
    [⟨1, 7, 25 * Second, 10 * Second, "Pomodoro", 2⟩] []
    ⟨1, 7, 25 * Second, 10 * Second, "Pomodoro", 2⟩ (by decide) (by decide)).2.2.1

/-! ## Tick loop: a `Pause` racing with a timer step -/

theorem tickStep_timer_split {σ : Type} (r : Repository σ) (id : Int) (w : World σ) :
    tickStep r id TickEvent.timer w =
      timerCommit r (callByID r id w).1 (callByID r id w).2 := rfl

theorem Pause_mem (p sb lb : Int) (i : Interval) (s : Store) (t : List Event) (x : Interval)
    (hrun : i.State = StateRunning) (hx : lookup i.ID s = some x) :
    ∃ s1, i.Pause (memConfig p sb lb) ⟨s, t⟩ =
        (none, ⟨s1, t ++ [Event.update { i with State := StatePaused }]⟩) ∧
      lookup i.ID s1 = some { x with StartTime := i.StartTime,
                                     ActualDuration := i.ActualDuration,
                                     State := StatePaused } := by
  obtain ⟨s1, h1, h2⟩ := overwrite_lookup { i with State := StatePaused } s x hx
  refine ⟨s1, ?_, h2⟩
  unfold Interval.Pause
  simp [hrun, callUpdate, memConfig_repo, memRepo_Update, h1]

/-- C24 (as stated, refuted): the loop of interval 1 re-fetches the record
(`Running`, 5 s); another task then calls `Pause` on its copy of interval 1,
which succeeds and persists `Paused`; the loop goes on with the record it
fetched and persists it with 6 s and `State` `Running`: the persisted `Paused`
is overwritten, `periodic` is invoked and the loop continues. -/
theorem pause_lost_in_timer_step :
    ((⟨1, 7, 25 * Second, 5 * Second, "Pomodoro", 1⟩ : Interval).Pause (memConfig 1500 300 900)
        (callByID (memConfig 1500 300 900).repo 1
          ⟨[⟨1, 7, 25 * Second, 5 * Second, "Pomodoro", 1⟩], []⟩).2).1 = none ∧
      ((⟨1, 7, 25 * Second, 5 * Second, "Pomodoro", 1⟩ : Interval).Pause
        (memConfig 1500 300 900)
        (callByID (memConfig 1500 300 900).repo 1
          ⟨[⟨1, 7, 25 * Second, 5 * Second, "Pomodoro", 1⟩], []⟩).2).2.store
        = [⟨1, 7, 25 * Second, 5 * Second, "Pomodoro", 2⟩] ∧
      (timerStepWithPause (memConfig 1500 300 900) 1
        ⟨1, 7, 25 * Second, 5 * Second, "Pomodoro", 1⟩
        ⟨[⟨1, 7, 25 * Second, 5 * Second, "Pomodoro", 1⟩], []⟩).1 = none ∧
      (timerStepWithPause (memConfig 1500 300 900) 1
        ⟨1, 7, 25 * Second, 5 * Second, "Pomodoro", 1⟩
        ⟨[⟨1, 7, 25 * Second, 5 * Second, "Pomodoro", 1⟩], []⟩).2.store
        = [⟨1, 7, 25 * Second, 6 * Second, "Pomodoro", 1⟩] ∧
      (timerStepWithPause (memConfig 1500 300 900) 1
        ⟨1, 7, 25 * Second, 5 * Second, "Pomodoro", 1⟩
        ⟨[⟨1, 7, 25 * Second, 5 * Second, "Pomodoro", 1⟩], []⟩).2.trace
        = [Event.byID 1, Event.update ⟨1, 7, 25 * Second, 5 * Second, "Pomodoro", 2⟩,
            Event.update ⟨1, 7, 25 * Second, 6 * Second, "Pomodoro", 1⟩,
            Event.onPeriodic ⟨1, 7, 25 * Second, 6 * Second, "Pomodoro", 1⟩] := by
  decide

/-- C24 (amended): on the in-memory history, for a stored record of interval
`id` that is not `Paused` and a `Running` receiver with that identifier:
(1) a `Pause` persisted before the re-fetch of a timer step is observed by
that step, which returns a nil error after its `ByID` without any `Update`, so
the persisted `Paused` is kept; (2) a `Pause` persisted between the re-fetch
of a timer step and its `Update` is overwritten: the step writes back the
`State` it fetched with the incremented `ActualDuration` and goes on
looping. -/
theorem pause_seen_only_at_refetch (p sb lb : Int) (id : Int) (s : Store) (t : List Event)
    (x i : Interval) (hx : lookup id s = some x) (hxs : x.State ≠ StatePaused)
    (hid : i.ID = id) (hrun : i.State = StateRunning) :
    (∃ y, tickStep memRepo id TickEvent.timer (i.Pause (memConfig p sb lb) ⟨s, t⟩).2 =
          (some none, ⟨(i.Pause (memConfig p sb lb) ⟨s, t⟩).2.store,
            (i.Pause (memConfig p sb lb) ⟨s, t⟩).2.trace ++ [Event.byID id]⟩) ∧
        lookup id (i.Pause (memConfig p sb lb) ⟨s, t⟩).2.store = some y ∧
        y.State = StatePaused) ∧
      (∃ y, (timerStepWithPause (memConfig p sb lb) id i ⟨s, t⟩).1 = none ∧
        lookup id (timerStepWithPause (memConfig p sb lb) id i ⟨s, t⟩).2.store = some y ∧
        y.State = x.State ∧ y.State ≠ StatePaused ∧
        y.ActualDuration = wrapInt64 (x.ActualDuration + Second)) := by
  subst hid
  have hxid : x.ID = i.ID := lookup_id i.ID s x hx
  constructor
  · obtain ⟨s1, hp, hl⟩ := Pause_mem p sb lb i s t x hrun hx
    have hby : memRepo.ByID i.ID s1 =
        (({ x with StartTime := i.StartTime, ActualDuration := i.ActualDuration,
                   State := StatePaused }, none), s1) := by
      rw [memRepo_ByID, hl]
    refine ⟨{ x with StartTime := i.StartTime, ActualDuration := i.ActualDuration,
                     State := StatePaused }, ?_, ?_, rfl⟩
    · rw [hp]
      have h := tickStep_timer_paused memRepo i.ID
        ⟨s1, t ++ [Event.update { i with State := StatePaused }]⟩
        (by simp [hby]) (by simp [hby])
      rw [h]
      simp [hby]
    · rw [hp]; exact hl
  · have hfetch : callByID (memConfig p sb lb).repo i.ID ⟨s, t⟩ =
        ((x, none), ⟨s, t ++ [Event.byID i.ID]⟩) := by
      simp [callByID, memConfig_repo, memRepo_ByID, hx]
    obtain ⟨s1, hp, hl⟩ := Pause_mem p sb lb i s (t ++ [Event.byID i.ID]) x hrun hx
    obtain ⟨s2, ho, hl2⟩ := overwrite_lookup
      { x with ActualDuration := wrapInt64 (x.ActualDuration + Second) } s1 _
      (by simpa [hxid] using hl)
    have hup : memRepo.Update
        { x with ActualDuration := wrapInt64 (x.ActualDuration + Second) } s1 = (none, s2) := by
      rw [memRepo_Update]
      simp only [ho]
    have hres : timerStepWithPause (memConfig p sb lb) i.ID i ⟨s, t⟩ =
        (none, ⟨s2, t ++ [Event.byID i.ID, Event.update { i with State := StatePaused },
          Event.update { x with ActualDuration := wrapInt64 (x.ActualDuration + Second) },
          Event.onPeriodic
            { x with ActualDuration := wrapInt64 (x.ActualDuration + Second) }]⟩) := by
      unfold timerStepWithPause
      rw [hfetch, hp]
      unfold timerCommit
      simp [hxs, callUpdate, emit, memConfig_repo, hup]
    rw [hres]
    refine ⟨{ x with ActualDuration := wrapInt64 (x.ActualDuration + Second) }, rfl, ?_,
      rfl, hxs, rfl⟩
    simpa [hxid] using hl2

theorem pause_seen_only_at_refetch_witness :
    ∃ y, (timerStepWithPause (memConfig 1500 300 900) 1
        ⟨1, 7, 25 * Second, 5 * Second, "Pomodoro", 1⟩
        ⟨[⟨1, 7, 25 * Second, 5 * Second, "Pomodoro", 1⟩], []⟩).1 = none ∧
      lookup 1 (timerStepWithPause (memConfig 1500 300 900) 1
        ⟨1, 7, 25 * Second, 5 * Second, "Pomodoro", 1⟩
        ⟨[⟨1, 7, 25 * Second, 5 * Second, "Pomodoro", 1⟩], []⟩).2.store = some y ∧
      y.State = (⟨1, 7, 25 * Second, 5 * Second, "Pomodoro", 1⟩ : Interval).State ∧
      y.State ≠ StatePaused ∧
      y.ActualDuration = wrapInt64
        ((⟨1, 7, 25 * Second, 5 * Second, "Pomodoro", 1⟩ : Interval).ActualDuration + Second) :=
  (pause_seen_only_at_refetch 1500 300 900 1
    [⟨1, 7, 25 * Second, 5 * Second, "Pomodoro", 1⟩] []
    ⟨1, 7, 25 * Second, 5 * Second, "Pomodoro", 1⟩
    ⟨1, 7, 25 * Second, 5 * Second, "Pomodoro", 1⟩
    (by decide) (by decide) (by decide) (by decide)).2

/-! ## Tick loop: the timer branch and the order of callbacks -/

/-- C27: in a timer step whose re-fetch succeeds, the loop first records that
`ByID`.  If the fetched `State` is `Paused`, the loop returns a nil error with
nothing else recorded (no `Update`, no callback).  Otherwise, when the
`Update` succeeds, the step records the `Update` of the fetched record with
`ActualDuration` increased by one second (in `int64` arithmetic, which is the
integer sum whenever that sum fits) and every other field unchanged, then one
`periodic` invocation with that same record, and the loop goes on with the
remaining events. -/
theorem timer_step {σ : Type} (r : Repository σ) (id : Int) (w : World σ)
    (rest : List TickEvent) (hby : (r.ByID id w.store).1.2 = none) :
    ((r.ByID id w.store).1.1.State = StatePaused →
        tickLoop r id (TickEvent.timer :: rest) w =
          (Outcome.returned none, ⟨(r.ByID id w.store).2, w.trace ++ [Event.byID id]⟩)) ∧
      ((r.ByID id w.store).1.1.State ≠ StatePaused →
        (r.Update { (r.ByID id w.store).1.1 with
            ActualDuration := wrapInt64 ((r.ByID id w.store).1.1.ActualDuration + Second) }
          (r.ByID id w.store).2).1 = none →
        tickLoop r id (TickEvent.timer :: rest) w =
          tickLoop r id rest
            ⟨(r.Update { (r.ByID id w.store).1.1 with
                ActualDuration :=
                  wrapInt64 ((r.ByID id w.store).1.1.ActualDuration + Second) }
              (r.ByID id w.store).2).2,
              w.trace ++ [Event.byID id,
                Event.update { (r.ByID id w.store).1.1 with
                  ActualDuration :=
                    wrapInt64 ((r.ByID id w.store).1.1.ActualDuration + Second) },
                Event.onPeriodic { (r.ByID id w.store).1.1 with
                  ActualDuration :=
                    wrapInt64 ((r.ByID id w.store).1.1.ActualDuration + Second) }]⟩) ∧
      ({ (r.ByID id w.store).1.1 with
          ActualDuration := wrapInt64 ((r.ByID id w.store).1.1.ActualDuration + Second) }
        = (⟨(r.ByID id w.store).1.1.ID, (r.ByID id w.store).1.1.StartTime,
            (r.ByID id w.store).1.1.PlannedDuration,
            wrapInt64 ((r.ByID id w.store).1.1.ActualDuration + Second),
            (r.ByID id w.store).1.1.Category, (r.ByID id w.store).1.1.State⟩ : Interval)) ∧
      (-(2 ^ 63) ≤ (r.ByID id w.store).1.1.ActualDuration →
        (r.ByID id w.store).1.1.ActualDuration + Second < 2 ^ 63 →
        wrapInt64 ((r.ByID id w.store).1.1.ActualDuration + Second) =
          (r.ByID id w.store).1.1.ActualDuration + Second) := by
  refine ⟨?_, ?_, rfl, ?_⟩
  · intro hp
    have hstep := tickStep_timer_paused r id w hby hp
    rw [tickLoop_of_returned r id _ rest w none (by rw [hstep]), hstep]
  · intro hp hup
    have hstep := tickStep_timer_of_ok r id w hby hp
    rw [if_neg (by simp [hup])] at hstep
    rw [tickLoop_of_continue r id _ rest w (by rw [hstep]), hstep]
  · intro hlo hhi
    have hs : (0 : Int) ≤ Second := by decide
    exact wrapInt64_id _ (by omega) hhi

theorem timer_step_witness :
    tickLoop memRepo 1 (TickEvent.timer :: [TickEvent.expire])
        ⟨[⟨1, 7, 1500, 20, "Pomodoro", 2⟩], []⟩ =
      (Outcome.returned none,
        ⟨(memRepo.ByID 1 [⟨1, 7, 1500, 20, "Pomodoro", 2⟩]).2, [] ++ [Event.byID 1]⟩) :=
  (timer_step memRepo 1 ⟨[⟨1, 7, 1500, 20, "Pomodoro", 2⟩], []⟩ [TickEvent.expire]
    (by decide)).1 (by decide)

theorem callbacks_append (t u : List Event) : callbacks (t ++ u) = callbacks t ++ callbacks u := by
  simp [callbacks, List.filter_append]

theorem tickStep_continue_iff {σ : Type} (r : Repository σ) (id : Int) (ev : TickEvent)
    (w : World σ) :
    (tickStep r id ev w).1 = none ↔
      (ev = TickEvent.timer ∧ (r.ByID id w.store).1.2 = none ∧
        (r.ByID id w.store).1.1.State ≠ StatePaused ∧
        (r.Update { (r.ByID id w.store).1.1 with
            ActualDuration := wrapInt64 ((r.ByID id w.store).1.1.ActualDuration + Second) }
          (r.ByID id w.store).2).1 = none) := by
  unfold tickStep
  cases ev <;> simp only [callByID, callUpdate, emit] <;> split_ifs <;> simp_all

theorem tickStep_callbacks_continue {σ : Type} (r : Repository σ) (id : Int) (ev : TickEvent)
    (w : World σ) (h : (tickStep r id ev w).1 = none) :
    callbacks (tickStep r id ev w).2.trace =
      callbacks w.trace ++ [Event.onPeriodic { (r.ByID id w.store).1.1 with
        ActualDuration := wrapInt64 ((r.ByID id w.store).1.1.ActualDuration + Second) }] := by
  obtain ⟨hev, hby, hp, hup⟩ := (tickStep_continue_iff r id ev w).1 h
  subst hev
  have hstep := tickStep_timer_of_ok r id w hby hp
  rw [if_neg (by simp [hup])] at hstep
  rw [hstep, callbacks_append]
  simp [callbacks]

theorem tickStep_callbacks_returned {σ : Type} (r : Repository σ) (id : Int) (ev : TickEvent)
    (w : World σ) (err : Option Error) (h : (tickStep r id ev w).1 = some err) :
    callbacks (tickStep r id ev w).2.trace =
      callbacks w.trace ++
        (if ev = TickEvent.expire ∧ (r.ByID id w.store).1.2 = none then
          [Event.onEnd { (r.ByID id w.store).1.1 with State := StateDone }]
        else []) := by
  by_cases hby : (r.ByID id w.store).1.2 = none
  · cases ev with
    | expire =>
      rw [tickStep_expire_of_ok r id w hby, callbacks_append]
      simp [callbacks, hby]
    | cancel =>
      rw [tickStep_cancel_of_ok r id w hby, callbacks_append]
      simp [callbacks]
    | timer =>
      by_cases hp : (r.ByID id w.store).1.1.State = StatePaused
      · rw [tickStep_timer_paused r id w hby hp, callbacks_append]
        simp [callbacks]
      · have hstep := tickStep_timer_of_ok r id w hby hp
        by_cases hup : (r.Update { (r.ByID id w.store).1.1 with
            ActualDuration := wrapInt64 ((r.ByID id w.store).1.1.ActualDuration + Second) }
            (r.ByID id w.store).2).1 ≠ none
        · rw [if_pos hup] at hstep
          rw [hstep, callbacks_append]
          simp [callbacks]
        · exfalso
          have hc := (tickStep_continue_iff r id TickEvent.timer w).2
            ⟨rfl, hby, hp, by simpa using hup⟩
          rw [hc] at h
          exact Option.noConfusion h
  · rw [tickStep_fetch_error r id ev w hby, callbacks_append]
    simp [callbacks, hby]

theorem tickLoop_callbacks {σ : Type} (r : Repository σ) (id : Int)
    (schedule : List TickEvent) :
    ∀ w : World σ, callbacks (tickLoop r id schedule w).2.trace =
      callbacks w.trace ++ ((persistedTicks r id schedule w).map Event.onPeriodic ++
        (endSnapshots r id schedule w).map Event.onEnd) := by
  induction schedule with
  | nil => intro w; simp [tickLoop, persistedTicks, endSnapshots]
  | cons ev rest ih =>
    intro w
    cases hs : (tickStep r id ev w).1 with
    | some err =>
      rw [tickLoop_of_returned r id ev rest w err hs,
        tickStep_callbacks_returned r id ev w err hs]
      simp only [persistedTicks, endSnapshots, hs]
      split_ifs <;> simp
    | none =>
      rw [tickLoop_of_continue r id ev rest w hs, ih,
        tickStep_callbacks_continue r id ev w hs]
      simp only [persistedTicks, endSnapshots, hs]
      simp

theorem endSnapshots_length {σ : Type} (r : Repository σ) (id : Int)
    (schedule : List TickEvent) :
    ∀ w : World σ, (endSnapshots r id schedule w).length ≤ 1 := by
  induction schedule with
  | nil => intro w; simp [endSnapshots]
  | cons ev rest ih =>
    intro w
    cases hs : (tickStep r id ev w).1 with
    | some err =>
      simp only [endSnapshots, hs]
      split_ifs <;> simp
    | none =>
      simp only [endSnapshots, hs]
      exact ih _

theorem persistedTicks_length {σ : Type} (r : Repository σ) (id : Int)
    (schedule : List TickEvent) :
    ∀ w : World σ, (persistedTicks r id schedule w).length ≤
      schedule.count TickEvent.timer := by
  induction schedule with
  | nil => intro w; simp [persistedTicks]
  | cons ev rest ih =>
    intro w
    cases hs : (tickStep r id ev w).1 with
    | some err => simp [persistedTicks, hs]
    | none =>
      have hev := ((tickStep_continue_iff r id ev w).1 hs).1
      subst hev
      simp only [persistedTicks, hs, List.length_cons, List.count_cons_self]
      exact Nat.succ_le_succ (ih _)

/-- C28: in every run of `tick` whose initial fetch succeeds, for every
schedule of serviced events, the callbacks recorded by the run are, in order:
one `start` with the initially fetched record; then one `periodic` per step
that went on looping, with the record that step persisted (a step goes on
exactly when it is a timer step whose fetch and `Update` succeed on a record
that is not `Paused`, so there are at most as many as timer events); then at
most one `end`, and nothing after it. -/
theorem callback_order {σ : Type} (id : Int) (config : IntervalConfig σ)
    (schedule : List TickEvent) (w : World σ)
    (hby : (config.repo.ByID id w.store).1.2 = none) :
    callbacks (tick id config schedule w).2.trace =
        callbacks w.trace ++ Event.onStart (config.repo.ByID id w.store).1.1 ::
          ((persistedTicks config.repo id schedule (loopEntry config id w)).map Event.onPeriodic ++
            (endSnapshots config.repo id schedule (loopEntry config id w)).map Event.onEnd) ∧
      (endSnapshots config.repo id schedule (loopEntry config id w)).length ≤ 1 ∧
      (persistedTicks config.repo id schedule (loopEntry config id w)).length ≤
        schedule.count TickEvent.timer ∧
      (∀ (ev : TickEvent) (w2 : World σ),
        (tickStep config.repo id ev w2).1 = none ↔
          (ev = TickEvent.timer ∧ (config.repo.ByID id w2.store).1.2 = none ∧
            (config.repo.ByID id w2.store).1.1.State ≠ StatePaused ∧
            (config.repo.Update { (config.repo.ByID id w2.store).1.1 with
                ActualDuration :=
                  wrapInt64 ((config.repo.ByID id w2.store).1.1.ActualDuration + Second) }
              (config.repo.ByID id w2.store).2).1 = none)) := by
  have htick : tick id config schedule w =
      tickLoop config.repo id schedule (loopEntry config id w) :=
    tick_of_fetch_ok id config schedule w hby
  refine ⟨?_, endSnapshots_length _ _ _ _, persistedTicks_length _ _ _ _,
    fun ev w2 => tickStep_continue_iff config.repo id ev w2⟩
  rw [htick, tickLoop_callbacks]
  have hentry : callbacks (loopEntry config id w).trace =
      callbacks w.trace ++ [Event.onStart (config.repo.ByID id w.store).1.1] := by
    unfold loopEntry
    rw [callbacks_append]
    simp [callbacks]
  rw [hentry]
  simp

theorem callback_order_witness :
    callbacks (tick 1 (memConfig 1500 300 900)
        [TickEvent.timer, TickEvent.timer, TickEvent.expire, TickEvent.timer]
        ⟨[⟨1, 7, 25 * Second, 5 * Second, "Pomodoro", 1⟩], []⟩).2.trace =
      [Event.onStart ⟨1, 7, 25 * Second, 5 * Second, "Pomodoro", 1⟩,
        Event.onPeriodic ⟨1, 7, 25 * Second, 6 * Second, "Pomodoro", 1⟩,
        Event.onPeriodic ⟨1, 7, 25 * Second, 7 * Second, "Pomodoro", 1⟩,
        Event.onEnd ⟨1, 7, 25 * Second, 7 * Second, "Pomodoro", 3⟩] :=
  ((callback_order 1 (memConfig 1500 300 900)
    [TickEvent.timer, TickEvent.timer, TickEvent.expire, TickEvent.timer]
    ⟨[⟨1, 7, 25 * Second, 5 * Second, "Pomodoro", 1⟩], []⟩ (by decide)).1).trans (by decide)

/-! ## The single writes of the engine on the in-memory history -/

theorem tickStep_commit {σ : Type} (r : Repository σ) (id : Int) (ev : TickEvent)
    (w : World σ) :
    tickStep r id ev w = stepCommit r ev (callByID r id w).1 (callByID r id w).2 := by
  cases ev <;> rfl

theorem applyWrite_create (p sb lb : Int) (category : String) (s : Store) :
    applyWrite (memConfig p sb lb) (Write.create category) s =
      s ++ [{ draft (memConfig p sb lb) category with ID := freshID s }] := by
  simp [applyWrite, callCreate, memConfig_repo, memRepo_Create]

theorem applyWrite_start (p sb lb : Int) (i : Interval) (now : Int) (s : Store) :
    applyWrite (memConfig p sb lb) (Write.start i now) s =
      if i.State = StateNotStarted ∨ i.State = StatePaused then
        persist { i with StartTime := if i.State = StateNotStarted then now else i.StartTime,
                         State := StateRunning } s
      else s :=
  applyOp_start p sb lb i now s

theorem applyWrite_pause (p sb lb : Int) (i : Interval) (s : Store) :
    applyWrite (memConfig p sb lb) (Write.pause i) s =
      if i.State = StateRunning then persist { i with State := StatePaused } s else s :=
  applyOp_pause p sb lb i s

theorem applyWrite_commit (p sb lb : Int) (ev : TickEvent) (f : Interval) (s : Store) :
    applyWrite (memConfig p sb lb) (Write.commit ev f) s =
      match ev with
      | TickEvent.timer =>
        if f.State = StatePaused then s
        else persist { f with ActualDuration := wrapInt64 (f.ActualDuration + Second) } s
      | TickEvent.expire => persist { f with State := StateDone } s
      | TickEvent.cancel => persist { f with State := StateCancelled } s := by
  show (stepCommit (memConfig p sb lb).repo ev (f, none) ⟨s, []⟩).2.store = _
  rw [memConfig_repo]
  cases ev with
  | timer =>
    by_cases hp : f.State = StatePaused
    · simp [stepCommit, timerCommit, hp]
    · simp only [stepCommit, timerCommit, hp, if_false, ne_eq, not_true_eq_false]
      split_ifs
      · exact callUpdate_mem_store _ _
      · simp only [emit]
        exact callUpdate_mem_store _ _
  | expire =>
    simp only [stepCommit, ne_eq, not_true_eq_false, if_false]
    exact callUpdate_mem_store _ _
  | cancel =>
    simp only [stepCommit, ne_eq, not_true_eq_false, if_false]
    exact callUpdate_mem_store _ _

theorem applyWrite_length (p sb lb : Int) (wr : Write) (s : Store) :
    (applyWrite (memConfig p sb lb) wr s).length =
      match wr with
      | Write.create _ => s.length + 1
      | _ => s.length := by
  cases wr with
  | create category => rw [applyWrite_create]; simp
  | start i now =>
    rw [applyWrite_start]
    split_ifs <;> simp [persist_length]
  | pause i =>
    rw [applyWrite_pause]
    split_ifs <;> simp [persist_length]
  | commit ev f =>
    rw [applyWrite_commit]
    cases ev with
    | timer => by_cases hp : f.State = StatePaused <;> simp [hp, persist_length]
    | expire => simp [persist_length]
    | cancel => simp [persist_length]

theorem applyWrite_pointwise (p sb lb : Int) (wr : Write) (s : Store) (k : Nat) (x : Interval)
    (hx : s[k]? = some x) :
    ∃ y, (applyWrite (memConfig p sb lb) wr s)[k]? = some y ∧ writeEffect wr s x y := by
  have hk : k < s.length := by
    by_contra h
    rw [List.getElem?_eq_none (by omega)] at hx
    exact Option.noConfusion hx
  cases wr with
  | create category =>
    rw [applyWrite_create]
    refine ⟨x, ?_, rfl⟩
    rw [List.getElem?_append_left hk]; exact hx
  | start i now =>
    rw [applyWrite_start]
    by_cases h1 : i.State = StateNotStarted ∨ i.State = StatePaused
    · rw [if_pos h1]
      obtain ⟨y, hy, hrel⟩ := overwrite_pointwise
        { i with StartTime := if i.State = StateNotStarted then now else i.StartTime,
                 State := StateRunning } s k x hx
      refine ⟨y, hy, ?_⟩
      rcases hrel with h | ⟨h2, h3⟩
      · exact Or.inl h
      · exact Or.inr ⟨h2, h1, h3⟩
    · rw [if_neg h1]
      exact ⟨x, hx, Or.inl rfl⟩
  | pause i =>
    rw [applyWrite_pause]
    by_cases h1 : i.State = StateRunning
    · rw [if_pos h1]
      obtain ⟨y, hy, hrel⟩ := overwrite_pointwise { i with State := StatePaused } s k x hx
      refine ⟨y, hy, ?_⟩
      rcases hrel with h | ⟨h2, h3⟩
      · exact Or.inl h
      · exact Or.inr ⟨h2, h1, h3⟩
    · rw [if_neg h1]
      exact ⟨x, hx, Or.inl rfl⟩
  | commit ev f =>
    rw [applyWrite_commit]
    cases ev with
    | timer =>
      by_cases hp : f.State = StatePaused
      · simp only [hp, if_true]
        exact ⟨x, hx, Or.inl rfl⟩
      · simp only [hp, if_false]
        obtain ⟨y, hy, hrel⟩ := overwrite_pointwise
          { f with ActualDuration := wrapInt64 (f.ActualDuration + Second) } s k x hx
        refine ⟨y, hy, ?_⟩
        rcases hrel with h | ⟨h2, h3⟩
        · exact Or.inl h
        · exact Or.inr ⟨h2, hp, h3⟩
    | expire =>
      obtain ⟨y, hy, hrel⟩ := overwrite_pointwise { f with State := StateDone } s k x hx
      refine ⟨y, hy, ?_⟩
      rcases hrel with h | ⟨h2, h3⟩
      · exact Or.inl h
      · exact Or.inr ⟨h2, h3⟩
    | cancel =>
      obtain ⟨y, hy, hrel⟩ := overwrite_pointwise { f with State := StateCancelled } s k x hx
      refine ⟨y, hy, ?_⟩
      rcases hrel with h | ⟨h2, h3⟩
      · exact Or.inl h
      · exact Or.inr ⟨h2, h3⟩

theorem writeEffect_terminal (wr : Write) (s : Store) (x y : Interval)
    (hcur : stateCurrent wr s) (hterm : isTerminal x = true) (heff : writeEffect wr s x y) :
    isTerminal y = true ∧ (isFinalCommit wr = false → y.State = x.State) := by
  have hx : x.State = StateDone ∨ x.State = StateCancelled := by
    simpa [isTerminal] using hterm
  cases wr with
  | create category =>
    have h : y = x := heff
    subst h
    exact ⟨hterm, fun _ => rfl⟩
  | start i now =>
    rcases heff with h | ⟨h1, h2, _⟩
    · subst h; exact ⟨hterm, fun _ => rfl⟩
    · exfalso
      have hs : x.State = i.State := hcur x h1 h2
      rw [hs] at hx
      rcases h2 with h2 | h2 <;> rcases hx with hx | hx <;> rw [h2] at hx <;>
        exact absurd hx (by decide)
  | pause i =>
    rcases heff with h | ⟨h1, h2, _⟩
    · subst h; exact ⟨hterm, fun _ => rfl⟩
    · exfalso
      have hs : x.State = i.State := hcur x h1 h2
      rw [hs, h2] at hx
      rcases hx with hx | hx <;> exact absurd hx (by decide)
  | commit ev f =>
    cases ev with
    | timer =>
      rcases heff with h | ⟨h1, hnp, h3⟩
      · subst h; exact ⟨hterm, fun _ => rfl⟩
      · have hs : x.State = f.State := hcur x h1 hnp
        subst h3
        refine ⟨?_, fun _ => hs.symm⟩
        have : isTerminal x = true := hterm
        simpa [isTerminal, hs] using this
    | expire =>
      rcases heff with h | ⟨_, h3⟩
      · subst h; exact ⟨hterm, fun _ => rfl⟩
      · subst h3
        exact ⟨by simp [isTerminal], fun h => by simp [isFinalCommit] at h⟩
    | cancel =>
      rcases heff with h | ⟨_, h3⟩
      · subst h; exact ⟨hterm, fun _ => rfl⟩
      · subst h3
        exact ⟨by simp [isTerminal], fun h => by simp [isFinalCommit] at h⟩

theorem writeEffect_progress (wr : Write) (s : Store) (x y : Interval)
    (hkeep : progressCurrent wr s) (heff : writeEffect wr s x y) :
    x.ActualDuration ≤ y.ActualDuration := by
  cases wr with
  | create category =>
    have h : y = x := heff
    subst h; exact le_refl _
  | start i now =>
    rcases heff with h | ⟨h1, h2, h3⟩
    · subst h; exact le_refl _
    · subst h3; exact hkeep x h1 h2
  | pause i =>
    rcases heff with h | ⟨h1, h2, h3⟩
    · subst h; exact le_refl _
    · subst h3; exact hkeep x h1 h2
  | commit ev f =>
    cases ev with
    | timer =>
      rcases heff with h | ⟨h1, hnp, h3⟩
      · subst h; exact le_refl _
      · subst h3
        obtain ⟨hle, hlo, hhi⟩ := hkeep x h1 hnp
        have hs : (0 : Int) ≤ Second := by decide
        show x.ActualDuration ≤ wrapInt64 (f.ActualDuration + Second)
        rw [wrapInt64_id _ (by omega) hhi]
        omega
    | expire =>
      rcases heff with h | ⟨h1, h3⟩
      · subst h; exact le_refl _
      · subst h3; exact hkeep x h1
    | cancel =>
      rcases heff with h | ⟨h1, h3⟩
      · subst h; exact le_refl _
      · subst h3; exact hkeep x h1

theorem newInterval_is_write (p sb lb : Int) (s : Store) (t : List Event) :
    (newInterval (memConfig p sb lb) ⟨s, t⟩).2.store =
      applyWrite (memConfig p sb lb)
        (Write.create (nextCategory (memConfig p sb lb).repo ⟨s, t⟩).1.1) s := by
  rw [(newInterval_mem p sb lb s t).2, applyWrite_create, memConfig_repo,
    (nextCategory_mem s t).1]

theorem serial_getInterval_is_write (p sb lb : Int) (s : Store) :
    applyOp (memConfig p sb lb) Op.getInterval s = s ∨
      (creationDue (Write.create (decideNext (summary s))) s ∧
        applyOp (memConfig p sb lb) Op.getInterval s =
          applyWrite (memConfig p sb lb) (Write.create (decideNext (summary s))) s) := by
  rw [applyOp_getInterval]
  by_cases h : lastActive s = true
  · left; simp [h]
  · right
    simp only [Bool.not_eq_true] at h
    refine ⟨h, ?_⟩
    rw [applyWrite_create]
    simp [h, freshRecord]

theorem serial_tickStep_is_write (p sb lb : Int) (id : Int) (ev : TickEvent) (s : Store) :
    applyOp (memConfig p sb lb) (Op.tickStep id ev) s = s ∨
      ∃ x, lookup id s = some x ∧ stateCurrent (Write.commit ev x) s ∧
        applyOp (memConfig p sb lb) (Op.tickStep id ev) s =
          applyWrite (memConfig p sb lb) (Write.commit ev x) s := by
  rw [applyOp_tickStep]
  cases hl : lookup id s with
  | none => left; rfl
  | some x =>
    right
    have hid : x.ID = id := lookup_id id s x hl
    refine ⟨x, rfl, ?_, ?_⟩
    · cases ev with
      | timer =>
        intro x2 hx2 _
        rw [hid, hl] at hx2
        rw [← Option.some.inj hx2]
      | expire => exact True.intro
      | cancel => exact True.intro
    · rw [applyWrite_commit]

theorem onlyLastActive_write (p sb lb : Int) (wr : Write) (s : Store)
    (hinv : onlyLastActive s) (hcur : stateCurrent wr s) (hdue : creationDue wr s) :
    onlyLastActive (applyWrite (memConfig p sb lb) wr s) := by
  intro k y hy hk
  have hlen := applyWrite_length p sb lb wr s
  have hks : k < s.length := by
    cases wr <;> simp only [] at hlen <;> omega
  have hx : s[k]? = some (s[k]) := List.getElem?_eq_getElem hks
  obtain ⟨y2, hy2, heff⟩ := applyWrite_pointwise p sb lb wr s k _ hx
  rw [hy] at hy2
  have hyy : y = y2 := Option.some.inj hy2
  rw [hyy]
  by_cases hlast : k + 1 = s.length
  · cases wr with
    | create category =>
      have he : y2 = s[k] := heff
      rw [he]
      exact lastActive_false_terminal s hdue k _ hx hlast
    | start i now => simp only [] at hlen; omega
    | pause i => simp only [] at hlen; omega
    | commit ev f => simp only [] at hlen; omega
  · exact (writeEffect_terminal wr s _ y2 hcur (hinv k _ hx (by omega)) heff).1

theorem onlyLastActive_reachable (p sb lb : Int) (s : Store)
    (h : ReachableCurrent (memConfig p sb lb) s) : onlyLastActive s := by
  induction h with
  | init =>
    intro k x hx
    simp at hx
  | step wr s _ hcur hdue ih => exact onlyLastActive_write p sb lb wr s ih hcur hdue

/-- C7 (as stated, refuted), three runs.  (1) `GetInterval` on the empty store
returns interval 1 (`NotStarted`); it is started and its loop is cancelled;
`GetInterval` creates interval 2; `Start` on the value first returned for
interval 1 persists `Running` for interval 1: two stored intervals are active.
(2) Every `Start` and `Pause` is made on the record as stored: interval 1 is
started, one timer step runs, it is paused and started again before the first
loop has seen the pause, so two loops run; the first loop re-fetches the
record (`Running`, 1 s); the second loop services the cancellation, and
`GetInterval` creates interval 2; the first loop then writes back what it
fetched: two stored intervals are active.  (3) Two `GetInterval` calls both
read the empty store before either creates: two `NotStarted` intervals are
stored. -/
theorem two_active_intervals :
    ((GetInterval (memConfig 1500 300 900) ⟨[], []⟩).1 = (⟨1, 0, 1500, 0, "Pomodoro", 0⟩, none) ∧
      runOps (memConfig 1500 300 900)
        [Op.getInterval, Op.start ⟨1, 0, 1500, 0, "Pomodoro", 0⟩ 77,
          Op.tickStep 1 TickEvent.cancel, Op.getInterval,
          Op.start ⟨1, 0, 1500, 0, "Pomodoro", 0⟩ 99] []
        = [⟨1, 99, 1500, 0, "Pomodoro", 1⟩, ⟨2, 0, 300, 0, "ShortBreak", 0⟩] ∧
      activeCount [⟨1, 99, 1500, 0, "Pomodoro", 1⟩, ⟨2, 0, 300, 0, "ShortBreak", 0⟩] = 2) ∧
    (runOps (memConfig (25 * Second) (5 * Second) (15 * Second))
        [Op.getInterval, Op.start ⟨1, 0, 25 * Second, 0, "Pomodoro", 0⟩ 77,
          Op.tickStep 1 TickEvent.timer,
          Op.pause ⟨1, 77, 25 * Second, 1 * Second, "Pomodoro", 1⟩,
          Op.start ⟨1, 77, 25 * Second, 1 * Second, "Pomodoro", 2⟩ 88] []
        = [⟨1, 77, 25 * Second, 1 * Second, "Pomodoro", 1⟩] ∧
      lookup 1 [⟨1, 77, 25 * Second, 1 * Second, "Pomodoro", 1⟩]
        = some ⟨1, 77, 25 * Second, 1 * Second, "Pomodoro", 1⟩ ∧
      runOps (memConfig (25 * Second) (5 * Second) (15 * Second))
        [Op.tickStep 1 TickEvent.cancel, Op.getInterval]
        [⟨1, 77, 25 * Second, 1 * Second, "Pomodoro", 1⟩]
        = [⟨1, 77, 25 * Second, 1 * Second, "Pomodoro", 4⟩,
            ⟨2, 0, 5 * Second, 0, "ShortBreak", 0⟩] ∧
      applyWrite (memConfig (25 * Second) (5 * Second) (15 * Second))
        (Write.commit TickEvent.timer ⟨1, 77, 25 * Second, 1 * Second, "Pomodoro", 1⟩)
        [⟨1, 77, 25 * Second, 1 * Second, "Pomodoro", 4⟩,
          ⟨2, 0, 5 * Second, 0, "ShortBreak", 0⟩]
        = [⟨1, 77, 25 * Second, 2 * Second, "Pomodoro", 1⟩,
            ⟨2, 0, 5 * Second, 0, "ShortBreak", 0⟩] ∧
      activeCount [⟨1, 77, 25 * Second, 2 * Second, "Pomodoro", 1⟩,
        ⟨2, 0, 5 * Second, 0, "ShortBreak", 0⟩] = 2) ∧
    (applyWrite (memConfig 1500 300 900) (Write.create "Pomodoro")
        (applyWrite (memConfig 1500 300 900) (Write.create "Pomodoro") [])
        = [⟨1, 0, 1500, 0, "Pomodoro", 0⟩, ⟨2, 0, 1500, 0, "Pomodoro", 0⟩] ∧
      activeCount [⟨1, 0, 1500, 0, "Pomodoro", 0⟩, ⟨2, 0, 1500, 0, "Pomodoro", 0⟩] = 2) := by
  decide

/-- C7 (amended): under every interleaving of the repository calls, in every
history reachable from the empty store through the writes of the engine (the
`Create` of `GetInterval`, the `Update` of `Start`, of `Pause` and of the
steps of tick loops) in which `Start`, `Pause` and timer steps write back a
copy whose `State` is still the persisted `State` of the record with its
identifier, and `GetInterval` creates while the history is still empty or
ending in a terminal record, every stored interval but the most recent is
`Done` or `Cancelled`, so at most one is active, and whenever a `Create` is
made no stored interval is active.  Deadline and cancellation steps are under
no condition. -/
theorem one_active_under_current_views (p sb lb : Int) (s : Store)
    (h : ReachableCurrent (memConfig p sb lb) s) :
    activeCount s ≤ 1 ∧ onlyLastActive s ∧
      (∀ category : String, creationDue (Write.create category) s → activeCount s = 0) := by
  have hinv := onlyLastActive_reachable p sb lb s h
  exact ⟨activeCount_le_one s hinv, hinv, fun _ hdue => activeCount_zero s hinv hdue⟩

theorem one_active_under_current_views_witness :
    activeCount (applyWrite (memConfig 1500 300 900)
        (Write.commit TickEvent.cancel ⟨1, 77, 1500, 0, "Pomodoro", 1⟩)
        (applyWrite (memConfig 1500 300 900) (Write.start ⟨1, 0, 1500, 0, "Pomodoro", 0⟩ 77)
          (applyWrite (memConfig 1500 300 900) (Write.create "Pomodoro") []))) ≤ 1 :=
  (one_active_under_current_views 1500 300 900 _
    (ReachableCurrent.step (Write.commit TickEvent.cancel ⟨1, 77, 1500, 0, "Pomodoro", 1⟩) _
      (ReachableCurrent.step (Write.start ⟨1, 0, 1500, 0, "Pomodoro", 0⟩ 77) _
        (ReachableCurrent.step (Write.create "Pomodoro") [] ReachableCurrent.init
          True.intro (show lastActive [] = false by decide))
        (by
          intro x hx _
          have h2 : lookup 1 (applyWrite (memConfig 1500 300 900) (Write.create "Pomodoro") [])
              = some ⟨1, 0, 1500, 0, "Pomodoro", 0⟩ := by decide
          rw [← Option.some.inj (hx.symm.trans h2)])
        True.intro)
      True.intro True.intro)).1

/-! ## Terminal states and progress of persisted records -/

/-- C8 (as stated, refuted), three writes.  (1) `Pause` called on a copy of
interval 1 fetched while it was `Running` overwrites the persisted `Done` of
interval 1 by `Paused`.  (2) A deadline step of a tick loop of interval 1
overwrites its persisted `Cancelled` by `Done`.  (3) A timer step that
re-fetched interval 1 while it was `Running` writes `Running` back after
another loop persisted `Cancelled`. -/
theorem terminal_state_overwritten :
    (isTerminal ⟨1, 7, 1500, 1500, "Pomodoro", 3⟩ = true ∧
      applyOp (memConfig 1500 300 900) (Op.pause ⟨1, 7, 1500, 1499, "Pomodoro", 1⟩)
        [⟨1, 7, 1500, 1500, "Pomodoro", 3⟩] = [⟨1, 7, 1500, 1499, "Pomodoro", 2⟩] ∧
      isTerminal ⟨1, 7, 1500, 1499, "Pomodoro", 2⟩ = false) ∧
    (isTerminal ⟨1, 7, 1500, 800, "Pomodoro", 4⟩ = true ∧
      applyOp (memConfig 1500 300 900) (Op.tickStep 1 TickEvent.expire)
        [⟨1, 7, 1500, 800, "Pomodoro", 4⟩] = [⟨1, 7, 1500, 800, "Pomodoro", 3⟩]) ∧
    (isTerminal ⟨1, 7, 25 * Second, 1 * Second, "Pomodoro", 4⟩ = true ∧
      applyWrite (memConfig 1500 300 900)
        (Write.commit TickEvent.timer ⟨1, 7, 25 * Second, 1 * Second, "Pomodoro", 1⟩)
        [⟨1, 7, 25 * Second, 1 * Second, "Pomodoro", 4⟩]
        = [⟨1, 7, 25 * Second, 2 * Second, "Pomodoro", 1⟩] ∧
      isTerminal ⟨1, 7, 25 * Second, 2 * Second, "Pomodoro", 1⟩ = false) := by
  decide

/-- C8 (amended): under every interleaving of the repository calls, on every
history, a write of the engine leaves every record whose persisted state is
`Done` or `Cancelled` at its position and in a terminal state, provided that a
`Start`, a `Pause` or a timer step writes back a copy whose `State` is still
the persisted `State` of the record with its identifier (no condition on a
`Create` nor on deadline and cancellation steps); the persisted `State` is
moreover unchanged unless the write is that of a deadline or cancellation
step, which stores `Done`, respectively `Cancelled`, whatever was
persisted. -/
theorem terminal_kept_by_current_writes (p sb lb : Int) (wr : Write) (s : Store) (k : Nat)
    (x : Interval) (hx : s[k]? = some x) (hterm : isTerminal x = true)
    (hcur : stateCurrent wr s) :
    ∃ y, (applyWrite (memConfig p sb lb) wr s)[k]? = some y ∧ isTerminal y = true ∧
      (isFinalCommit wr = false → y.State = x.State) := by
  obtain ⟨y, hy, heff⟩ := applyWrite_pointwise p sb lb wr s k x hx
  exact ⟨y, hy, writeEffect_terminal wr s x y hcur hterm heff⟩

theorem terminal_kept_by_current_writes_witness :
    ∃ y, (applyWrite (memConfig 1500 300 900)
        (Write.commit TickEvent.timer ⟨1, 7, 1500, 1500, "Pomodoro", 3⟩)
        [⟨1, 7, 1500, 1500, "Pomodoro", 3⟩, ⟨2, 9, 300, 10, "ShortBreak", 1⟩])[0]? = some y ∧
      isTerminal y = true ∧
      (isFinalCommit (Write.commit TickEvent.timer ⟨1, 7, 1500, 1500, "Pomodoro", 3⟩) = false →
        y.State = (⟨1, 7, 1500, 1500, "Pomodoro", 3⟩ : Interval).State) :=
  terminal_kept_by_current_writes 1500 300 900
    (Write.commit TickEvent.timer ⟨1, 7, 1500, 1500, "Pomodoro", 3⟩)
    [⟨1, 7, 1500, 1500, "Pomodoro", 3⟩, ⟨2, 9, 300, 10, "ShortBreak", 1⟩] 0
    ⟨1, 7, 1500, 1500, "Pomodoro", 3⟩ (by decide) (by decide)
    (by
      intro x hx _
      have h2 : lookup 1 [⟨1, 7, 1500, 1500, "Pomodoro", 3⟩, ⟨2, 9, 300, 10, "ShortBreak", 1⟩]
          = some ⟨1, 7, 1500, 1500, "Pomodoro", 3⟩ := by decide
      rw [← Option.some.inj (hx.symm.trans h2)])

/-- C10 (as stated, refuted), three writes.  (1) Interval 1 is fetched while
`Running` with 5 s accumulated; a timer step persists 6 s; `Pause` on the
fetched copy then persists its own 5 s.  (2) A cancellation step re-fetched
interval 1 with 1 s; a timer step of another loop persists 2 s; the
cancellation step then writes back its 1 s.  (3) A timer step on a record
whose `ActualDuration` is the largest `int64` wraps around to a negative
value. -/
theorem actual_duration_lowered :
    (applyOp (memConfig 1500 300 900) (Op.tickStep 1 TickEvent.timer)
        [⟨1, 7, 25 * Second, 5 * Second, "Pomodoro", 1⟩]
        = [⟨1, 7, 25 * Second, 6 * Second, "Pomodoro", 1⟩] ∧
      applyOp (memConfig 1500 300 900) (Op.pause ⟨1, 7, 25 * Second, 5 * Second, "Pomodoro", 1⟩)
        [⟨1, 7, 25 * Second, 6 * Second, "Pomodoro", 1⟩]
        = [⟨1, 7, 25 * Second, 5 * Second, "Pomodoro", 2⟩] ∧
      5 * Second < 6 * Second) ∧
    (applyOp (memConfig 1500 300 900) (Op.tickStep 1 TickEvent.timer)
        [⟨1, 7, 25 * Second, 1 * Second, "Pomodoro", 1⟩]
        = [⟨1, 7, 25 * Second, 2 * Second, "Pomodoro", 1⟩] ∧
      applyWrite (memConfig 1500 300 900)
        (Write.commit TickEvent.cancel ⟨1, 7, 25 * Second, 1 * Second, "Pomodoro", 1⟩)
        [⟨1, 7, 25 * Second, 2 * Second, "Pomodoro", 1⟩]
        = [⟨1, 7, 25 * Second, 1 * Second, "Pomodoro", 4⟩] ∧
      1 * Second < 2 * Second) ∧
    (applyOp (memConfig 1500 300 900) (Op.tickStep 1 TickEvent.timer)
        [⟨1, 7, 25 * Second, 2 ^ 63 - 1, "Pomodoro", 1⟩]
        = [⟨1, 7, 25 * Second, -(2 ^ 63) + Second - 1, "Pomodoro", 1⟩] ∧
      -(2 ^ 63) + Second - 1 < (2 ^ 63 - 1 : Int)) := by
  decide

/-- C10 (amended): under every interleaving of the repository calls, on every
history, no write of the engine replaces the persisted `ActualDuration` of a
record by a smaller value, provided that the receiver of a `Start` or `Pause`
and the record that a step of a tick loop re-fetched carry at least the
`ActualDuration` persisted for their identifier at the time of the write, and
that the increment of a timer step does not leave the `int64` range; a
`Create` is under no condition. -/
theorem progress_kept_by_current_writes (p sb lb : Int) (wr : Write) (s : Store) (k : Nat)
    (x : Interval) (hx : s[k]? = some x) (hkeep : progressCurrent wr s) :
    ∃ y, (applyWrite (memConfig p sb lb) wr s)[k]? = some y ∧
      x.ActualDuration ≤ y.ActualDuration := by
  obtain ⟨y, hy, heff⟩ := applyWrite_pointwise p sb lb wr s k x hx
  exact ⟨y, hy, writeEffect_progress wr s x y hkeep heff⟩

theorem progress_kept_by_current_writes_witness :
    ∃ y, (applyWrite (memConfig 1500 300 900)
        (Write.commit TickEvent.timer ⟨1, 7, 25 * Second, 5 * Second, "Pomodoro", 1⟩)
        [⟨1, 7, 25 * Second, 5 * Second, "Pomodoro", 1⟩])[0]? = some y ∧
      (⟨1, 7, 25 * Second, 5 * Second, "Pomodoro", 1⟩ : Interval).ActualDuration
        ≤ y.ActualDuration :=
  progress_kept_by_current_writes 1500 300 900
    (Write.commit TickEvent.timer ⟨1, 7, 25 * Second, 5 * Second, "Pomodoro", 1⟩)
    [⟨1, 7, 25 * Second, 5 * Second, "Pomodoro", 1⟩] 0
    ⟨1, 7, 25 * Second, 5 * Second, "Pomodoro", 1⟩ (by decide)
    (by
      intro x hx _
      have h2 : lookup 1 [⟨1, 7, 25 * Second, 5 * Second, "Pomodoro", 1⟩]
          = some ⟨1, 7, 25 * Second, 5 * Second, "Pomodoro", 1⟩ := by decide
      have hxe : x = ⟨1, 7, 25 * Second, 5 * Second, "Pomodoro", 1⟩ :=
        Option.some.inj (hx.symm.trans h2)
      subst hxe
      decide)

end Pomodoro

namespace ColStats

/-- C25: `run` validates its arguments in a fixed order and, when a validation
fails, returns without entering the rest of the function: nothing is written
to `out` and no file is opened.  With an empty list of file names it returns
`ErrNoFiles`, whatever the column and the operation; otherwise, with a column
below 1, an error wrapping `ErrInvalidColumn`, whatever the operation;
otherwise, with an operation other than `sum`, `avg`, `min`, `max`, an error
wrapping `ErrInvalidOperation`; otherwise it enters the rest of the
function. -/
theorem run_validation {ε : Type} [DecidableEq ε] (errs : Sentinels ε)
    (pipeline : List String → String → Int → Effects → Option (GoError ε) × Effects)
    (filenames : List String) (op : String) (column : Int) (w : Effects) :
    (filenames = [] → run errs pipeline filenames op column w = (some errs.ErrNoFiles, w)) ∧
      (filenames ≠ [] → column < 1 →
        (run errs pipeline filenames op column w =
            (some (GoError.wrapped errs.ErrInvalidColumn (toString column)), w) ∧
          wraps (GoError.wrapped errs.ErrInvalidColumn (toString column))
            errs.ErrInvalidColumn = true)) ∧
      (filenames ≠ [] → 1 ≤ column →
        ¬ (op = "sum" ∨ op = "avg" ∨ op = "min" ∨ op = "max") →
        (run errs pipeline filenames op column w =
            (some (GoError.wrapped errs.ErrInvalidOperation op), w) ∧
          wraps (GoError.wrapped errs.ErrInvalidOperation op)
            errs.ErrInvalidOperation = true)) ∧
      (filenames ≠ [] → 1 ≤ column →
        (op = "sum" ∨ op = "avg" ∨ op = "min" ∨ op = "max") →
        run errs pipeline filenames op column w = pipeline filenames op column w) := by
  have hwrap : ∀ (b : GoError ε) (d : String), wraps (GoError.wrapped b d) b = true := by
    intro b d
    cases b <;> simp [wraps]
  refine ⟨?_, ?_, ?_, ?_⟩
  · intro h
    simp [run, h]
  · intro h hc
    have hl : filenames.length ≠ 0 := by
      intro h0; exact h (List.length_eq_zero.1 h0)
    exact ⟨by simp [run, hl, hc], hwrap _ _⟩
  · intro h hc hop
    have hl : filenames.length ≠ 0 := by
      intro h0; exact h (List.length_eq_zero.1 h0)
    have hc2 : ¬ column < 1 := by omega
    exact ⟨by simp only [run, hl, hc2, hop, if_false], hwrap _ _⟩
  · intro h hc hop
    have hl : filenames.length ≠ 0 := by
      intro h0; exact h (List.length_eq_zero.1 h0)
    have hc2 : ¬ column < 1 := by omega
    simp only [run, hl, hc2, hop, if_false, if_true]

end ColStats

namespace PScan

theorem concatAll_cons (part : String) (parts : List String) :
    concatAll (part :: parts) = part ++ concatAll parts := rfl

theorem portLoop_eq (ps : List PortState) :
    ∀ message : String, portLoop ps message = message ++ concatAll (ps.map portLine) := by
  induction ps with
  | nil => intro message; simp [portLoop, concatAll]
  | cons p rest ih =>
    intro message
    rw [portLoop, ih, List.map_cons, concatAll_cons]
    cases hp : p.Open <;> simp [portLine, stateString, hp, String.append_assoc]

theorem resultsLoop_eq (rs : List Results) :
    ∀ message : String, resultsLoop rs message = message ++ describedReport rs := by
  induction rs with
  | nil => intro message; simp [resultsLoop, describedReport, concatAll]
  | cons r rest ih =>
    intro message
    have hcons : describedReport (r :: rest) = resultBlock r ++ describedReport rest := rfl
    rw [hcons]
    cases hn : r.NotFound
    · simp only [resultsLoop, hn, ih, portLoop_eq, resultBlock, String.append_assoc,
        Bool.false_eq_true, if_false]
    · simp only [resultsLoop, hn, ih, resultBlock, String.append_assoc, if_true]
      rfl

/-- C26: for every list of results and every writer, `printResults` makes one
write, of exactly the described report: for each result in list order the host
name and `": "`, then `Host not found` and an empty line when the host was not
found, and otherwise a newline, one line `"\t<port>: <open|closed>"` per port
state in order (`open` exactly when the port is open) and an empty line; it
returns what that write returns. -/
theorem printResults_report {ω E : Type} (write : String → ω → Option E × ω) (out : ω)
    (results : List Results) :
    printResults write out results = write (describedReport results) out ∧
      resultsLoop results "" = describedReport results ∧
      (∀ p : PortState, (p.Open = true → portLine p = "\t" ++ toString p.Port ++ ": open\n") ∧
        (p.Open = false → portLine p = "\t" ++ toString p.Port ++ ": closed\n")) := by
  have h : resultsLoop results "" = describedReport results := by
    rw [resultsLoop_eq]; simp
  refine ⟨by rw [printResults, h], h, ?_⟩
  intro p
  constructor
  · intro hp; simp [portLine, hp, String.append_assoc]
  · intro hp; simp [portLine, hp, String.append_assoc]

theorem printResults_scan_scenario :
    resultsLoop
        [⟨"localhost", false, [⟨8080, true⟩, ⟨8081, false⟩]⟩,
          ⟨"unknownhostonmachine", true, []⟩] "" =
      "localhost: \n\t8080: open\n\t8081: closed\n\nunknownhostonmachine: Host not found\n\n" := by
  decide

end PScan
